import Mathlib

/-!
# Object inspector tree handler

A shallow embedding of `sfx2/source/devtools/ObjectInspectorTreeHandler.cxx`:
the value formatter `AnyToString`, the node classes with their virtual
functions, and the routines that append rows to a tree view.

Conventions of the embedding.

* `OUString` is `String`; `OUString::number` on an integer is its decimal text.
* A `uno::Reference` that may be empty is an `Option`; a call through an empty
  reference, an out-of-range `uno::Sequence` subscript and a call through a
  pointer to no live object are results `Except.error` of kind `Failure`,
  next to the exceptions the collaborators throw.
* The services reached through the component context (reflection,
  introspection, invocation, type description manager) are not part of the
  file: they are the fields of `Context`, and every function takes the context
  as a parameter.
* Objects created with `new` live in a `Heap` keyed by their address; the row
  identifier is the decimal text of that address.
-/

namespace ObjectInspector

/-! ## Failures -/

/-- Ways a call can end without a result. -/
inductive Failure where
  /-- an exception thrown by a collaborator (caught by `catch (...)`) -/
  | exception (what : String)
  /-- a call through an empty `uno::Reference` -/
  | nullReference
  /-- `uno::Sequence::operator[]` with an index outside `[0, getLength())` -/
  | indexOutOfRange
  /-- a tree iterator that names no row of the tree -/
  | invalidIterator
  /-- a call through a pointer that is not the address of a live object -/
  | danglingPointer
  /-- the recursion budget of the embedding is used up; a budget above the number of rows
  below the row worked on is never used up -/
  | outOfFuel
  deriving DecidableEq, Repr

/-- Modelled from the spec: the operator `->` of `uno::Reference`, which is not part of the
file: the referenced object, or a failure when the reference is empty. -/
def Reference.deref {α : Type} : Option α → Except Failure α
  | some x => Except.ok x
  | none => Except.error Failure.nullReference

/-- Modelled from the spec: the operator `[]` of `uno::Sequence`, which is not part of the
file and requires `0 <= nIndex < getLength()`; an index outside that range is a failure. -/
def Sequence.index {α : Type} (s : List α) (nIndex : Int) : Except Failure α :=
  if nIndex < 0 then Except.error Failure.indexOutOfRange
  else
    match s[nIndex.toNat]? with
    | some x => Except.ok x
    | none => Except.error Failure.indexOutOfRange

/-- Modelled from the spec: `OUString::number` on the integer types, which is not part of
the file: the decimal text of the number. -/
def OUString.number (n : Int) : String := toString n

/-- Reduction of an integer to the range of `sal_Int32` / `int`. -/
def toInt32 (x : Int) : Int := (x + 2147483648) % 4294967296 - 2147483648

/-! ## Values -/

/-- Modelled from the spec: the type classes of `com::sun::star::uno::TypeClass`, which is
not part of the file. -/
inductive TypeClass where
  | VOID | CHAR | BOOLEAN | BYTE | SHORT | UNSIGNED_SHORT | LONG | UNSIGNED_LONG
  | HYPER | UNSIGNED_HYPER | FLOAT | DOUBLE | STRING | TYPE | ANY | ENUM | TYPEDEF
  | STRUCT | EXCEPTION | SEQUENCE | INTERFACE | SERVICE | MODULE | INTERFACE_METHOD
  | INTERFACE_ATTRIBUTE | UNKNOWN | PROPERTY | CONSTANT | CONSTANTS | SINGLETON
  deriving DecidableEq, Repr

/-- Modelled from the spec: a `uno::Type`, which is not part of the file: a type class and
the name of the type. -/
structure UnoType where
  typeClass : TypeClass
  typeName : String
  deriving DecidableEq, Repr

/-- Modelled from the spec: a `uno::Any`, which is not part of the file: a tagged value that
carries its runtime type. Floating point payloads are kept as their bit pattern; enum,
struct, exception, sequence and interface values carry the name of their type. -/
inductive Any where
  | void
  | char (c : Nat)
  | boolean (b : Bool)
  | byte (n : Int)
  | short (n : Int)
  | unsignedShort (n : Nat)
  | long (n : Int)
  | unsignedLong (n : Nat)
  | hyper (n : Int)
  | unsignedHyper (n : Nat)
  | float (bits : Nat)
  | double (bits : Nat)
  | string (s : String)
  | type (t : UnoType)
  | enum (typeName : String) (value : Int)
  | struct (typeName : String) (members : List Any)
  | exception (typeName : String) (members : List Any)
  | sequence (typeName : String) (elements : List Any)
  | interface (typeName : String) (object : Option Nat)

/-- Modelled from the spec: `Any::getValueType`, the runtime type of the value held. -/
def Any.getValueType : Any → UnoType
  | Any.void => ⟨TypeClass.VOID, "void"⟩
  | Any.char _ => ⟨TypeClass.CHAR, "char"⟩
  | Any.boolean _ => ⟨TypeClass.BOOLEAN, "boolean"⟩
  | Any.byte _ => ⟨TypeClass.BYTE, "byte"⟩
  | Any.short _ => ⟨TypeClass.SHORT, "short"⟩
  | Any.unsignedShort _ => ⟨TypeClass.UNSIGNED_SHORT, "unsigned short"⟩
  | Any.long _ => ⟨TypeClass.LONG, "long"⟩
  | Any.unsignedLong _ => ⟨TypeClass.UNSIGNED_LONG, "unsigned long"⟩
  | Any.hyper _ => ⟨TypeClass.HYPER, "hyper"⟩
  | Any.unsignedHyper _ => ⟨TypeClass.UNSIGNED_HYPER, "unsigned hyper"⟩
  | Any.float _ => ⟨TypeClass.FLOAT, "float"⟩
  | Any.double _ => ⟨TypeClass.DOUBLE, "double"⟩
  | Any.string _ => ⟨TypeClass.STRING, "string"⟩
  | Any.type _ => ⟨TypeClass.TYPE, "type"⟩
  | Any.enum n _ => ⟨TypeClass.ENUM, n⟩
  | Any.struct n _ => ⟨TypeClass.STRUCT, n⟩
  | Any.exception n _ => ⟨TypeClass.EXCEPTION, n⟩
  | Any.sequence n _ => ⟨TypeClass.SEQUENCE, n⟩
  | Any.interface n _ => ⟨TypeClass.INTERFACE, n⟩

/-- Modelled from the spec: `Any::hasValue`, whether a value is set: the type class is not
`VOID`. -/
def Any.hasValue (a : Any) : Bool :=
  decide (a.getValueType.typeClass ≠ TypeClass.VOID)

/-! ## Collaborators reached through the component context -/

/-- An `XIdlField`: its name and its accessor `get`. -/
structure IdlField where
  getName : String
  get : Any → Except Failure Any

/-- An `XIdlArray`: length and element access on a sequence value. -/
structure IdlArray where
  getLen : Any → Except Failure Int
  get : Any → Int → Except Failure Any

/-- An `XIdlClass`: declared name, type class, fields and array access. -/
structure IdlClass where
  getName : String
  getTypeClass : TypeClass
  getFields : List IdlField
  getArray : Option IdlArray

/-- An `XEnumTypeDescription`: the enum values and, index by index, their names. -/
structure EnumTypeDescription where
  getEnumValues : List Int
  getEnumNames : List String

/-- The type description manager, queried as `XHierarchicalNameAccess`; the element found
is queried as `XEnumTypeDescription`, which leaves an empty reference when it is not one. -/
structure HierarchicalNameAccess where
  getByHierarchicalName : String → Except Failure (Option EnumTypeDescription)

/-- A `beans::Property`; only the name is read. -/
structure Property where
  Name : String
  deriving DecidableEq, Repr

/-- The parameter modes `reflection::ParamMode` declares; with these three the `default`
branch of the switch in `MethodNode::getColumnValues` is never taken. -/
inductive ParamMode where
  | IN | OUT | INOUT
  deriving DecidableEq, Repr

/-- A `reflection::ParamInfo`: name, mode and type of one parameter. -/
structure ParamInfo where
  aName : String
  aMode : ParamMode
  aType : IdlClass

/-- An `XIdlMethod`: name, return type, parameters in order and declaring class. -/
structure IdlMethod where
  getName : String
  getReturnType : IdlClass
  getParameterInfos : List ParamInfo
  getDeclaringClass : IdlClass

/-- An `XIntrospectionAccess`: the properties and the methods selected by a concept
mask. -/
structure IntrospectionAccess where
  getProperties : Int → Except Failure (List Property)
  getMethods : Int → Except Failure (List IdlMethod)

/-- An `XInvocation` on an object. -/
structure Invocation where
  hasProperty : String → Except Failure Bool
  getValue : String → Except Failure Any

/-- The component context with the services the inspector obtains from it. -/
structure Context where
  /-- `theCoreReflection`: `XIdlReflection::forName` -/
  forName : String → Option IdlClass
  /-- `Type::getDescription`: the `pTypeName` of the description, if there is one -/
  getDescription : UnoType → Option String
  /-- `getValueByName` on the singleton name, queried as `XHierarchicalNameAccess` -/
  getValueByName : String → Option HierarchicalNameAccess
  /-- `theIntrospection`: `XIntrospection::inspect` -/
  inspect : Any → Except Failure (Option IntrospectionAccess)
  /-- `script::Invocation`: `createInstanceWithArguments` on one value, queried as
  `XInvocation` -/
  createInvocation : Any → Except Failure (Option Invocation)
  /-- `OUString::number` on a `float`, given by bit pattern -/
  numberFloat : Nat → String
  /-- `OUString::number` on a `double`, given by bit pattern -/
  numberDouble : Nat → String

/-- Name under which the type description manager is registered. -/
def constTypeDescriptionManagerSingletonName : String :=
  "/singletons/com.sun.star.reflection.theTypeDescriptionManager"

/-- The function `TypeToIdlClass`. -/
def TypeToIdlClass (rType : UnoType) (xContext : Context) : Option IdlClass :=
  match xContext.getDescription rType with
  | some sOWName => xContext.forName sOWName
  | none => none

/-- Modelled from the spec: `cppu::enum2int`, which is not part of the file; for a value
of type class `ENUM` it yields the enum's integer value, the only case `AnyToString`
reaches it in. -/
def enum2int : Any → Option Int
  | Any.enum _ v => some v
  | _ => none

/-- Index of the first element equal to `v`, or the length when there is none:
`std::find(begin, end, v) - begin`. -/
def findIndex (v : Int) : List Int → Nat
  | [] => 0
  | x :: xs => if x = v then 0 else findIndex v xs + 1

/-- The function `AnyToString`. -/
def AnyToString (aValue : Any) (xContext : Context) : Except Failure String :=
  if aValue.hasValue = false then Except.ok ""
  else
    match aValue with
    | Any.interface _ _ => Except.ok "<Object>"
    | Any.struct _ _ => Except.ok "<Struct>"
    | Any.boolean bBool => Except.ok (if bBool then "True" else "False")
    | Any.char aChar => Except.ok (OUString.number aChar)
    | Any.string s => Except.ok ("\"" ++ s ++ "\"")
    | Any.float aNumber => Except.ok (xContext.numberFloat aNumber)
    | Any.double aNumber => Except.ok (xContext.numberDouble aNumber)
    | Any.byte aNumber => Except.ok (OUString.number aNumber)
    | Any.short aNumber => Except.ok (OUString.number aNumber)
    | Any.long aNumber => Except.ok (OUString.number aNumber)
    | Any.hyper aNumber => Except.ok (OUString.number aNumber)
    | Any.unsignedShort aNumber => Except.ok (OUString.number aNumber)
    | Any.unsignedLong aNumber => Except.ok (OUString.number aNumber)
    | Any.unsignedHyper aNumber => Except.ok (OUString.number aNumber)
    | Any.enum typeName value =>
      match enum2int (Any.enum typeName value) with
      | some nIntValue => do
        let xManager ← Reference.deref
          (xContext.getValueByName constTypeDescriptionManagerSingletonName)
        let xTypeDescription ← (xManager.getByHierarchicalName typeName) >>= Reference.deref
        let aValues := xTypeDescription.getEnumValues
        let nValuesIndex : Int := toInt32 (findIndex nIntValue aValues)
        let aNames := xTypeDescription.getEnumNames
        Sequence.index aNames nValuesIndex
      | none => Except.ok ""
    | _ => Except.ok ""

/-- The function `getAnyType`. -/
def getAnyType (aValue : Any) (xContext : Context) : Except Failure String := do
  let xIdlClass ← Reference.deref (TypeToIdlClass aValue.getValueType xContext)
  pure xIdlClass.getName

/-! ## Nodes -/

/-- The classes that implement `ObjectInspectorNodeInterface`, each with its members;
the context `mxContext` is shared by all nodes and passed to the functions instead. -/
inductive Node where
  | SimpleStringNode (msName : String)
  | MethodNode (mxMethod : IdlMethod)
  | BasicValueNode (msName : String) (maAny : Any)
  | GenericPropertiesNode (msName : String) (maAny : Any)
  | StructNode (msName : String) (maAny : Any)
  | SequenceNode (msName : String) (maAny : Any)

/-- The function `MethodNode::simpleTypeName`. -/
def MethodNode.simpleTypeName (xClass : IdlClass) : String :=
  match xClass.getTypeClass with
  | TypeClass.INTERFACE => "object"
  | TypeClass.STRUCT => "struct"
  | TypeClass.ENUM => "enum"
  | TypeClass.SEQUENCE => "sequence"
  | _ => xClass.getName

/-- One pass of the loop over the parameters in `MethodNode::getColumnValues`; the state is
the text built so far and the flag `bFirst`. -/
def MethodNode.parameterStep (acc : String × Bool) (rParameterInfo : ParamInfo) :
    String × Bool :=
  let aInString := acc.1
  let bFirst := acc.2
  let aInString := if bFirst = false then aInString ++ ", " else aInString
  let aInString :=
    match rParameterInfo.aMode with
    | ParamMode.IN => aInString ++ "[in] "
    | ParamMode.OUT => aInString ++ "[out] "
    | ParamMode.INOUT => aInString ++ "[in&out] "
  (aInString ++ (rParameterInfo.aName ++ " : " ++ MethodNode.simpleTypeName rParameterInfo.aType),
    false)

/-- The function `MethodNode::getColumnValues`. -/
def MethodNode.getColumnValues (mxMethod : IdlMethod) : List (Int × String) :=
  let xClass := mxMethod.getReturnType
  let aOutString := MethodNode.simpleTypeName xClass
  let aParameters := mxMethod.getParameterInfos
  let aInString := (aParameters.foldl MethodNode.parameterStep ("", true)).1
  let aImplementationClass := mxMethod.getDeclaringClass.getName
  [(1, aOutString), (2, aInString), (3, aImplementationClass)]

/-- The function `BasicValueNode::shouldShowExpander`. -/
def BasicValueNode.shouldShowExpander (maAny : Any) : Bool :=
  if maAny.hasValue then
    match maAny.getValueType.typeClass with
    | TypeClass.INTERFACE => true
    | TypeClass.SEQUENCE => true
    | _ => false
  else false

/-- The function `BasicValueNode::getColumnValues`. -/
def BasicValueNode.getColumnValues (maAny : Any) (mxContext : Context) :
    Except Failure (List (Int × String)) :=
  if maAny.hasValue then do
    let aValue ← AnyToString maAny mxContext
    let aType ← getAnyType maAny mxContext
    pure [(1, aValue), (2, aType)]
  else pure []

/-- The function `StructNode::shouldShowExpander`. -/
def StructNode.shouldShowExpander : Bool := true

/-- The function `SequenceNode::shouldShowExpander`. -/
def SequenceNode.shouldShowExpander : Bool := true

/-- The function `SequenceNode::getColumnValues`. -/
def SequenceNode.getColumnValues (maAny : Any) (mxContext : Context) :
    Except Failure (List (Int × String)) := do
  let xClass ← Reference.deref (mxContext.forName maAny.getValueType.typeName)
  let xIdlArray ← Reference.deref xClass.getArray
  let nLength ← xIdlArray.getLen maAny
  let nLength := toInt32 nLength
  let aValue := "0 to " ++ OUString.number (toInt32 (nLength - 1))
  let aType ← getAnyType maAny mxContext
  pure [(1, aValue), (2, aType)]

/-- Virtual `getObjectName`. -/
def Node.getObjectName : Node → String
  | Node.SimpleStringNode msName => msName
  | Node.MethodNode mxMethod => mxMethod.getName
  | Node.BasicValueNode msName _ => msName
  | Node.GenericPropertiesNode msName _ => msName
  | Node.StructNode msName _ => msName
  | Node.SequenceNode msName _ => msName

/-- Virtual `shouldShowExpander`; the base class answers `false`. -/
def Node.shouldShowExpander : Node → Bool
  | Node.SimpleStringNode _ => false
  | Node.MethodNode _ => false
  | Node.BasicValueNode _ maAny => BasicValueNode.shouldShowExpander maAny
  | Node.GenericPropertiesNode _ maAny => BasicValueNode.shouldShowExpander maAny
  | Node.StructNode _ _ => StructNode.shouldShowExpander
  | Node.SequenceNode _ _ => SequenceNode.shouldShowExpander

/-- Virtual `getColumnValues`; the base class answers with no columns. -/
def Node.getColumnValues (mxContext : Context) : Node → Except Failure (List (Int × String))
  | Node.SimpleStringNode _ => pure []
  | Node.MethodNode mxMethod => pure (MethodNode.getColumnValues mxMethod)
  | Node.BasicValueNode _ maAny => BasicValueNode.getColumnValues maAny mxContext
  | Node.GenericPropertiesNode _ maAny => BasicValueNode.getColumnValues maAny mxContext
  | Node.StructNode _ maAny => BasicValueNode.getColumnValues maAny mxContext
  | Node.SequenceNode _ maAny => SequenceNode.getColumnValues maAny mxContext

/-! ## The heap of node objects -/

/-- The live node objects, each under its address (the pointer reinterpreted as
`sal_Int64`); the most recently created object comes first. -/
structure Heap where
  objects : List (Int × Node)

/-- The choice of an address for a new object, given the addresses in use; this is the
allocator behind `new`, which is not part of the file. -/
abbrev Allocator := List Int → Int

/-- The object at an address, if one is live there. -/
def Heap.lookup (h : Heap) (p : Int) : Option Node :=
  match h.objects.find? (fun o => decide (o.1 = p)) with
  | some o => some o.2
  | none => none

/-- A call through a pointer: the object it points to. -/
def Heap.deref (h : Heap) (p : Int) : Except Failure Node :=
  match h.lookup p with
  | some n => Except.ok n
  | none => Except.error Failure.danglingPointer

/-- The expression `new T(...)`: the address of the new object and the heap holding it. -/
def Heap.new (alloc : Allocator) (h : Heap) (n : Node) : Int × Heap :=
  let p := alloc (h.objects.map Prod.fst)
  (p, ⟨(p, n) :: h.objects⟩)

/-- The function `BasicValueNode::createNodeObjectForAny`; a null result is `none`. -/
def BasicValueNode.createNodeObjectForAny (alloc : Allocator) (rName : String) (rAny : Any)
    (heap : Heap) : Option Int × Heap :=
  if rAny.hasValue = false then (none, heap)
  else
    match rAny.getValueType.typeClass with
    | TypeClass.INTERFACE =>
      let r := heap.new alloc (Node.GenericPropertiesNode rName rAny)
      (some r.1, r.2)
    | TypeClass.SEQUENCE =>
      let r := heap.new alloc (Node.SequenceNode rName rAny)
      (some r.1, r.2)
    | TypeClass.STRUCT =>
      let r := heap.new alloc (Node.StructNode rName rAny)
      (some r.1, r.2)
    | _ =>
      let r := heap.new alloc (Node.BasicValueNode rName rAny)
      (some r.1, r.2)

/-! ## The tree view -/

/-- What the tree view stores for one row: the label, the identifier, whether the row
shows an expander for children supplied on demand, and the texts and emphasis set per
column. -/
structure RowData where
  text : String
  id : String
  childrenOnDemand : Bool
  emphasis : List (Int × Bool)
  columns : List (Int × String)
  deriving DecidableEq, Repr

/-- A row with the rows below it, in display order. -/
inductive TreeRow where
  | mk (data : RowData) (children : List TreeRow)

/-- The stored data of a row. -/
def TreeRow.data : TreeRow → RowData
  | TreeRow.mk d _ => d

/-- The rows directly below a row. -/
def TreeRow.children : TreeRow → List TreeRow
  | TreeRow.mk _ cs => cs

/-- Modelled from the spec: `weld::TreeView`, the tree widget (insert a row under a parent
or at the root, set a column text, set emphasis); it is not part of the file. The widget
is the list of its root rows. -/
structure TreeView where
  rows : List TreeRow

/-- A `weld::TreeIter`: the position of a row, as the child indices from the root level
down to the row. -/
abbrev TreeIter := List Nat

/-- The rows directly below the position `path`; the empty path is the root level. -/
def childrenAt : List TreeRow → List Nat → Option (List TreeRow)
  | rows, [] => some rows
  | rows, i :: rest =>
    match rows[i]? with
    | some r => childrenAt r.children rest
    | none => none

/-- Replace the rows directly below the position `path` by `f` of them. -/
def updateChildrenAt (f : List TreeRow → List TreeRow) :
    List TreeRow → List Nat → Option (List TreeRow)
  | rows, [] => some (f rows)
  | rows, i :: rest =>
    match rows[i]? with
    | some r =>
      match updateChildrenAt f r.children rest with
      | some cs => some (rows.set i (TreeRow.mk r.data cs))
      | none => none
    | none => none

/-- Replace the data of the row at the position `path` by `f` of it. -/
def updateRowAt (f : RowData → RowData) : List TreeRow → List Nat → Option (List TreeRow)
  | _, [] => none
  | rows, i :: rest =>
    match rows[i]? with
    | some r =>
      match rest with
      | [] => some (rows.set i (TreeRow.mk (f r.data) r.children))
      | _ :: _ =>
        match updateRowAt f r.children rest with
        | some cs => some (rows.set i (TreeRow.mk r.data cs))
        | none => none
    | none => none

/-- Set the entry of key `col` in an association list, keeping the position of an entry
that is already there. -/
def setColumn {α : Type} (col : Int) (x : α) : List (Int × α) → List (Int × α)
  | [] => [(col, x)]
  | e :: rest => if e.1 = col then (col, x) :: rest else e :: setColumn col x rest

/-- Modelled from the spec: `weld::TreeView::insert` at position `-1` with a label, an
identifier and the children-on-demand flag: the new row becomes the last child of
`pParent` (the last root row when `pParent` is null); the result holds the iterator of
the new row. -/
def TreeView.insert (t : TreeView) (pParent : Option TreeIter) (pStr pId : String)
    (bChildrenOnDemand : Bool) : Except Failure (TreeView × TreeIter) :=
  let path := pParent.getD []
  let row := TreeRow.mk ⟨pStr, pId, bChildrenOnDemand, [], []⟩ []
  match childrenAt t.rows path, updateChildrenAt (fun cs => cs ++ [row]) t.rows path with
  | some cs, some rows => Except.ok (⟨rows⟩, path ++ [cs.length])
  | _, _ => Except.error Failure.invalidIterator

/-- Modelled from the spec: `weld::TreeView::set_text` on a row and a column. -/
def TreeView.set_text (t : TreeView) (rIter : TreeIter) (rStr : String) (col : Int) :
    Except Failure TreeView :=
  match updateRowAt (fun d => ⟨d.text, d.id, d.childrenOnDemand, d.emphasis,
      setColumn col rStr d.columns⟩) t.rows rIter with
  | some rows => Except.ok ⟨rows⟩
  | none => Except.error Failure.invalidIterator

/-- Modelled from the spec: `weld::TreeView::set_text_emphasis` on a row and a column. -/
def TreeView.set_text_emphasis (t : TreeView) (rIter : TreeIter) (bOn : Bool) (col : Int) :
    Except Failure TreeView :=
  match updateRowAt (fun d => ⟨d.text, d.id, d.childrenOnDemand,
      setColumn col bOn d.emphasis, d.columns⟩) t.rows rIter with
  | some rows => Except.ok ⟨rows⟩
  | none => Except.error Failure.invalidIterator

/-- One tree view together with the heap of node objects. -/
structure State where
  tree : TreeView
  heap : Heap

/-- The shared body of `lclAppendNode` and `lclAppendNodeToParent`, which differ in the
parent handed to `insert` only. -/
def lclAppendNodeAt (mxContext : Context) (pTree : TreeView) (heap : Heap)
    (pParent : Option TreeIter) (pEntry : Int) : Except Failure (String × TreeView) := do
  let entry ← heap.deref pEntry
  let sName := entry.getObjectName
  let sId := OUString.number pEntry
  let (pTree, pCurrent) ← pTree.insert pParent sName sId entry.shouldShowExpander
  let pTree ← pTree.set_text_emphasis pCurrent true 0
  let aColumnValues ← entry.getColumnValues mxContext
  let pTree ← aColumnValues.foldlM
    (fun (t : TreeView) (rPair : Int × String) => t.set_text pCurrent rPair.2 rPair.1) pTree
  pure (sId, pTree)

/-- The function `lclAppendNode`: insert under no parent. -/
def lclAppendNode (mxContext : Context) (pTree : TreeView) (heap : Heap) (pEntry : Int) :
    Except Failure (String × TreeView) :=
  lclAppendNodeAt mxContext pTree heap none pEntry

/-- The function `lclAppendNodeToParent`. -/
def lclAppendNodeToParent (mxContext : Context) (pTree : TreeView) (heap : Heap)
    (pParent : Option TreeIter) (pEntry : Int) : Except Failure (String × TreeView) :=
  lclAppendNodeAt mxContext pTree heap pParent pEntry

/-! ## Filling in the children of a node -/

/-- The body of the loop of `SequenceNode::fillChildren`, for the index `i`. -/
def SequenceNode.fillChildrenStep (alloc : Allocator) (mxContext : Context) (maAny : Any)
    (xIdlArray : IdlArray) (pParent : Option TreeIter) (st : State) (i : Nat) :
    Except Failure State := do
  let aArrayValue ← xIdlArray.get maAny i
  let (pObjectInspectorNode, heap) :=
    BasicValueNode.createNodeObjectForAny alloc (OUString.number i) aArrayValue st.heap
  match pObjectInspectorNode with
  | some pEntry => do
    let (_, pTree) ← lclAppendNodeToParent mxContext st.tree heap pParent pEntry
    pure ⟨pTree, heap⟩
  | none => pure ⟨st.tree, heap⟩

/-- The function `SequenceNode::fillChildren`; the loop runs `i` from 0 up to the
length. -/
def SequenceNode.fillChildren (alloc : Allocator) (mxContext : Context) (maAny : Any)
    (st : State) (pParent : Option TreeIter) : Except Failure State := do
  let xClass ← Reference.deref (mxContext.forName maAny.getValueType.typeName)
  let xIdlArray ← Reference.deref xClass.getArray
  let nLength ← xIdlArray.getLen maAny
  let nLength := toInt32 nLength
  (List.range nLength.toNat).foldlM
    (SequenceNode.fillChildrenStep alloc mxContext maAny xIdlArray pParent) st

/-- The concept `beans::PropertyConcept::ALL`. -/
def PropertyConcept.ALL : Int := -1

/-- The concept `beans::PropertyConcept::DANGEROUS`. -/
def PropertyConcept.DANGEROUS : Int := 1

/-- The `try` block in the loop of `GenericPropertiesNode::fillChildren` with its
`catch (...)`: the value read, or the unset value when no property of the name exists or
an exception was thrown. A failure that is no exception is not caught. -/
def GenericPropertiesNode.tryGetValue (xInvocation : Option Invocation) (name : String) :
    Except Failure Any :=
  let tried : Except Failure Any := do
    let inv ← Reference.deref xInvocation
    if (← inv.hasProperty name) then inv.getValue name
    else pure Any.void
  match tried with
  | Except.ok a => pure a
  | Except.error (Failure.exception _) => pure Any.void
  | Except.error e => Except.error e

/-- The body of the loop of `GenericPropertiesNode::fillChildren`, for one property. -/
def GenericPropertiesNode.fillChildrenStep (alloc : Allocator) (mxContext : Context)
    (xInvocation : Option Invocation) (pParent : Option TreeIter) (st : State)
    (xProperty : Property) : Except Failure State := do
  let aCurrentAny ← GenericPropertiesNode.tryGetValue xInvocation xProperty.Name
  let (pObjectInspectorNode, heap) :=
    BasicValueNode.createNodeObjectForAny alloc xProperty.Name aCurrentAny st.heap
  match pObjectInspectorNode with
  | some pEntry => do
    let (_, pTree) ← lclAppendNodeToParent mxContext st.tree heap pParent pEntry
    pure ⟨pTree, heap⟩
  | none => pure ⟨st.tree, heap⟩

/-- The function `GenericPropertiesNode::fillChildren`. -/
def GenericPropertiesNode.fillChildren (alloc : Allocator) (mxContext : Context) (maAny : Any)
    (st : State) (pParent : Option TreeIter) : Except Failure State :=
  if maAny.hasValue = false then pure st
  else do
    let xIntrospectionAccess ← mxContext.inspect maAny
    let xInvocation ← mxContext.createInvocation maAny
    let xProperties ← (Reference.deref xIntrospectionAccess) >>= fun access =>
      access.getProperties (PropertyConcept.ALL - PropertyConcept.DANGEROUS)
    xProperties.foldlM
      (GenericPropertiesNode.fillChildrenStep alloc mxContext xInvocation pParent) st

/-- The body of the loop of `StructNode::fillChildren`, for one field. -/
def StructNode.fillChildrenStep (alloc : Allocator) (mxContext : Context) (maAny : Any)
    (pParent : Option TreeIter) (st : State) (xField : IdlField) : Except Failure State := do
  let aFieldName := xField.getName
  let aFieldValue ← xField.get maAny
  let (pObjectInspectorNode, heap) :=
    BasicValueNode.createNodeObjectForAny alloc aFieldName aFieldValue st.heap
  match pObjectInspectorNode with
  | some pEntry => do
    let (_, pTree) ← lclAppendNodeToParent mxContext st.tree heap pParent pEntry
    pure ⟨pTree, heap⟩
  | none => pure ⟨st.tree, heap⟩

/-- The function `StructNode::fillChildren`. -/
def StructNode.fillChildren (alloc : Allocator) (mxContext : Context) (maAny : Any)
    (st : State) (pParent : Option TreeIter) : Except Failure State := do
  let xClass ← Reference.deref (mxContext.forName maAny.getValueType.typeName)
  let xFields := xClass.getFields
  xFields.foldlM (StructNode.fillChildrenStep alloc mxContext maAny pParent) st

/-! ## Identifiers, disposal and the remaining tree view operations -/

/-- Modelled from the spec: the whitespace test of `OUString::toInt64`, which is not part
of the file: the control characters and the space, and the spaces of the general
punctuation block. -/
def isWhitespace (c : Char) : Bool :=
  decide ((0 < c.toNat ∧ c.toNat ≤ 32) ∨ (8192 ≤ c.toNat ∧ c.toNat ≤ 8203) ∨ c.toNat = 8232 ∨
    c.toNat = 8233)

/-- The value of a decimal digit character. -/
def digitValue (c : Char) : Option Nat :=
  if 48 ≤ c.toNat ∧ c.toNat ≤ 57 then some (c.toNat - 48) else none

/-- The number written by the decimal digits at the head of a character list, read up to
the first character that is no digit, on top of the value `acc` read so far. -/
def leadingDigits : List Char → Nat → Nat
  | [], acc => acc
  | c :: cs, acc =>
    match digitValue c with
    | some d => leadingDigits cs (acc * 10 + d)
    | none => acc

/-- Modelled from the spec: `OUString::toInt64` (radix 10), which is not part of the file:
leading whitespace is skipped, a sign is read, then the decimal digits up to the first
character that is no digit; the result is 0 when the number does not fit `sal_Int64`. -/
def OUString.toInt64 (s : String) : Int :=
  match s.data.dropWhile isWhitespace with
  | [] => 0
  | c :: rest =>
    if c.toNat = 45 then
      if leadingDigits rest 0 ≤ 9223372036854775808 then -((leadingDigits rest 0 : Nat) : Int)
      else 0
    else if c.toNat = 43 then
      if leadingDigits rest 0 ≤ 9223372036854775807 then ((leadingDigits rest 0 : Nat) : Int)
      else 0
    else
      if leadingDigits (c :: rest) 0 ≤ 9223372036854775807 then
        ((leadingDigits (c :: rest) 0 : Nat) : Int)
      else 0

/-- The expression `delete p`: nothing happens for the null pointer; otherwise the object at
`p` is destroyed, and a pointer to no live object is a failure. -/
def Heap.delete (h : Heap) (p : Int) : Except Failure Heap :=
  if p = 0 then Except.ok h
  else
    match h.lookup p with
    | some _ => Except.ok ⟨h.objects.filter (fun o => decide (o.1 ≠ p))⟩
    | none => Except.error Failure.danglingPointer

/-- The row at the position `path`: the child of index `path.getLast` of the position
before it. -/
def rowAt (rows : List TreeRow) (path : List Nat) : Option TreeRow :=
  match path.getLast?, childrenAt rows path.dropLast with
  | some k, some cs => cs[k]?
  | _, _ => none

/-- Modelled from the spec: `weld::TreeView::get_id`, the identifier stored with a row. -/
def TreeView.get_id (t : TreeView) (rIter : TreeIter) : Except Failure String :=
  match rowAt t.rows rIter with
  | some r => Except.ok r.data.id
  | none => Except.error Failure.invalidIterator

/-- Modelled from the spec: `weld::TreeView::iter_has_child`, whether rows lie below a
row. -/
def TreeView.iter_has_child (t : TreeView) (rIter : TreeIter) : Except Failure Bool :=
  match childrenAt t.rows rIter with
  | some cs => Except.ok (!cs.isEmpty)
  | none => Except.error Failure.invalidIterator

/-- Modelled from the spec: `weld::TreeView::iter_children`, which moves an iterator to the
first row below it and tells whether there is one; the result is the moved iterator. -/
def TreeView.iter_children (t : TreeView) (rIter : TreeIter) :
    Except Failure (Option TreeIter) :=
  match childrenAt t.rows rIter with
  | some [] => Except.ok none
  | some (_ :: _) => Except.ok (some (rIter ++ [0]))
  | none => Except.error Failure.invalidIterator

/-- Modelled from the spec: `weld::TreeView::remove`, which takes a row out of the tree
together with the rows below it. -/
def TreeView.remove (t : TreeView) (rIter : TreeIter) : Except Failure TreeView :=
  match rIter.getLast?, rowAt t.rows rIter with
  | some k, some _ =>
    match updateChildrenAt (fun cs => cs.eraseIdx k) t.rows rIter.dropLast with
    | some rows => Except.ok ⟨rows⟩
    | none => Except.error Failure.invalidIterator
  | _, _ => Except.error Failure.invalidIterator

/-- Modelled from the spec: `weld::TreeView::clear`, which leaves the tree without rows. -/
def TreeView.clear (_t : TreeView) : TreeView := ⟨[]⟩

mutual
/-- The positions of a row at `here` and of the rows below it, each row before the rows
below it. -/
def rowPaths (here : List Nat) : TreeRow → List (List Nat)
  | TreeRow.mk _ cs => here :: rowsPaths here 0 cs
/-- The positions of the rows of a list that lies below `parent` and starts at child index
`k`, with the rows below them. -/
def rowsPaths (parent : List Nat) (k : Nat) : List TreeRow → List (List Nat)
  | [] => []
  | c :: cs => rowPaths (parent ++ [k]) c ++ rowsPaths parent (k + 1) cs
end

/-- Modelled from the spec: `weld::TreeView::all_foreach`, which calls `func` on every row
of the tree, a row before the rows below it, until `func` answers `true`. The state of the
caller is threaded through the calls. -/
def TreeView.all_foreach {σ : Type} (t : TreeView)
    (func : σ → TreeIter → Except Failure (σ × Bool)) (init : σ) : Except Failure σ := do
  let r ← (rowsPaths [] 0 t.rows).foldlM
    (fun (acc : σ × Bool) (rEntry : TreeIter) =>
      if acc.2 then pure acc else func acc.1 rEntry) (init, false)
  pure r.1

/-- A state together with the addresses handed to `delete` so far, oldest first. The list
is no member of the program; it records the order of the disposals. -/
structure Traced where
  state : State
  deleted : List Int

/-- Virtual `fillChildren`: nothing for a `SimpleStringNode`, a `MethodNode` and a
`BasicValueNode`. -/
def Node.fillChildren (alloc : Allocator) (mxContext : Context) :
    Node → State → Option TreeIter → Except Failure State
  | Node.SimpleStringNode _, st, _ => pure st
  | Node.MethodNode _, st, _ => pure st
  | Node.BasicValueNode _ _, st, _ => pure st
  | Node.GenericPropertiesNode _ maAny, st, pParent =>
    GenericPropertiesNode.fillChildren alloc mxContext maAny st pParent
  | Node.StructNode _ maAny, st, pParent =>
    StructNode.fillChildren alloc mxContext maAny st pParent
  | Node.SequenceNode _ maAny, st, pParent =>
    SequenceNode.fillChildren alloc mxContext maAny st pParent

/-! ## The tree handler -/

/-- The function `ObjectInspectorTreeHandler::clearObjectInspectorChildren`. Each pass of
the `do ... while (bChild)` loop and each recursive call takes one unit of `fuel`. -/
def clearObjectInspectorChildren : Nat → Traced → TreeIter → Except Failure Traced
  | 0, _, _ => Except.error Failure.outOfFuel
  | fuel + 1, tr, rParent => do
    let bChild ← tr.state.tree.iter_has_child rParent
    if bChild then
      match ← tr.state.tree.iter_children rParent with
      | some pChild => do
        let tr ← clearObjectInspectorChildren fuel tr pChild
        let sID ← tr.state.tree.get_id pChild
        let pEntry := OUString.toInt64 sID
        let heap ← tr.state.heap.delete pEntry
        let pTreeView ← tr.state.tree.remove pChild
        clearObjectInspectorChildren fuel ⟨⟨pTreeView, heap⟩, tr.deleted ++ [pEntry]⟩ rParent
      | none => pure tr
    else pure tr

/-- The function `ObjectInspectorTreeHandler::handleExpanding`. -/
def handleExpanding (alloc : Allocator) (mxContext : Context) (fuel : Nat) (st : State)
    (rParent : TreeIter) : Except Failure State := do
  let sID ← st.tree.get_id rParent
  if sID = "" then pure st
  else do
    let tr ← clearObjectInspectorChildren fuel ⟨st, []⟩ rParent
    let pNode := OUString.toInt64 sID
    let node ← tr.state.heap.deref pNode
    node.fillChildren alloc mxContext tr.state (some rParent)

/-- The callback of `clearAll`: dispose the node of one row and go on. -/
def clearAllEntry (pTreeView : TreeView) (acc : Heap × List Int) (rEntry : TreeIter) :
    Except Failure ((Heap × List Int) × Bool) := do
  let sID ← pTreeView.get_id rEntry
  let pEntry := OUString.toInt64 sID
  let heap ← acc.1.delete pEntry
  pure ((heap, acc.2 ++ [pEntry]), false)

/-- The function `ObjectInspectorTreeHandler::clearAll`. -/
def clearAll (tr : Traced) : Except Failure Traced := do
  let r ← tr.state.tree.all_foreach (clearAllEntry tr.state.tree)
    (tr.state.heap, tr.deleted)
  pure ⟨⟨tr.state.tree.clear, r.1⟩, r.2⟩

/-! ## The four panels -/

/-- An `XServiceInfo` of an object. -/
structure ServiceInfo where
  getImplementationName : Except Failure String
  getSupportedServiceNames : Except Failure (List String)

/-- An `XTypeProvider` of an object. -/
structure TypeProvider where
  getTypes : Except Failure (List UnoType)

/-- The object behind a non-empty `uno::Reference<uno::XInterface>`: its identity and the
interfaces a query finds on it (an empty reference when the interface is not there). -/
structure XInterface where
  object : Nat
  typeProvider : Option TypeProvider
  serviceInfo : Option ServiceInfo

/-- The expression `uno::Any(xInterface)`. -/
def XInterface.toAny (x : XInterface) : Any :=
  Any.interface "com.sun.star.uno.XInterface" (some x.object)

/-- The concept `beans::MethodConcept::ALL`. -/
def MethodConcept.ALL : Int := 2147483647

/-- Modelled from the spec: a `weld::TreeView` as a widget that can be frozen and thawed;
`frozen` tells whether `freeze` was called without a `thaw` after it. -/
structure Panel where
  tree : TreeView
  frozen : Bool

/-- Modelled from the spec: `weld::Widget::freeze`. -/
def Panel.freeze (p : Panel) : Panel := ⟨p.tree, true⟩

/-- Modelled from the spec: `weld::Widget::thaw`. -/
def Panel.thaw (p : Panel) : Panel := ⟨p.tree, false⟩

/-- The members of `ObjectInspectorTreeHandler`, with the heap of the node objects their
rows point to. -/
structure Handler where
  mpInterfacesTreeView : Panel
  mpServicesTreeView : Panel
  mpPropertiesTreeView : Panel
  mpMethodsTreeView : Panel
  mpClassNameLabel : String
  heap : Heap

/-- The four tree views of the handler. -/
inductive PanelId where
  | Interfaces | Services | Properties | Methods
  deriving DecidableEq, Repr

/-- The panel of a handler by its name. -/
def Handler.panel (h : Handler) : PanelId → Panel
  | PanelId.Interfaces => h.mpInterfacesTreeView
  | PanelId.Services => h.mpServicesTreeView
  | PanelId.Properties => h.mpPropertiesTreeView
  | PanelId.Methods => h.mpMethodsTreeView

/-- The handler with one panel replaced. -/
def Handler.setPanel (h : Handler) (id : PanelId) (p : Panel) : Handler :=
  match id with
  | PanelId.Interfaces =>
    ⟨p, h.mpServicesTreeView, h.mpPropertiesTreeView, h.mpMethodsTreeView, h.mpClassNameLabel,
      h.heap⟩
  | PanelId.Services =>
    ⟨h.mpInterfacesTreeView, p, h.mpPropertiesTreeView, h.mpMethodsTreeView,
      h.mpClassNameLabel, h.heap⟩
  | PanelId.Properties =>
    ⟨h.mpInterfacesTreeView, h.mpServicesTreeView, p, h.mpMethodsTreeView, h.mpClassNameLabel,
      h.heap⟩
  | PanelId.Methods =>
    ⟨h.mpInterfacesTreeView, h.mpServicesTreeView, h.mpPropertiesTreeView, p,
      h.mpClassNameLabel, h.heap⟩

/-- The handler with another heap. -/
def Handler.setHeap (h : Handler) (heap : Heap) : Handler :=
  ⟨h.mpInterfacesTreeView, h.mpServicesTreeView, h.mpPropertiesTreeView, h.mpMethodsTreeView,
    h.mpClassNameLabel, heap⟩

/-- The tree of one panel with the heap, as the functions on one tree view see them. -/
def Handler.stateOf (h : Handler) (id : PanelId) : State :=
  ⟨(h.panel id).tree, h.heap⟩

/-- The handler after a function on one tree view has left the state `st`. -/
def Handler.withState (h : Handler) (id : PanelId) (st : State) : Handler :=
  (h.setPanel id ⟨st.tree, (h.panel id).frozen⟩).setHeap st.heap

/-! ## Statements that may throw

The functions above return a state or a failure. Where a caller has no `try`, the state a
failure leaves behind is what remains, so the statements of `introspect` are given once
more with the state at the failure. -/

/-- How a run of statements ends: with the state it leaves, or with a failure that leaves
the function; `s` is then the state reached when the operation that failed was called (an
operation that fails changes nothing itself). -/
inductive Outcome (σ : Type) where
  | done (s : σ)
  | thrown (e : Failure) (s : σ)

/-- The next statement of a sequence: it runs unless an earlier one has failed. -/
def Outcome.step {σ : Type} (o : Outcome σ) (f : σ → Outcome σ) : Outcome σ :=
  match o with
  | Outcome.done s => f s
  | Outcome.thrown e s => Outcome.thrown e s

/-- The state an outcome leaves. -/
def Outcome.state {σ : Type} : Outcome σ → σ
  | Outcome.done s => s
  | Outcome.thrown _ s => s

/-- The failure an outcome ends with, if it ends with one. -/
def Outcome.failure {σ : Type} : Outcome σ → Option Failure
  | Outcome.done _ => none
  | Outcome.thrown e _ => some e

/-- The outcome seen from a larger state, of which `f` replaces a part. -/
def Outcome.map {σ τ : Type} (f : σ → τ) : Outcome σ → Outcome τ
  | Outcome.done s => Outcome.done (f s)
  | Outcome.thrown e s => Outcome.thrown e (f s)

/-- The outcome without the state at the failure. -/
def Outcome.toExcept {σ : Type} : Outcome σ → Except Failure σ
  | Outcome.done s => Except.ok s
  | Outcome.thrown e _ => Except.error e

/-- A range-based `for` over a list: the body runs for each element in order, unless a
statement has failed. -/
def Outcome.forEach {σ ι : Type} (o : Outcome σ) (xs : List ι) (body : σ → ι → Outcome σ) :
    Outcome σ :=
  xs.foldl (fun (o : Outcome σ) (x : ι) => o.step (fun s => body s x)) o

/-- The functions `lclAppendNode` and `lclAppendNodeToParent` statement by statement, on
the tree view and the heap: the row is inserted and emphasised before `getColumnValues` is
called, so a failure of `getColumnValues` leaves the new row in the tree. -/
def Stepwise.lclAppendNodeAt (mxContext : Context) (pParent : Option TreeIter) (pEntry : Int)
    (st : State) : Outcome State :=
  match st.heap.deref pEntry with
  | Except.error e => Outcome.thrown e st
  | Except.ok entry =>
    match st.tree.insert pParent entry.getObjectName (OUString.number pEntry)
        entry.shouldShowExpander with
    | Except.error e => Outcome.thrown e st
    | Except.ok (pTree, pCurrent) =>
      match pTree.set_text_emphasis pCurrent true 0 with
      | Except.error e => Outcome.thrown e ⟨pTree, st.heap⟩
      | Except.ok pTree1 =>
        match entry.getColumnValues mxContext with
        | Except.error e => Outcome.thrown e ⟨pTree1, st.heap⟩
        | Except.ok aColumnValues =>
          Outcome.forEach (Outcome.done ⟨pTree1, st.heap⟩) aColumnValues
            (fun (s : State) (rPair : Int × String) =>
              match s.tree.set_text pCurrent rPair.2 rPair.1 with
              | Except.error e => Outcome.thrown e s
              | Except.ok pTree2 => Outcome.done ⟨pTree2, s.heap⟩)

/-- The body of the loop of `GenericPropertiesNode::fillChildren`, for one property,
statement by statement: the node object is created before its row is appended. -/
def Stepwise.GenericPropertiesNode.fillChildrenStep (alloc : Allocator) (mxContext : Context)
    (xInvocation : Option Invocation) (pParent : Option TreeIter) (st : State)
    (xProperty : Property) : Outcome State :=
  match GenericPropertiesNode.tryGetValue xInvocation xProperty.Name with
  | Except.error e => Outcome.thrown e st
  | Except.ok aCurrentAny =>
    match BasicValueNode.createNodeObjectForAny alloc xProperty.Name aCurrentAny st.heap with
    | (some pEntry, heap) => Stepwise.lclAppendNodeAt mxContext pParent pEntry ⟨st.tree, heap⟩
    | (none, heap) => Outcome.done ⟨st.tree, heap⟩

/-- The function `GenericPropertiesNode::fillChildren` statement by statement. -/
def Stepwise.GenericPropertiesNode.fillChildren (alloc : Allocator) (mxContext : Context)
    (maAny : Any) (st : State) (pParent : Option TreeIter) : Outcome State :=
  if maAny.hasValue = false then Outcome.done st
  else
    match mxContext.inspect maAny with
    | Except.error e => Outcome.thrown e st
    | Except.ok xIntrospectionAccess =>
      match mxContext.createInvocation maAny with
      | Except.error e => Outcome.thrown e st
      | Except.ok xInvocation =>
        match (Reference.deref xIntrospectionAccess) >>= fun access =>
            access.getProperties (PropertyConcept.ALL - PropertyConcept.DANGEROUS) with
        | Except.error e => Outcome.thrown e st
        | Except.ok xProperties =>
          Outcome.forEach (Outcome.done st) xProperties
            (Stepwise.GenericPropertiesNode.fillChildrenStep alloc mxContext xInvocation
              pParent)

/-- The callback `clearAll` hands to `all_foreach`, for one row of the tree `pTreeView`:
the node object the identifier names is deleted; the callback returns `false`, so the walk
goes on. -/
def Stepwise.clearAllEntry (pTreeView : TreeView) (st : State) (rEntry : TreeIter) :
    Outcome State :=
  match pTreeView.get_id rEntry with
  | Except.error e => Outcome.thrown e st
  | Except.ok sID =>
    match st.heap.delete (OUString.toInt64 sID) with
    | Except.error e => Outcome.thrown e st
    | Except.ok heap => Outcome.done ⟨st.tree, heap⟩

/-- The function `ObjectInspectorTreeHandler::clearAll` statement by statement: the walk
over every row, then `clear`. -/
def Stepwise.clearAll (st : State) : Outcome State :=
  (Outcome.forEach (Outcome.done st) (rowsPaths [] 0 st.tree.rows)
    (Stepwise.clearAllEntry st.tree)).step (fun s => Outcome.done ⟨s.tree.clear, s.heap⟩)

/-- The call `clearAll(mpXTreeView)` on one of the panels of the handler. -/
def Handler.clearAll (h : Handler) (id : PanelId) : Outcome Handler :=
  (Stepwise.clearAll (h.stateOf id)).map (h.withState id)

/-- One pass of the loops of `appendInterfaces`, `appendServices` and `appendMethods`:
`lclAppendNode(mpXTreeView, new T(...))`. -/
def appendNewNode (alloc : Allocator) (mxContext : Context) (st : State) (n : Node) :
    Outcome State :=
  let r := st.heap.new alloc n
  Stepwise.lclAppendNodeAt mxContext none r.1 ⟨st.tree, r.2⟩

/-- The function `ObjectInspectorTreeHandler::appendInterfaces`; `xContext` is the
process component context the nodes share. -/
def appendInterfaces (alloc : Allocator) (xContext : Context) (h : Handler)
    (xInterface : Option XInterface) : Outcome Handler :=
  match xInterface with
  | none => Outcome.done h
  | some x =>
    match x.typeProvider with
    | some xTypeProvider =>
      match xTypeProvider.getTypes with
      | Except.error e => Outcome.thrown e h
      | Except.ok xSequenceTypes =>
        (Outcome.forEach (Outcome.done (h.stateOf PanelId.Interfaces)) xSequenceTypes
          (fun (st : State) (xType : UnoType) =>
            appendNewNode alloc xContext st (Node.SimpleStringNode xType.typeName))).map
          (h.withState PanelId.Interfaces)
    | none => Outcome.done h

/-- The function `ObjectInspectorTreeHandler::appendServices`. -/
def appendServices (alloc : Allocator) (xContext : Context) (h : Handler)
    (xInterface : Option XInterface) : Outcome Handler :=
  match xInterface with
  | none => Outcome.done h
  | some x =>
    match (Reference.deref x.serviceInfo) >>= fun xServiceInfo =>
        xServiceInfo.getSupportedServiceNames with
    | Except.error e => Outcome.thrown e h
    | Except.ok aServiceNames =>
      (Outcome.forEach (Outcome.done (h.stateOf PanelId.Services)) aServiceNames
        (fun (st : State) (aServiceName : String) =>
          appendNewNode alloc xContext st (Node.SimpleStringNode aServiceName))).map
        (h.withState PanelId.Services)

/-- The function `ObjectInspectorTreeHandler::appendProperties`. -/
def appendProperties (alloc : Allocator) (xContext : Context) (h : Handler)
    (xInterface : Option XInterface) : Outcome Handler :=
  match xInterface with
  | none => Outcome.done h
  | some x =>
    (Stepwise.GenericPropertiesNode.fillChildren alloc xContext x.toAny
      (h.stateOf PanelId.Properties) none).map (h.withState PanelId.Properties)

/-- The function `ObjectInspectorTreeHandler::appendMethods`. -/
def appendMethods (alloc : Allocator) (xContext : Context) (h : Handler)
    (xInterface : Option XInterface) : Outcome Handler :=
  match xInterface with
  | none => Outcome.done h
  | some x =>
    match (xContext.inspect x.toAny) >>= Reference.deref >>= fun xIntrospectionAccess =>
        xIntrospectionAccess.getMethods MethodConcept.ALL with
    | Except.error e => Outcome.thrown e h
    | Except.ok xMethods =>
      (Outcome.forEach (Outcome.done (h.stateOf PanelId.Methods)) xMethods
        (fun (st : State) (xMethod : IdlMethod) =>
          appendNewNode alloc xContext st (Node.MethodNode xMethod))).map
        (h.withState PanelId.Methods)

/-- The statement `mpXTreeView->freeze()`. -/
def freezePanel (id : PanelId) (h : Handler) : Outcome Handler :=
  Outcome.done (h.setPanel id (h.panel id).freeze)

/-- The statement `mpXTreeView->thaw()`. -/
def thawPanel (id : PanelId) (h : Handler) : Outcome Handler :=
  Outcome.done (h.setPanel id (h.panel id).thaw)

/-- The statements of `introspect` that set the class name label. -/
def setImplementationName (x : XInterface) (h : Handler) : Outcome Handler :=
  match (Reference.deref x.serviceInfo) >>= fun xServiceInfo =>
      xServiceInfo.getImplementationName with
  | Except.error e => Outcome.thrown e h
  | Except.ok aImplementationName =>
    Outcome.done ⟨h.mpInterfacesTreeView, h.mpServicesTreeView, h.mpPropertiesTreeView,
      h.mpMethodsTreeView, aImplementationName, h.heap⟩

/-- The function `ObjectInspectorTreeHandler::introspect`; `xProcessContext` is what
`comphelper::getProcessComponentContext` returns. There is no `try` in the function: the
first statement that fails ends it. -/
def introspect (alloc : Allocator) (xProcessContext : Option Context) (h : Handler)
    (xInterface : Option XInterface) : Outcome Handler :=
  match xInterface with
  | none => Outcome.done h
  | some x =>
    match xProcessContext with
    | none => Outcome.done h
    | some xContext =>
      (((((((((((((((((Outcome.done h).step (setImplementationName x)).step
        (freezePanel PanelId.Interfaces)).step
        (fun h => h.clearAll PanelId.Interfaces)).step
        (fun h => appendInterfaces alloc xContext h xInterface)).step
        (thawPanel PanelId.Interfaces)).step
        (freezePanel PanelId.Services)).step
        (fun h => h.clearAll PanelId.Services)).step
        (fun h => appendServices alloc xContext h xInterface)).step
        (thawPanel PanelId.Services)).step
        (freezePanel PanelId.Properties)).step
        (fun h => h.clearAll PanelId.Properties)).step
        (fun h => appendProperties alloc xContext h xInterface)).step
        (thawPanel PanelId.Properties)).step
        (freezePanel PanelId.Methods)).step
        (fun h => h.clearAll PanelId.Methods)).step
        (fun h => appendMethods alloc xContext h xInterface)).step
        (thawPanel PanelId.Methods)

/-- The function `ObjectInspectorTreeHandler::dispose`. -/
def dispose (h : Handler) : Outcome Handler :=
  ((((Outcome.done h).step (fun h => h.clearAll PanelId.Interfaces)).step
    (fun h => h.clearAll PanelId.Services)).step
    (fun h => h.clearAll PanelId.Properties)).step
    (fun h => h.clearAll PanelId.Methods)

/-! ## A concrete provider, for evaluating the functions -/

/-- Reflection class of a type without fields and without array access. -/
def plainClass (name : String) (tc : TypeClass) : IdlClass :=
  ⟨name, tc, [], none⟩

/-- Field accessor reading the member of a struct value at position `i`. -/
def memberField (name : String) (i : Nat) : IdlField :=
  ⟨name, fun a =>
    match a with
    | Any.struct _ members =>
      match members[i]? with
      | some v => Except.ok v
      | none => Except.error (Failure.exception "IllegalArgumentException")
    | _ => Except.error (Failure.exception "IllegalArgumentException")⟩

/-- Array access reading the elements of a sequence value. -/
def elementArray : IdlArray :=
  ⟨fun a =>
    match a with
    | Any.sequence _ elements => Except.ok elements.length
    | _ => Except.error (Failure.exception "IllegalArgumentException"),
   fun a i =>
    match a with
    | Any.sequence _ elements =>
      match elements[i.toNat]? with
      | some v => Except.ok v
      | none => Except.error (Failure.exception "ArrayIndexOutOfBoundsException")
    | _ => Except.error (Failure.exception "IllegalArgumentException")⟩

/-- The struct `com.sun.star.beans.PropertyValue` with its four members in declaration
order; the member `Value` has type `any`. -/
def propertyValueClass : IdlClass :=
  ⟨"com.sun.star.beans.PropertyValue", TypeClass.STRUCT,
    [memberField "Name" 0, memberField "Handle" 1, memberField "Value" 2,
      memberField "State" 3], none⟩

/-- Enum descriptions known to the sample type description manager. -/
def sampleEnums (name : String) : Except Failure (Option EnumTypeDescription) :=
  if name = "com.sun.star.chart2.MovingAverageType" then
    Except.ok (some ⟨[0, 1, 2], ["Central", "Prior", "AveragedAbscissa"]⟩)
  else if name = "com.sun.star.beans.PropertyState" then
    Except.ok (some ⟨[0, 1, 2], ["DIRECT_VALUE", "DEFAULT_VALUE", "AMBIGUOUS_VALUE"]⟩)
  else Except.error (Failure.exception "NoSuchElementException")

/-- Classes known to the sample reflection service. -/
def sampleClasses (name : String) : Option IdlClass :=
  if name = "string" then some (plainClass name TypeClass.STRING)
  else if name = "long" then some (plainClass name TypeClass.LONG)
  else if name = "boolean" then some (plainClass name TypeClass.BOOLEAN)
  else if name = "com.sun.star.beans.PropertyState" then some (plainClass name TypeClass.ENUM)
  else if name = "com.sun.star.chart2.MovingAverageType" then
    some (plainClass name TypeClass.ENUM)
  else if name = "com.sun.star.beans.PropertyValue" then some propertyValueClass
  else if name = "[]any" then some ⟨name, TypeClass.SEQUENCE, [], some elementArray⟩
  else if name = "[]long" then some ⟨name, TypeClass.SEQUENCE, [], some elementArray⟩
  else if name = "com.sun.star.uno.XInterface" then some (plainClass name TypeClass.INTERFACE)
  else none

/-- Properties of the sample object, in the order the introspection reports them. -/
def sampleProperties : List Property :=
  [⟨"Title"⟩, ⟨"Locked"⟩, ⟨"Count"⟩]

/-- Invocation on the sample object: reading `Locked` throws, the others yield a value. -/
def sampleInvocation : Invocation :=
  ⟨fun _ => Except.ok true,
   fun name =>
    if name = "Title" then Except.ok (Any.string "mytitle")
    else if name = "Locked" then Except.error (Failure.exception "RuntimeException")
    else Except.ok (Any.long 3)⟩

/-- The methods of the sample object, in the order the introspection reports them. -/
def sampleMethods : List IdlMethod :=
  [⟨"getTitle", plainClass "string" TypeClass.STRING, [], plainClass "SampleObject"
      TypeClass.INTERFACE⟩,
   ⟨"setCount", plainClass "void" TypeClass.VOID,
      [⟨"nCount", ParamMode.IN, plainClass "long" TypeClass.LONG⟩],
      plainClass "SampleObject" TypeClass.INTERFACE⟩]

/-- The introspection access of the sample object. -/
def sampleAccess : IntrospectionAccess :=
  ⟨fun _ => Except.ok sampleProperties, fun _ => Except.ok sampleMethods⟩

/-- A component context whose services know the types above and one object. -/
def sampleContext : Context :=
  ⟨sampleClasses,
   fun t => some t.typeName,
   fun name =>
    if name = constTypeDescriptionManagerSingletonName then some ⟨sampleEnums⟩ else none,
   fun _ => Except.ok (some sampleAccess),
   fun _ => Except.ok (some sampleInvocation),
   fun bits => toString bits,
   fun bits => toString bits⟩

/-- An allocator handing out the address after the largest one in use, from 4096 on. -/
def bumpAllocator : Allocator :=
  fun used => used.foldl (fun m a => if m ≤ a then a + 8 else m) 4096

/-- The empty tree view with the empty heap. -/
def emptyState : State := ⟨⟨[]⟩, ⟨[]⟩⟩

/-- A `PropertyValue` whose member `Value` is unset. -/
def samplePropertyValue : Any :=
  Any.struct "com.sun.star.beans.PropertyValue"
    [Any.string "Title", Any.long 0, Any.void, Any.enum "com.sun.star.beans.PropertyState" 0]

/-- A `sequence<any>` of three elements, the middle one unset. -/
def sampleSequence : Any :=
  Any.sequence "[]any" [Any.long 10, Any.void, Any.string "x"]

/-- An interface value for the sample object. -/
def sampleObject : Any :=
  Any.interface "com.sun.star.uno.XInterface" (some 1)

/-- The labels of the root rows of the tree of a result, or nothing on a failure. -/
def rootLabels : Except Failure State → List String
  | Except.ok st => st.tree.rows.map (fun r => r.data.text)
  | Except.error _ => []

/-- An object with two interfaces, an implementation name and one service. -/
def sampleTarget : XInterface :=
  ⟨1,
   some ⟨Except.ok [⟨TypeClass.INTERFACE, "com.sun.star.lang.XServiceInfo"⟩,
     ⟨TypeClass.INTERFACE, "com.sun.star.lang.XTypeProvider"⟩]⟩,
   some ⟨Except.ok "SampleObject", Except.ok ["com.sun.star.text.TextDocument"]⟩⟩

/-- The same object, except that `getSupportedServiceNames` throws. -/
def brokenTarget : XInterface :=
  ⟨1,
   some ⟨Except.ok [⟨TypeClass.INTERFACE, "com.sun.star.lang.XServiceInfo"⟩,
     ⟨TypeClass.INTERFACE, "com.sun.star.lang.XTypeProvider"⟩]⟩,
   some ⟨Except.ok "SampleObject", Except.error (Failure.exception "RuntimeException")⟩⟩

/-- A handler whose four tree views are empty and thawed, with no node object. -/
def emptyHandler : Handler :=
  ⟨⟨⟨[]⟩, false⟩, ⟨⟨[]⟩, false⟩, ⟨⟨[]⟩, false⟩, ⟨⟨[]⟩, false⟩, "", ⟨[]⟩⟩

/-- The labels of the root rows of one panel. -/
def panelLabels (h : Handler) (id : PanelId) : List String :=
  (h.panel id).tree.rows.map (fun r => r.data.text)

/-- The state with one root row, for a `SequenceNode` on the sample sequence. -/
def sequenceRowState : Outcome State :=
  appendNewNode bumpAllocator sampleContext emptyState (Node.SequenceNode "Fields" sampleSequence)

/-- The label and the column texts of each row of a list. -/
def rowTexts (rows : List TreeRow) : List (String × List (Int × String)) :=
  rows.map (fun r => (r.data.text, r.data.columns))

/-- The label and the column texts of the rows below a position in the tree of a result;
nothing on a failure or for a position that is not there. -/
def childTexts (path : List Nat) : Except Failure State → List (String × List (Int × String))
  | Except.ok st =>
    match childrenAt st.tree.rows path with
    | some cs => rowTexts cs
    | none => []
  | Except.error _ => []

/-- A state with one root row whose identifier is the address 4096 of no live object, and
one row below it. -/
def staleRowState : State :=
  ⟨⟨[TreeRow.mk ⟨"Fields", "4096", true, [], []⟩
      [TreeRow.mk ⟨"0", "4104", false, [], []⟩ []]]⟩,
   ⟨[(4104, Node.BasicValueNode "0" (Any.long 10))]⟩⟩

/-! ## The statements of the specification, as definitions -/

/-- The node the specification assigns to a name and a value: no node for an unset value,
else the class chosen by the type class of the value. -/
def specNodeFor (name : String) (v : Any) : Option Node :=
  if v.hasValue = false then none
  else if v.getValueType.typeClass = TypeClass.INTERFACE then
    some (Node.GenericPropertiesNode name v)
  else if v.getValueType.typeClass = TypeClass.SEQUENCE then some (Node.SequenceNode name v)
  else if v.getValueType.typeClass = TypeClass.STRUCT then some (Node.StructNode name v)
  else some (Node.BasicValueNode name v)

/-- The short name of a type in the wording of the specification. -/
def specShortName (t : IdlClass) : String :=
  if t.getTypeClass = TypeClass.INTERFACE then "object"
  else if t.getTypeClass = TypeClass.STRUCT then "struct"
  else if t.getTypeClass = TypeClass.ENUM then "enum"
  else if t.getTypeClass = TypeClass.SEQUENCE then "sequence"
  else t.getName

/-- The text for a parameter mode in the wording of the specification. -/
def specModeText : ParamMode → String
  | ParamMode.IN => "[in] "
  | ParamMode.OUT => "[out] "
  | ParamMode.INOUT => "[in&out] "

/-- The rendering of one parameter in the wording of the specification: mode, name,
`" : "`, short type name. -/
def specParameterText (p : ParamInfo) : String :=
  specModeText p.aMode ++ p.aName ++ " : " ++ specShortName p.aType

/-- The value a property read yields: the result of `getValue` when `hasProperty` answers
yes, and the unset value when it answers no or when either call fails. -/
def readValue (xInvocation : Invocation) (name : String) : Any :=
  match xInvocation.hasProperty name with
  | Except.ok true =>
    match xInvocation.getValue name with
    | Except.ok a => a
    | Except.error _ => Any.void
  | _ => Any.void

/-- The value the accessor of a field yields on a struct value; unset when the accessor
yields none. -/
def fieldValue (maAny : Any) (xField : IdlField) : Any :=
  match xField.get maAny with
  | Except.ok v => v
  | Except.error _ => Any.void

/-- The element the array access yields at index `i` of a sequence value; unset when the
access yields none. -/
def elementValue (xIdlArray : IdlArray) (maAny : Any) (i : Nat) : Any :=
  match xIdlArray.get maAny i with
  | Except.ok v => v
  | Except.error _ => Any.void

/-! ## The row left by an append -/

/-- The change `set_text` makes to the data of a row. -/
def setTextData (d : RowData) (rPair : Int × String) : RowData :=
  ⟨d.text, d.id, d.childrenOnDemand, d.emphasis, setColumn rPair.1 rPair.2 d.columns⟩

/-- The data of the row of a node at address `pEntry` once its label, identifier, expander
flag, emphasis and column texts are set. -/
def rowDataFor (pEntry : Int) (n : Node) (aColumnValues : List (Int × String)) : RowData :=
  aColumnValues.foldl setTextData
    ⟨n.getObjectName, OUString.number pEntry, n.shouldShowExpander, setColumn 0 true [], []⟩

/-- The columns of a node, none when they cannot be computed. -/
def columnsOf (mxContext : Context) (n : Node) : List (Int × String) :=
  match n.getColumnValues mxContext with
  | Except.ok c => c
  | Except.error _ => []

/-- The row, without children, of a created node given with its address. -/
def rowFor (mxContext : Context) (c : Int × Node) : TreeRow :=
  TreeRow.mk (rowDataFor c.1 c.2 (columnsOf mxContext c.2)) []

/-- The two statements every `fillChildren` ends its loop body with: classify the value,
and append the node unless the classifier returned null. -/
def appendValue (alloc : Allocator) (mxContext : Context) (pParent : Option TreeIter)
    (st : State) (name : String) (v : Any) : Except Failure State :=
  match BasicValueNode.createNodeObjectForAny alloc name v st.heap with
  | (some pEntry, heap) => do
    let (_, pTree) ← lclAppendNodeToParent mxContext st.tree heap pParent pEntry
    pure ⟨pTree, heap⟩
  | (none, heap) => pure ⟨st.tree, heap⟩

/-- One step of reading a digit string: append the value of the digit `c`. -/
def digitStep (a : Nat) (c : Char) : Nat := a * 10 + (c.toNat - 48)

/-! ## Rows and addresses of a subtree -/

mutual
/-- The addresses read from the identifiers of a row and of the rows below it, the rows
below a row before the row itself. -/
def postOrderIds : TreeRow → List Int
  | TreeRow.mk d cs => postOrderIdsList cs ++ [OUString.toInt64 d.id]
/-- The addresses read from the identifiers of the rows of a list and of the rows below
them, list order, the rows below a row before the row itself. -/
def postOrderIdsList : List TreeRow → List Int
  | [] => []
  | c :: cs => postOrderIds c ++ postOrderIdsList cs
end

mutual
/-- The addresses read from the identifiers of a row and of the rows below it, the row
itself before the rows below it. -/
def preOrderIds : TreeRow → List Int
  | TreeRow.mk d cs => OUString.toInt64 d.id :: preOrderIdsList cs
/-- The addresses read from the identifiers of the rows of a list and of the rows below
them, list order, a row before the rows below it. -/
def preOrderIdsList : List TreeRow → List Int
  | [] => []
  | c :: cs => preOrderIds c ++ preOrderIdsList cs
end

mutual
/-- The number of rows of a subtree: the row and the rows below it. -/
def rowCount : TreeRow → Nat
  | TreeRow.mk _ cs => 1 + rowsCount cs
/-- The number of rows in a list of subtrees. -/
def rowsCount : List TreeRow → Nat
  | [] => 0
  | c :: cs => rowCount c + rowsCount cs
end

/-- The heap once the objects at the addresses `ps` are destroyed. -/
def Heap.without (h : Heap) (ps : List Int) : Heap :=
  ⟨h.objects.filter (fun o => decide (o.1 ∉ ps))⟩

/-- A state with one expanded root row: the row of a `SequenceNode` at address 4096 and
below it the rows of two `BasicValueNode` objects at the addresses 4104 and 4112. -/
def expandedState : State :=
  ⟨⟨[TreeRow.mk ⟨"Fields", "4096", true, [(0, true)], [(1, "0 to 2"), (2, "[]any")]⟩
      [TreeRow.mk ⟨"0", "4104", false, [(0, true)], [(1, "10"), (2, "long")]⟩ [],
       TreeRow.mk ⟨"2", "4112", false, [(0, true)], [(1, "\"x\""), (2, "string")]⟩ []]]⟩,
   ⟨[(4112, Node.BasicValueNode "2" (Any.string "x")),
     (4104, Node.BasicValueNode "0" (Any.long 10)),
     (4096, Node.SequenceNode "Fields" sampleSequence)]⟩⟩

/-- The addresses a run of `new` expressions hands out one after the other, when the
addresses `used` are in use at its start. -/
def AllocChain (alloc : Allocator) : List Int → List Int → Prop
  | _, [] => True
  | used, p :: ps => p = alloc used ∧ AllocChain alloc (p :: used) ps

/-- The state `expandedState` before its root row was expanded: the row of the
`SequenceNode` at address 4096, with no row below it. -/
def collapsedState : State :=
  ⟨⟨[TreeRow.mk ⟨"Fields", "4096", true, [(0, true)], [(1, "0 to 2"), (2, "[]any")]⟩ []]⟩,
   ⟨[(4096, Node.SequenceNode "Fields" sampleSequence)]⟩⟩

/-- A state with one root row that has no identifier. -/
def placeholderState : State :=
  ⟨⟨[TreeRow.mk ⟨"<dummy>", "", false, [], []⟩ []]⟩, ⟨[]⟩⟩

/-! ## The statements of `introspect`, panel by panel -/

/-- The place of a panel in the order in which `introspect` works on the panels. -/
def PanelId.index : PanelId → Nat
  | PanelId.Interfaces => 0
  | PanelId.Services => 1
  | PanelId.Properties => 2
  | PanelId.Methods => 3

/-- The append function `introspect` calls for a panel. -/
def appendPanel (alloc : Allocator) (xContext : Context) (xInterface : Option XInterface)
    (id : PanelId) (h : Handler) : Outcome Handler :=
  match id with
  | PanelId.Interfaces => appendInterfaces alloc xContext h xInterface
  | PanelId.Services => appendServices alloc xContext h xInterface
  | PanelId.Properties => appendProperties alloc xContext h xInterface
  | PanelId.Methods => appendMethods alloc xContext h xInterface

/-- The four statements of `introspect` for one panel: freeze, clear, append, thaw. -/
def panelBlock (alloc : Allocator) (xContext : Context) (xInterface : Option XInterface)
    (id : PanelId) (o : Outcome Handler) : Outcome Handler :=
  (((o.step (freezePanel id)).step (fun h => h.clearAll id)).step
    (appendPanel alloc xContext xInterface id)).step (thawPanel id)

/-- The outcome of the statements of `introspect` that come before the append call of a
panel: the class name label, the blocks of the panels before it, and its own `freeze` and
`clearAll`. -/
def beforeAppend (alloc : Allocator) (xContext : Context) (x : XInterface) (h : Handler) :
    PanelId → Outcome Handler
  | PanelId.Interfaces =>
    ((((Outcome.done h).step (setImplementationName x)).step
      (freezePanel PanelId.Interfaces)).step (fun h => h.clearAll PanelId.Interfaces))
  | PanelId.Services =>
    (((panelBlock alloc xContext (some x) PanelId.Interfaces
      ((Outcome.done h).step (setImplementationName x))).step
      (freezePanel PanelId.Services)).step (fun h => h.clearAll PanelId.Services))
  | PanelId.Properties =>
    (((panelBlock alloc xContext (some x) PanelId.Services
      (panelBlock alloc xContext (some x) PanelId.Interfaces
        ((Outcome.done h).step (setImplementationName x)))).step
      (freezePanel PanelId.Properties)).step (fun h => h.clearAll PanelId.Properties))
  | PanelId.Methods =>
    (((panelBlock alloc xContext (some x) PanelId.Properties
      (panelBlock alloc xContext (some x) PanelId.Services
        (panelBlock alloc xContext (some x) PanelId.Interfaces
          ((Outcome.done h).step (setImplementationName x))))).step
      (freezePanel PanelId.Methods)).step (fun h => h.clearAll PanelId.Methods))

end ObjectInspector

/-! ## The moving average of a regression curve

The function `MovingAverageRegressionCurveCalculator::calculateValues` of
`chart2/source/tools/MovingAverageRegressionCurveCalculator.cxx`. -/

namespace chart

/-- The operations on `double` that `calculateValues` uses: the literal `0.0`, `+=`, `/=`
and the conversion of a `sal_Int32`. The type of the doubles and the operations are
parameters; nothing is assumed about rounding. -/
structure DoubleOps (D : Type) where
  zero : D
  add : D → D → D
  div : D → D → D
  ofInt32 : Int → D

/-- The conversion of an integer to `size_t`: the value modulo 2^64. -/
def toSizeT (x : Int) : Nat := (x % 18446744073709551616).toNat

/-- The result of an operation on `sal_Int32`; none when it leaves the range of the type,
where the behaviour is undefined. -/
def checkedInt32 (x : Int) : Option Int :=
  if -2147483648 ≤ x ∧ x ≤ 2147483647 then some x else none

/-- The expression `v[i]` on a `std::vector`; none outside of `[0, size)`, where the
behaviour is undefined. -/
def vectorAt {D : Type} (v : List D) (i : Nat) : Option D := v[i]?

/-- The inner loop of `calculateValues` for the index `i`: `j` runs from 0 while it is
below `nPeriod`, and `xAvg` and `yAvg` take up the entries at `i - j`, a difference of
`size_t`. The result holds `xAvg` and `yAvg` after the loop. -/
def sumWindow {D : Type} (ops : DoubleOps D) (aValues : List D × List D) (i : Nat)
    (nPeriod : Int) : Option (D × D) :=
  (List.range nPeriod.toNat).foldlM
    (fun (acc : D × D) (j : Nat) => do
      let x ← vectorAt aValues.1 (toSizeT ((i : Int) - (j : Int)))
      let y ← vectorAt aValues.2 (toSizeT ((i : Int) - (j : Int)))
      pure (ops.add acc.1 x, ops.add acc.2 y))
    (ops.zero, ops.zero)

/-- The body of the outer loop of `calculateValues` for the index `i`; `lists` holds the
members `aXList` and `aYList`. -/
def calculateValuesStep {D : Type} (ops : DoubleOps D) (aValues : List D × List D)
    (nPeriod : Int) (bUseXAvg : Bool) (lists : List D × List D) (i : Nat) :
    Option (List D × List D) := do
  let sums ← sumWindow ops aValues i nPeriod
  let yAvg := ops.div sums.2 (ops.ofInt32 nPeriod)
  let xAvg := ops.div sums.1 (ops.ofInt32 nPeriod)
  let aYList := lists.2 ++ [yAvg]
  if bUseXAvg then pure (lists.1 ++ [xAvg], aYList)
  else do
    let x ← vectorAt aValues.1 i
    pure (lists.1 ++ [x], aYList)

/-- The function `MovingAverageRegressionCurveCalculator::calculateValues`; `lists` holds
the members `aXList` and `aYList`. The index `i` starts at `nPeriod - 1` converted to
`size_t` and runs while it is below `aSize`. -/
def calculateValues {D : Type} (ops : DoubleOps D) (aValues : List D × List D)
    (nPeriod : Int) (bUseXAvg : Bool) (lists : List D × List D) :
    Option (List D × List D) := do
  let aSize := aValues.1.length
  let nStart ← checkedInt32 (nPeriod - 1)
  let i0 := toSizeT nStart
  (List.range' i0 (aSize - i0)).foldlM (calculateValuesStep ops aValues nPeriod bUseXAvg) lists

/-- Doubles as expressions: a value by its name, and the operations as they are written. -/
inductive SymDouble where
  | value (name : String)
  | zero
  | add (a b : SymDouble)
  | div (a b : SymDouble)
  | ofInt32 (n : Int)
  deriving DecidableEq, Repr

/-- The operations that build terms. -/
def symOps : DoubleOps SymDouble := ⟨SymDouble.zero, SymDouble.add, SymDouble.div, SymDouble.ofInt32⟩

/-- Four cleaned points. -/
def samplePoints : List SymDouble × List SymDouble :=
  ([SymDouble.value "x0", SymDouble.value "x1", SymDouble.value "x2", SymDouble.value "x3"],
   [SymDouble.value "y0", SymDouble.value "y1", SymDouble.value "y2", SymDouble.value "y3"])

/-! ### The statement of the specification, as definitions -/

/-- The mean of the `p` entries of `v` from the position `k` on: their sum, taken from the
last of them down to the first, over `p`. -/
def windowMean {D : Type} (ops : DoubleOps D) (v : List D) (k p : Nat) : D :=
  ops.div
    (((List.range p).map (fun j => v.getD (k + p - 1 - j) ops.zero)).foldl ops.add ops.zero)
    (ops.ofInt32 p)

/-- The number of points for `n` values and the period `p`. -/
def pointCount (n : Nat) (p : Int) : Nat :=
  if 1 ≤ p ∧ p ≤ n then n + 1 - p.toNat else 0

/-- The x values of the points: the last x of each window, or the mean of the window. -/
def xPoints {D : Type} (ops : DoubleOps D) (aValues : List D × List D) (p : Int)
    (bUseXAvg : Bool) : List D :=
  (List.range (pointCount aValues.1.length p)).map (fun k =>
    if bUseXAvg then windowMean ops aValues.1 k p.toNat
    else aValues.1.getD (k + p.toNat - 1) ops.zero)

/-- The y values of the points: the mean of each window. -/
def yPoints {D : Type} (ops : DoubleOps D) (aValues : List D × List D) (p : Int) : List D :=
  (List.range (pointCount aValues.1.length p)).map (fun k =>
    windowMean ops aValues.2 k p.toNat)

end chart

namespace ObjectInspector

/-- Invocation on an object whose property `Locked` reads as an enum of a type the type
description manager does not know. -/
def lockedInvocation : Invocation :=
  ⟨fun _ => Except.ok true,
   fun name =>
    if name = "Title" then Except.ok (Any.string "mytitle")
    else if name = "Locked" then Except.ok (Any.enum "com.example.LockState" 0)
    else Except.ok (Any.long 3)⟩

/-- The sample context, with `lockedInvocation` for the invocation service. -/
def lockedContext : Context :=
  ⟨sampleClasses,
   fun t => some t.typeName,
   fun name =>
    if name = constTypeDescriptionManagerSingletonName then some ⟨sampleEnums⟩ else none,
   fun _ => Except.ok (some sampleAccess),
   fun _ => Except.ok (some lockedInvocation),
   fun bits => toString bits,
   fun bits => toString bits⟩

/-- The labels and the identifiers of the root rows of one panel. -/
def panelRows (h : Handler) (id : PanelId) : List (String × String) :=
  (h.panel id).tree.rows.map (fun r => (r.data.text, r.data.id))

/-! ## Lemmas on the basic operations -/

theorem hasValue_eq_false_iff (v : Any) : v.hasValue = false ↔ v = Any.void := by
  cases v <;> simp [Any.hasValue, Any.getValueType]

theorem Heap.lookup_new (alloc : Allocator) (h : Heap) (n : Node) :
    (h.new alloc n).2.lookup (h.new alloc n).1 = some n := by
  simp [Heap.new, Heap.lookup, List.find?]

theorem createNodeObjectForAny_eq (alloc : Allocator) (rName : String) (rAny : Any)
    (heap : Heap) :
    BasicValueNode.createNodeObjectForAny alloc rName rAny heap =
      match specNodeFor rName rAny with
      | none => (none, heap)
      | some n => (some (heap.new alloc n).1, (heap.new alloc n).2) := by
  cases rAny <;>
    simp [BasicValueNode.createNodeObjectForAny, specNodeFor, Any.hasValue, Any.getValueType]

theorem specNodeFor_eq_none_iff (name : String) (v : Any) :
    specNodeFor name v = none ↔ v.hasValue = false := by
  cases v <;> simp [specNodeFor, Any.hasValue, Any.getValueType]

theorem specNodeFor_getObjectName (name : String) (v : Any) (n : Node)
    (h : specNodeFor name v = some n) : n.getObjectName = name := by
  cases v <;> simp [specNodeFor, Any.hasValue, Any.getValueType] at h <;>
    subst h <;> rfl

theorem toInt32_of_range (x : Int) (h0 : -2147483648 ≤ x) (h1 : x ≤ 2147483647) :
    toInt32 x = x := by
  unfold toInt32
  omega

theorem findIndex_le_length (v : Int) (l : List Int) : findIndex v l ≤ l.length := by
  induction l with
  | nil => simp [findIndex]
  | cons x xs ih =>
    simp only [findIndex, List.length_cons]
    split <;> omega

theorem findIndex_eq_of_first (v : Int) (l : List Int) (i : Nat)
    (hi : l[i]? = some v) (hfirst : ∀ j, j < i → l[j]? ≠ some v) :
    findIndex v l = i := by
  induction l generalizing i with
  | nil => simp at hi
  | cons x xs ih =>
    cases i with
    | zero =>
      simp at hi
      simp [findIndex, hi]
    | succ k =>
      have hx : x ≠ v := by
        intro hxv
        exact hfirst 0 (Nat.succ_pos k) (by simp [hxv])
      have hk : xs[k]? = some v := by simpa using hi
      have hf : ∀ j, j < k → xs[j]? ≠ some v := by
        intro j hj
        have := hfirst (j + 1) (Nat.succ_lt_succ hj)
        simpa using this
      simp [findIndex, hx, ih k hk hf]

theorem findIndex_eq_length_of_not_mem (v : Int) (l : List Int) (h : v ∉ l) :
    findIndex v l = l.length := by
  induction l with
  | nil => rfl
  | cons x xs ih =>
    have hx : x ≠ v := fun e => h (by simp [e])
    have hxs : v ∉ xs := fun e => h (by simp [e])
    simp [findIndex, hx, ih hxs]

theorem parameterStep_fold (ps : List ParamInfo) (acc : String) :
    (ps.foldl MethodNode.parameterStep (acc, false)).1 =
      String.intercalate.go acc ", " (ps.map specParameterText) := by
  induction ps generalizing acc with
  | nil => rfl
  | cons p ps ih =>
    have hshort : MethodNode.simpleTypeName p.aType = specShortName p.aType := by
      unfold MethodNode.simpleTypeName specShortName
      cases p.aType.getTypeClass <;> simp
    have hstep : MethodNode.parameterStep (acc, false) p =
        (acc ++ ", " ++ specParameterText p, false) := by
      unfold MethodNode.parameterStep specParameterText
      rw [hshort]
      cases p.aMode <;> simp only [specModeText, String.append_assoc, if_true]
    rw [List.foldl_cons, hstep, ih]
    rfl

theorem parameterStep_join (ps : List ParamInfo) :
    (ps.foldl MethodNode.parameterStep ("", true)).1 =
      String.intercalate ", " (ps.map specParameterText) := by
  cases ps with
  | nil => rfl
  | cons p ps =>
    have hshort : MethodNode.simpleTypeName p.aType = specShortName p.aType := by
      unfold MethodNode.simpleTypeName specShortName
      cases p.aType.getTypeClass <;> simp
    have hstep : MethodNode.parameterStep ("", true) p = (specParameterText p, false) := by
      unfold MethodNode.parameterStep specParameterText
      rw [hshort]
      cases p.aMode <;>
        simp only [specModeText, String.append_assoc, String.empty_append, Bool.true_eq_false,
          if_false]
    rw [List.foldl_cons, hstep, parameterStep_fold]
    rfl

/-! ## The classifier and the value formatter -/

/-- C1: `BasicValueNode::createNodeObjectForAny` returns null exactly when the value is
unset, and the object behind a non-null result is the node the specification assigns: a
`GenericPropertiesNode` for type class interface, a `SequenceNode` for sequence, a
`StructNode` for struct and a `BasicValueNode` for every other type class, holding the
given name and value. -/
theorem createNodeObjectForAny_classifies (alloc : Allocator) (rName : String) (rAny : Any)
    (heap : Heap) :
    ((BasicValueNode.createNodeObjectForAny alloc rName rAny heap).1 = none ↔
        rAny.hasValue = false) ∧
      (BasicValueNode.createNodeObjectForAny alloc rName rAny heap).1.bind
          (BasicValueNode.createNodeObjectForAny alloc rName rAny heap).2.lookup =
        specNodeFor rName rAny := by
  rw [createNodeObjectForAny_eq]
  cases hn : specNodeFor rName rAny with
  | none =>
    have := (specNodeFor_eq_none_iff rName rAny).1 hn
    simp [this]
  | some n =>
    have hv : ¬ rAny.hasValue = false := fun h => by
      rw [(specNodeFor_eq_none_iff rName rAny).2 h] at hn
      cases hn
    refine ⟨⟨fun h => ?_, fun h => absurd h hv⟩, ?_⟩
    · cases h
    · exact Heap.lookup_new alloc heap n

/-- C2: for an enum value that does not occur among the values the registry reports for
its type (the names being no more than the values), `AnyToString` subscripts the name
list at its length and ends in an out-of-range access instead of the empty string. -/
theorem AnyToString_enum_miss_out_of_range (xContext : Context)
    (xManager : HierarchicalNameAccess) (typeName : String) (aValues : List Int)
    (aNames : List String) (v : Int)
    (hmgr : xContext.getValueByName constTypeDescriptionManagerSingletonName = some xManager)
    (hdesc : xManager.getByHierarchicalName typeName = Except.ok (some ⟨aValues, aNames⟩))
    (hlen : aValues.length ≤ 2147483647) (hnames : aNames.length ≤ aValues.length)
    (hmiss : v ∉ aValues) :
    AnyToString (Any.enum typeName v) xContext = Except.error Failure.indexOutOfRange := by
  have hidx : toInt32 ((findIndex v aValues : Nat) : Int) = (aValues.length : Int) := by
    rw [findIndex_eq_length_of_not_mem v aValues hmiss]
    exact toInt32_of_range _ (by omega) (by omega)
  have hget : aNames[aValues.length]? = none := by
    rw [List.getElem?_eq_none_iff]
    exact hnames
  simp [AnyToString, Any.hasValue, Any.getValueType, enum2int, hmgr, hdesc, Reference.deref,
    bind, Except.bind, hidx, Sequence.index, hget]

/-- C2, at a concrete input: the value 7 of the enum with values 0, 1, 2. -/
theorem AnyToString_enum_miss_witness :
    AnyToString (Any.enum "com.sun.star.chart2.MovingAverageType" 7) sampleContext =
      Except.error Failure.indexOutOfRange :=
  AnyToString_enum_miss_out_of_range sampleContext ⟨sampleEnums⟩
    "com.sun.star.chart2.MovingAverageType" [0, 1, 2] ["Central", "Prior", "AveragedAbscissa"]
    7 (by rfl) (by rfl) (by decide) (by decide) (by decide)

/-- C3: for an enum value `v` whose first occurrence in the value list of its type is at
index `i`, `AnyToString` returns the name stored at index `i`. -/
theorem AnyToString_enum_first_occurrence (xContext : Context)
    (xManager : HierarchicalNameAccess) (typeName : String) (aValues : List Int)
    (aNames : List String) (v : Int) (i : Nat) (name : String)
    (hmgr : xContext.getValueByName constTypeDescriptionManagerSingletonName = some xManager)
    (hdesc : xManager.getByHierarchicalName typeName = Except.ok (some ⟨aValues, aNames⟩))
    (hlen : aValues.length ≤ 2147483647)
    (hi : aValues[i]? = some v) (hfirst : ∀ j, j < i → aValues[j]? ≠ some v)
    (hname : aNames[i]? = some name) :
    AnyToString (Any.enum typeName v) xContext = Except.ok name := by
  have hile : i ≤ aValues.length := by
    have := findIndex_le_length v aValues
    rw [findIndex_eq_of_first v aValues i hi hfirst] at this
    exact this
  have hidx : toInt32 ((findIndex v aValues : Nat) : Int) = (i : Int) := by
    rw [findIndex_eq_of_first v aValues i hi hfirst]
    exact toInt32_of_range _ (by omega) (by omega)
  have hneg : ¬ ((i : Int) < 0) := by omega
  simp [AnyToString, Any.hasValue, Any.getValueType, enum2int, hmgr, hdesc, Reference.deref,
    bind, Except.bind, hidx, Sequence.index, hname, hneg]

/-- C3, the example of the specification: with the values 0 "Central", 1 "Prior" and
2 "AveragedAbscissa", the value 1 is shown as "Prior". -/
theorem AnyToString_enum_prior :
    AnyToString (Any.enum "com.sun.star.chart2.MovingAverageType" 1) sampleContext =
      Except.ok "Prior" :=
  AnyToString_enum_first_occurrence sampleContext ⟨sampleEnums⟩
    "com.sun.star.chart2.MovingAverageType" [0, 1, 2] ["Central", "Prior", "AveragedAbscissa"]
    1 1 "Prior" (by rfl) (by rfl) (by decide) (by rfl)
    (by
      intro j hj
      have hj0 : j = 0 := by omega
      subst hj0
      decide)
    (by rfl)

/-- C4: `AnyToString` gives the empty string for an unset value, "True" and "False" for
the booleans, the content between two double-quote characters for a string, "<Object>"
for every value of type class interface and "<Struct>" for every value of type class
struct. -/
theorem AnyToString_display_text (xContext : Context) :
    (∀ v : Any, v.hasValue = false → AnyToString v xContext = Except.ok "") ∧
      AnyToString (Any.boolean true) xContext = Except.ok "True" ∧
      AnyToString (Any.boolean false) xContext = Except.ok "False" ∧
      (∀ s : String, AnyToString (Any.string s) xContext = Except.ok ("\"" ++ s ++ "\"")) ∧
      (∀ v : Any, v.getValueType.typeClass = TypeClass.INTERFACE →
        AnyToString v xContext = Except.ok "<Object>") ∧
      (∀ v : Any, v.getValueType.typeClass = TypeClass.STRUCT →
        AnyToString v xContext = Except.ok "<Struct>") := by
  refine ⟨?_, rfl, rfl, fun s => rfl, ?_, ?_⟩
  · intro v hv
    simp [AnyToString, hv]
  · intro v hv
    cases v <;> simp [Any.getValueType] at hv
    rfl
  · intro v hv
    cases v <;> simp [Any.getValueType] at hv
    rfl

/-- C4, at concrete values: an unset value, a string, an interface and a struct. -/
theorem AnyToString_display_text_witness :
    AnyToString Any.void sampleContext = Except.ok "" ∧
      AnyToString (Any.string "mytitle") sampleContext = Except.ok "\"mytitle\"" ∧
      AnyToString (Any.interface "com.sun.star.uno.XInterface" (some 1)) sampleContext =
        Except.ok "<Object>" ∧
      AnyToString samplePropertyValue sampleContext = Except.ok "<Struct>" :=
  ⟨(AnyToString_display_text sampleContext).1 Any.void (by rfl),
    (AnyToString_display_text sampleContext).2.2.2.1 "mytitle",
    (AnyToString_display_text sampleContext).2.2.2.2.1 _ (by rfl),
    (AnyToString_display_text sampleContext).2.2.2.2.2 _ (by rfl)⟩

/-! ## Sequence nodes: expander and columns -/

/-- C7, as stated, fails: the node of an empty sequence shows an expander. -/
theorem SequenceNode_empty_shows_expander :
    ¬ ((Node.SequenceNode "Fields" (Any.sequence "[]long" [])).shouldShowExpander = true ↔
        0 < ([] : List Any).length) := by
  decide

/-- C7, amended: a `SequenceNode` shows an expander for a sequence of any length, the
empty one included. -/
theorem SequenceNode_always_shows_expander (msName typeName : String) (elements : List Any) :
    (Node.SequenceNode msName (Any.sequence typeName elements)).shouldShowExpander = true ∧
      (Node.SequenceNode msName (Any.sequence typeName [])).shouldShowExpander = true :=
  ⟨rfl, rfl⟩

/-- C8: for a sequence value whose length the reflection reports as `N > 0`,
`SequenceNode::getColumnValues` returns column 1 with "0 to " followed by the decimal
text of `N - 1` and column 2 with the type name `getAnyType` resolves, and nothing else. -/
theorem SequenceNode_getColumnValues_range (mxContext : Context) (maAny : Any)
    (xClass : IdlClass) (xIdlArray : IdlArray) (N : Int) (aType : String)
    (hclass : mxContext.forName maAny.getValueType.typeName = some xClass)
    (harray : xClass.getArray = some xIdlArray)
    (hlen : xIdlArray.getLen maAny = Except.ok N)
    (hpos : 0 < N) (hmax : N ≤ 2147483647)
    (htype : getAnyType maAny mxContext = Except.ok aType) :
    SequenceNode.getColumnValues maAny mxContext =
      Except.ok [(1, "0 to " ++ OUString.number (N - 1)), (2, aType)] := by
  have h1 : toInt32 N = N := toInt32_of_range N (by omega) hmax
  have h2 : toInt32 (N - 1) = N - 1 := toInt32_of_range (N - 1) (by omega) (by omega)
  simp [SequenceNode.getColumnValues, hclass, harray, hlen, htype, Reference.deref, bind,
    Except.bind, h1, h2, pure, Except.pure]

/-- C8, at a concrete input: a `sequence<long>` of three elements gives "0 to 2". -/
theorem SequenceNode_getColumnValues_witness :
    SequenceNode.getColumnValues (Any.sequence "[]long" [Any.long 4, Any.long 5, Any.long 6])
        sampleContext =
      Except.ok [(1, "0 to " ++ OUString.number (3 - 1)), (2, "[]long")] :=
  SequenceNode_getColumnValues_range sampleContext
    (Any.sequence "[]long" [Any.long 4, Any.long 5, Any.long 6])
    ⟨"[]long", TypeClass.SEQUENCE, [], some elementArray⟩ elementArray 3 "[]long"
    (by rfl) (by rfl) (by rfl) (by decide) (by decide) (by rfl)

/-! ## Method nodes -/

/-- C9: `MethodNode::getColumnValues` returns exactly the columns 1, 2 and 3 with the
short name of the return type, the parameter renderings joined by ", " (empty without
parameters, no separator at either end) and the name of the declaring class; and a
`MethodNode` shows no expander. -/
theorem MethodNode_getColumnValues_signature (mxMethod : IdlMethod) :
    MethodNode.getColumnValues mxMethod =
        [(1, specShortName mxMethod.getReturnType),
          (2, String.intercalate ", " (mxMethod.getParameterInfos.map specParameterText)),
          (3, mxMethod.getDeclaringClass.getName)] ∧
      (Node.MethodNode mxMethod).shouldShowExpander = false := by
  have hshort : MethodNode.simpleTypeName mxMethod.getReturnType =
      specShortName mxMethod.getReturnType := by
    unfold MethodNode.simpleTypeName specShortName
    cases mxMethod.getReturnType.getTypeClass <;> simp
  refine ⟨?_, rfl⟩
  unfold MethodNode.getColumnValues
  simp only [hshort, parameterStep_join]

/-! ## Lemmas on the tree view -/

theorem childrenAt_updateChildrenAt (f : List TreeRow → List TreeRow) (p : List Nat) :
    ∀ (rows cs : List TreeRow), childrenAt rows p = some cs →
      ∃ rows1, updateChildrenAt f rows p = some rows1 ∧ childrenAt rows1 p = some (f cs) := by
  induction p with
  | nil =>
    intro rows cs h
    simp only [childrenAt, Option.some.injEq] at h
    subst h
    exact ⟨f rows, rfl, rfl⟩
  | cons i rest ih =>
    intro rows cs h
    simp only [childrenAt] at h
    cases hr : rows[i]? with
    | none => simp [hr] at h
    | some r =>
      simp only [hr] at h
      obtain ⟨cs1, h1, h2⟩ := ih r.children cs h
      have hi : i < rows.length := by
        rcases List.getElem?_eq_some.1 hr with ⟨hlt, _⟩
        exact hlt
      refine ⟨rows.set i (TreeRow.mk r.data cs1), ?_, ?_⟩
      · simp only [updateChildrenAt, hr, h1]
      · simp only [childrenAt, List.getElem?_set_self hi, TreeRow.children, h2]

theorem updateChildrenAt_twice (f g : List TreeRow → List TreeRow) (p : List Nat) :
    ∀ (rows rows1 : List TreeRow), updateChildrenAt f rows p = some rows1 →
      updateChildrenAt g rows1 p = updateChildrenAt (fun cs => g (f cs)) rows p := by
  induction p with
  | nil =>
    intro rows rows1 h
    simp only [updateChildrenAt, Option.some.injEq] at h
    subst h
    rfl
  | cons i rest ih =>
    intro rows rows1 h
    simp only [updateChildrenAt] at h
    cases hr : rows[i]? with
    | none => simp [hr] at h
    | some r =>
      simp only [hr] at h
      cases h1 : updateChildrenAt f r.children rest with
      | none => simp [h1] at h
      | some cs1 =>
        simp only [h1, Option.some.injEq] at h
        subst h
        have hi : i < rows.length := by
          rcases List.getElem?_eq_some.1 hr with ⟨hlt, _⟩
          exact hlt
        have h2 := ih r.children cs1 h1
        simp only [updateChildrenAt, List.getElem?_set_self hi, hr, TreeRow.children,
          TreeRow.data, h2, List.set_set]

theorem updateRowAt_cons_cons (f : RowData → RowData) (rows : List TreeRow) (i j : Nat)
    (more : List Nat) :
    updateRowAt f rows (i :: j :: more) =
      match rows[i]? with
      | some r =>
        match updateRowAt f r.children (j :: more) with
        | some cs => some (rows.set i (TreeRow.mk r.data cs))
        | none => none
      | none => none := by
  rw [updateRowAt]

theorem updateRowAt_appended (f : RowData → RowData) (d : RowData) (p : List Nat) :
    ∀ (rows cs rows1 : List TreeRow), childrenAt rows p = some cs →
      updateChildrenAt (fun l => l ++ [TreeRow.mk d []]) rows p = some rows1 →
      updateRowAt f rows1 (p ++ [cs.length]) =
        updateChildrenAt (fun l => l ++ [TreeRow.mk (f d) []]) rows p := by
  induction p with
  | nil =>
    intro rows cs rows1 hc hu
    simp only [childrenAt, Option.some.injEq] at hc
    simp only [updateChildrenAt, Option.some.injEq] at hu
    subst hc
    subst hu
    simp [updateRowAt, updateChildrenAt, TreeRow.data, TreeRow.children]
  | cons i rest ih =>
    intro rows cs rows1 hc hu
    simp only [childrenAt] at hc
    simp only [updateChildrenAt] at hu
    cases hr : rows[i]? with
    | none => simp [hr] at hc
    | some r =>
      simp only [hr] at hc hu
      cases h1 : updateChildrenAt (fun l => l ++ [TreeRow.mk d []]) r.children rest with
      | none => simp [h1] at hu
      | some cs1 =>
        simp only [h1, Option.some.injEq] at hu
        subst hu
        have hi : i < rows.length := by
          rcases List.getElem?_eq_some.1 hr with ⟨hlt, _⟩
          exact hlt
        have h2 := ih r.children cs cs1 hc h1
        have hne : rest ++ [cs.length] ≠ [] := by simp
        cases hrest : rest ++ [cs.length] with
        | nil => exact absurd hrest hne
        | cons j more =>
          rw [hrest] at h2
          have hpath : (i :: rest) ++ [cs.length] = i :: j :: more := by
            rw [List.cons_append, hrest]
          rw [hpath, updateRowAt_cons_cons]
          simp only [updateChildrenAt, List.getElem?_set_self hi, hr,
            TreeRow.children, TreeRow.data, h2, List.set_set]

/-! ## Lemmas on appending a node -/

theorem set_text_fold (rows cs : List TreeRow) (path : List Nat)
    (hc : childrenAt rows path = some cs) :
    ∀ (cols : List (Int × String)) (d : RowData) (rowsk : List TreeRow),
      updateChildrenAt (fun l => l ++ [TreeRow.mk d []]) rows path = some rowsk →
      ∃ rowsf,
        cols.foldlM (fun (t : TreeView) (rPair : Int × String) =>
            t.set_text (path ++ [cs.length]) rPair.2 rPair.1) ⟨rowsk⟩ = Except.ok ⟨rowsf⟩ ∧
          updateChildrenAt (fun l => l ++ [TreeRow.mk (cols.foldl setTextData d) []]) rows path =
            some rowsf := by
  intro cols
  induction cols with
  | nil =>
    intro d rowsk hk
    exact ⟨rowsk, rfl, hk⟩
  | cons c cols ih =>
    intro d rowsk hk
    obtain ⟨rows2, h2, _⟩ :=
      childrenAt_updateChildrenAt (fun l => l ++ [TreeRow.mk (setTextData d c) []]) path rows cs hc
    have hstep : TreeView.set_text ⟨rowsk⟩ (path ++ [cs.length]) c.2 c.1 = Except.ok ⟨rows2⟩ := by
      have := updateRowAt_appended (fun d => setTextData d c) d path rows cs rowsk hc hk
      unfold setTextData at this
      unfold TreeView.set_text
      simp only [this]
      unfold setTextData at h2
      simp only [h2]
    obtain ⟨rowsf, hf1, hf2⟩ := ih (setTextData d c) rows2 h2
    refine ⟨rowsf, ?_, ?_⟩
    · rw [List.foldlM_cons, hstep]
      exact hf1
    · exact hf2

theorem lclAppendNodeAt_ok (mxContext : Context) (rows cs : List TreeRow) (heap : Heap)
    (pParent : Option TreeIter) (pEntry : Int) (n : Node) (cols : List (Int × String))
    (hderef : heap.deref pEntry = Except.ok n)
    (hcols : n.getColumnValues mxContext = Except.ok cols)
    (hc : childrenAt rows (pParent.getD []) = some cs) :
    ∃ rowsf,
      lclAppendNodeAt mxContext ⟨rows⟩ heap pParent pEntry =
          Except.ok (OUString.number pEntry, ⟨rowsf⟩) ∧
        updateChildrenAt (fun l => l ++ [TreeRow.mk (rowDataFor pEntry n cols) []]) rows
            (pParent.getD []) = some rowsf := by
  obtain ⟨rows1, h1, _⟩ := childrenAt_updateChildrenAt
    (fun l => l ++ [TreeRow.mk ⟨n.getObjectName, OUString.number pEntry, n.shouldShowExpander,
      [], []⟩ []]) (pParent.getD []) rows cs hc
  obtain ⟨rows2, h2, _⟩ := childrenAt_updateChildrenAt
    (fun l => l ++ [TreeRow.mk ⟨n.getObjectName, OUString.number pEntry, n.shouldShowExpander,
      setColumn 0 true [], []⟩ []]) (pParent.getD []) rows cs hc
  have hins : TreeView.insert ⟨rows⟩ pParent n.getObjectName (OUString.number pEntry)
      n.shouldShowExpander = Except.ok (⟨rows1⟩, pParent.getD [] ++ [cs.length]) := by
    unfold TreeView.insert
    simp only [hc, h1]
  have hemph : TreeView.set_text_emphasis ⟨rows1⟩ (pParent.getD [] ++ [cs.length]) true 0 =
      Except.ok ⟨rows2⟩ := by
    have := updateRowAt_appended
      (fun d => ⟨d.text, d.id, d.childrenOnDemand, setColumn 0 true d.emphasis, d.columns⟩)
      ⟨n.getObjectName, OUString.number pEntry, n.shouldShowExpander, [], []⟩
      (pParent.getD []) rows cs rows1 hc h1
    unfold TreeView.set_text_emphasis
    simp only [this, h2]
  obtain ⟨rowsf, hf1, hf2⟩ := set_text_fold rows cs (pParent.getD []) hc cols _ rows2 h2
  refine ⟨rowsf, ?_, hf2⟩
  unfold lclAppendNodeAt
  simp only [hderef, hins, hemph, hcols, hf1, bind, Except.bind, pure, Except.pure]

theorem Heap.deref_new (alloc : Allocator) (h : Heap) (n : Node) :
    (h.new alloc n).2.deref (h.new alloc n).1 = Except.ok n := by
  unfold Heap.deref
  rw [Heap.lookup_new]

theorem appendValue_unset (alloc : Allocator) (mxContext : Context)
    (pParent : Option TreeIter) (st : State) (name : String) (v : Any)
    (hv : specNodeFor name v = none) :
    appendValue alloc mxContext pParent st name v = Except.ok st := by
  unfold appendValue
  rw [createNodeObjectForAny_eq, hv]
  rfl

theorem appendValue_set (alloc : Allocator) (mxContext : Context)
    (pParent : Option TreeIter) (st : State) (name : String) (v : Any) (n : Node)
    (cols : List (Int × String)) (cs : List TreeRow)
    (hv : specNodeFor name v = some n)
    (hcols : n.getColumnValues mxContext = Except.ok cols)
    (hc : childrenAt st.tree.rows (pParent.getD []) = some cs) :
    ∃ rowsf,
      appendValue alloc mxContext pParent st name v =
          Except.ok ⟨⟨rowsf⟩, ⟨(alloc (st.heap.objects.map Prod.fst), n) :: st.heap.objects⟩⟩ ∧
        updateChildrenAt (fun l => l ++ [rowFor mxContext (alloc (st.heap.objects.map Prod.fst), n)])
            st.tree.rows (pParent.getD []) = some rowsf := by
  obtain ⟨rowsf, hf1, hf2⟩ := lclAppendNodeAt_ok mxContext st.tree.rows cs (st.heap.new alloc n).2
    pParent (st.heap.new alloc n).1 n cols (Heap.deref_new alloc st.heap n) hcols hc
  refine ⟨rowsf, ?_, ?_⟩
  · unfold appendValue
    rw [createNodeObjectForAny_eq, hv]
    simp only [lclAppendNodeToParent, hf1, bind, Except.bind, pure, Except.pure]
    rfl
  · have hcolsOf : columnsOf mxContext n = cols := by
      unfold columnsOf
      rw [hcols]
    unfold rowFor
    simp only [hcolsOf]
    exact hf2

theorem updateChildrenAt_self (f : List TreeRow → List TreeRow) (hf : ∀ l, f l = l)
    (p : List Nat) :
    ∀ (rows cs : List TreeRow), childrenAt rows p = some cs →
      updateChildrenAt f rows p = some rows := by
  induction p with
  | nil =>
    intro rows cs _
    simp only [updateChildrenAt, hf]
  | cons i rest ih =>
    intro rows cs h
    simp only [childrenAt] at h
    cases hr : rows[i]? with
    | none => simp [hr] at h
    | some r =>
      simp only [hr] at h
      have h1 := ih r.children cs h
      have hr2 : TreeRow.mk r.data r.children = r := by
        cases r
        rfl
      have hset : rows.set i r = rows := by
        apply List.ext_getElem?
        intro k
        by_cases hk : i = k
        · subst hk
          rw [List.getElem?_set_self']
          simp [hr]
        · rw [List.getElem?_set_ne hk]
      simp only [updateChildrenAt, hr, h1, hr2, hset]

theorem foldlM_appendValue {ι : Type} (alloc : Allocator) (mxContext : Context)
    (pParent : Option TreeIter) (nameOf : ι → String) (valOf : ι → Any)
    (body : State → ι → Except Failure State) :
    ∀ (items : List ι) (st : State) (cs : List TreeRow),
      (∀ s, ∀ it ∈ items, body s it =
        appendValue alloc mxContext pParent s (nameOf it) (valOf it)) →
      (∀ it ∈ items, ∀ n, specNodeFor (nameOf it) (valOf it) = some n →
        ∃ c, n.getColumnValues mxContext = Except.ok c) →
      childrenAt st.tree.rows (pParent.getD []) = some cs →
      ∃ (created : List (Int × Node)) (rowsf : List TreeRow),
        items.foldlM body st = Except.ok ⟨⟨rowsf⟩, ⟨created.reverse ++ st.heap.objects⟩⟩ ∧
          updateChildrenAt (fun l => l ++ created.map (rowFor mxContext)) st.tree.rows
              (pParent.getD []) = some rowsf ∧
          created.map Prod.snd =
            items.filterMap (fun it => specNodeFor (nameOf it) (valOf it)) := by
  intro items
  induction items with
  | nil =>
    intro st cs _ _ hc
    refine ⟨[], st.tree.rows, rfl, ?_, rfl⟩
    exact updateChildrenAt_self _ (fun l => by simp) _ _ cs hc
  | cons it items ih =>
    intro st cs hbody hcols hc
    have hbody1 : ∀ s, ∀ x ∈ items, body s x =
        appendValue alloc mxContext pParent s (nameOf x) (valOf x) :=
      fun s x hx => hbody s x (List.mem_cons_of_mem _ hx)
    have hcols1 : ∀ x ∈ items, ∀ n, specNodeFor (nameOf x) (valOf x) = some n →
        ∃ c, n.getColumnValues mxContext = Except.ok c :=
      fun x hx => hcols x (List.mem_cons_of_mem _ hx)
    cases hn : specNodeFor (nameOf it) (valOf it) with
    | none =>
      obtain ⟨created, rowsf, h1, h2, h3⟩ := ih st cs hbody1 hcols1 hc
      refine ⟨created, rowsf, ?_, h2, ?_⟩
      · rw [List.foldlM_cons, hbody st it (List.mem_cons_self _ _),
          appendValue_unset alloc mxContext pParent st _ _ hn]
        exact h1
      · rw [List.filterMap_cons, hn]
        exact h3
    | some n =>
      obtain ⟨cols, hcn⟩ := hcols it (List.mem_cons_self _ _) n hn
      obtain ⟨rows1, ha1, ha2⟩ :=
        appendValue_set alloc mxContext pParent st _ _ n cols cs hn hcn hc
      obtain ⟨rows1b, hb1, hb2⟩ := childrenAt_updateChildrenAt
        (fun l => l ++ [rowFor mxContext (alloc (st.heap.objects.map Prod.fst), n)])
        (pParent.getD []) st.tree.rows cs hc
      have hsame : rows1b = rows1 := by
        rw [ha2] at hb1
        exact (Option.some.inj hb1).symm
      subst hsame
      obtain ⟨created, rowsf, h1, h2, h3⟩ :=
        ih ⟨⟨rows1b⟩, ⟨(alloc (st.heap.objects.map Prod.fst), n) :: st.heap.objects⟩⟩ _
          hbody1 hcols1 hb2
      refine ⟨(alloc (st.heap.objects.map Prod.fst), n) :: created, rowsf, ?_, ?_, ?_⟩
      · rw [List.foldlM_cons, hbody st it (List.mem_cons_self _ _), ha1]
        simp only [List.reverse_cons, List.append_assoc, List.singleton_append]
        exact h1
      · rw [updateChildrenAt_twice _ _ _ _ _ ha2] at h2
        simp only [List.append_assoc, List.singleton_append] at h2
        simpa using h2
      · rw [List.filterMap_cons, hn, List.map_cons, h3]

theorem StructNode_fillChildrenStep_eq (alloc : Allocator) (mxContext : Context) (maAny : Any)
    (pParent : Option TreeIter) (st : State) (xField : IdlField) (v : Any)
    (hget : xField.get maAny = Except.ok v) :
    StructNode.fillChildrenStep alloc mxContext maAny pParent st xField =
      appendValue alloc mxContext pParent st xField.getName v := by
  unfold StructNode.fillChildrenStep appendValue
  simp only [hget, bind, Except.bind]
  rw [createNodeObjectForAny_eq]
  cases specNodeFor xField.getName v <;> rfl

theorem SequenceNode_fillChildrenStep_eq (alloc : Allocator) (mxContext : Context)
    (maAny : Any) (xIdlArray : IdlArray) (pParent : Option TreeIter) (st : State) (i : Nat)
    (v : Any) (hget : xIdlArray.get maAny i = Except.ok v) :
    SequenceNode.fillChildrenStep alloc mxContext maAny xIdlArray pParent st i =
      appendValue alloc mxContext pParent st (OUString.number i) v := by
  unfold SequenceNode.fillChildrenStep appendValue
  simp only [hget, bind, Except.bind]
  rw [createNodeObjectForAny_eq]
  cases specNodeFor (OUString.number i) v <;> rfl

theorem GenericPropertiesNode_tryGetValue_eq (xInvocation : Invocation) (name : String)
    (hhas : ∀ e, xInvocation.hasProperty name = Except.error e → ∃ w, e = Failure.exception w)
    (hval : ∀ e, xInvocation.getValue name = Except.error e → ∃ w, e = Failure.exception w) :
    GenericPropertiesNode.tryGetValue (some xInvocation) name =
      Except.ok (readValue xInvocation name) := by
  unfold GenericPropertiesNode.tryGetValue readValue
  cases h1 : xInvocation.hasProperty name with
  | error e =>
    obtain ⟨w, hw⟩ := hhas e h1
    subst hw
    simp [Reference.deref, bind, Except.bind, h1, pure, Except.pure]
  | ok b =>
    cases b with
    | false => simp [Reference.deref, bind, Except.bind, h1, pure, Except.pure]
    | true =>
      cases h2 : xInvocation.getValue name with
      | error e =>
        obtain ⟨w, hw⟩ := hval e h2
        subst hw
        simp [Reference.deref, bind, Except.bind, h1, h2, pure, Except.pure]
      | ok a =>
        simp [Reference.deref, bind, Except.bind, h1, h2, pure, Except.pure]

theorem GenericPropertiesNode_fillChildrenStep_eq (alloc : Allocator) (mxContext : Context)
    (xInvocation : Invocation) (pParent : Option TreeIter) (st : State) (xProperty : Property)
    (hhas : ∀ e, xInvocation.hasProperty xProperty.Name = Except.error e →
      ∃ w, e = Failure.exception w)
    (hval : ∀ e, xInvocation.getValue xProperty.Name = Except.error e →
      ∃ w, e = Failure.exception w) :
    GenericPropertiesNode.fillChildrenStep alloc mxContext (some xInvocation) pParent st
        xProperty =
      appendValue alloc mxContext pParent st xProperty.Name
        (readValue xInvocation xProperty.Name) := by
  unfold GenericPropertiesNode.fillChildrenStep appendValue
  rw [GenericPropertiesNode_tryGetValue_eq xInvocation xProperty.Name hhas hval]
  simp only [bind, Except.bind]
  rw [createNodeObjectForAny_eq]
  cases specNodeFor xProperty.Name (readValue xInvocation xProperty.Name) <;> rfl

theorem foldl_setTextData_text (cols : List (Int × String)) :
    ∀ d : RowData, (cols.foldl setTextData d).text = d.text := by
  induction cols with
  | nil =>
    intro d
    rfl
  | cons c cols ih =>
    intro d
    rw [List.foldl_cons, ih]
    rfl

theorem rowFor_text (mxContext : Context) (c : Int × Node) :
    (rowFor mxContext c).data.text = c.2.getObjectName := by
  unfold rowFor rowDataFor
  simp only [TreeRow.data]
  rw [foldl_setTextData_text]

theorem created_labels {ι : Type} (mxContext : Context) (nameOf : ι → String)
    (valOf : ι → Any) (items : List ι) :
    ∀ (created : List (Int × Node)),
      created.map Prod.snd = items.filterMap (fun it => specNodeFor (nameOf it) (valOf it)) →
      (created.map (rowFor mxContext)).map (fun r => r.data.text) =
        (items.filter (fun it => (valOf it).hasValue)).map nameOf := by
  induction items with
  | nil =>
    intro created h
    simp only [List.filterMap_nil, List.map_eq_nil_iff] at h
    subst h
    rfl
  | cons it items ih =>
    intro created h
    cases hn : specNodeFor (nameOf it) (valOf it) with
    | none =>
      have hv := (specNodeFor_eq_none_iff _ _).1 hn
      rw [List.filterMap_cons, hn] at h
      rw [List.filter_cons, hv]
      exact ih created h
    | some n =>
      have hv : (valOf it).hasValue = true := by
        cases hb : (valOf it).hasValue with
        | true => rfl
        | false =>
          rw [(specNodeFor_eq_none_iff _ _).2 hb] at hn
          cases hn
      rw [List.filterMap_cons, hn] at h
      cases created with
      | nil => simp at h
      | cons c created =>
        simp only [List.map_cons, List.cons.injEq] at h
        rw [List.filter_cons, hv]
        simp only [List.map_cons, if_true, List.cons.injEq]
        refine ⟨?_, ih created h.2⟩
        rw [rowFor_text, h.1]
        exact specNodeFor_getObjectName _ _ n hn

theorem fillChildren_result {ι : Type} (alloc : Allocator) (mxContext : Context)
    (pParent : Option TreeIter) (nameOf : ι → String) (valOf : ι → Any)
    (body : State → ι → Except Failure State) (items : List ι) (st : State)
    (cs : List TreeRow)
    (hbody : ∀ s, ∀ it ∈ items, body s it =
      appendValue alloc mxContext pParent s (nameOf it) (valOf it))
    (hcols : ∀ it ∈ items, ∀ n, specNodeFor (nameOf it) (valOf it) = some n →
      ∃ c, n.getColumnValues mxContext = Except.ok c)
    (hc : childrenAt st.tree.rows (pParent.getD []) = some cs) :
    ∃ (created : List (Int × Node)) (rowsf : List TreeRow),
      items.foldlM body st = Except.ok ⟨⟨rowsf⟩, ⟨created.reverse ++ st.heap.objects⟩⟩ ∧
        updateChildrenAt (fun l => l ++ created.map (rowFor mxContext)) st.tree.rows
            (pParent.getD []) = some rowsf ∧
        childrenAt rowsf (pParent.getD []) = some (cs ++ created.map (rowFor mxContext)) ∧
        created.map Prod.snd =
          items.filterMap (fun it => specNodeFor (nameOf it) (valOf it)) ∧
        (created.map (rowFor mxContext)).map (fun r => r.data.text) =
          (items.filter (fun it => (valOf it).hasValue)).map nameOf := by
  obtain ⟨created, rowsf, h1, h2, h3⟩ :=
    foldlM_appendValue alloc mxContext pParent nameOf valOf body items st cs hbody hcols hc
  obtain ⟨rowsb, hb1, hb2⟩ := childrenAt_updateChildrenAt
    (fun l => l ++ created.map (rowFor mxContext)) (pParent.getD []) st.tree.rows cs hc
  have hsame : rowsb = rowsf := by
    rw [h2] at hb1
    exact (Option.some.inj hb1).symm
  subst hsame
  exact ⟨created, rowsb, h1, h2, hb2, h3,
    created_labels mxContext nameOf valOf items created h3⟩

/-! ## Struct nodes -/

/-- C5, as stated, fails: a `PropertyValue` whose member `Value` is unset has the four
declared fields Name, Handle, Value and State, and `StructNode::fillChildren` appends
three rows, none for Value. -/
theorem StructNode_fillChildren_skips_unset :
    propertyValueClass.getFields.map (fun f => f.getName) =
        ["Name", "Handle", "Value", "State"] ∧
      rootLabels (StructNode.fillChildren bumpAllocator sampleContext samplePropertyValue
        emptyState none) = ["Name", "Handle", "State"] := by
  decide

/-- C5, amended: for a struct value whose class the reflection knows, with every field
read and every column computation succeeding, `StructNode::fillChildren` appends under
the parent one row per declared field whose value is set, in declaration order and
labelled with the field name; each row belongs to a node created by the classifier for
the field name and the field value. Fields whose value is unset get no row. -/
theorem StructNode_fillChildren_set_fields (alloc : Allocator) (mxContext : Context)
    (maAny : Any) (st : State) (pParent : Option TreeIter) (xClass : IdlClass)
    (cs : List TreeRow)
    (hclass : mxContext.forName maAny.getValueType.typeName = some xClass)
    (hget : ∀ f ∈ xClass.getFields, ∃ v, f.get maAny = Except.ok v)
    (hcols : ∀ f ∈ xClass.getFields, ∀ n,
      specNodeFor f.getName (fieldValue maAny f) = some n →
        ∃ c, n.getColumnValues mxContext = Except.ok c)
    (hparent : childrenAt st.tree.rows (pParent.getD []) = some cs) :
    ∃ (created : List (Int × Node)) (rowsf : List TreeRow),
      StructNode.fillChildren alloc mxContext maAny st pParent =
          Except.ok ⟨⟨rowsf⟩, ⟨created.reverse ++ st.heap.objects⟩⟩ ∧
        updateChildrenAt (fun l => l ++ created.map (rowFor mxContext)) st.tree.rows
            (pParent.getD []) = some rowsf ∧
        childrenAt rowsf (pParent.getD []) = some (cs ++ created.map (rowFor mxContext)) ∧
        created.map Prod.snd = xClass.getFields.filterMap
          (fun f => specNodeFor f.getName (fieldValue maAny f)) ∧
        (created.map (rowFor mxContext)).map (fun r => r.data.text) =
          (xClass.getFields.filter (fun f => (fieldValue maAny f).hasValue)).map
            (fun f => f.getName) := by
  have hbody : ∀ s, ∀ f ∈ xClass.getFields,
      StructNode.fillChildrenStep alloc mxContext maAny pParent s f =
        appendValue alloc mxContext pParent s f.getName (fieldValue maAny f) := by
    intro s f hf
    obtain ⟨v, hv⟩ := hget f hf
    have hfv : fieldValue maAny f = v := by
      unfold fieldValue
      rw [hv]
    rw [hfv]
    exact StructNode_fillChildrenStep_eq alloc mxContext maAny pParent s f v hv
  have hrun : StructNode.fillChildren alloc mxContext maAny st pParent =
      xClass.getFields.foldlM (StructNode.fillChildrenStep alloc mxContext maAny pParent) st := by
    unfold StructNode.fillChildren
    simp only [hclass, Reference.deref, bind, Except.bind]
  rw [hrun]
  exact fillChildren_result alloc mxContext pParent (fun f => f.getName) (fieldValue maAny)
    _ xClass.getFields st cs hbody hcols hparent

/-! ## Sequence nodes: children -/

/-- C6, as stated, fails: a `sequence<any>` of length three whose middle element is unset
gets two rows, labelled "0" and "2". -/
theorem SequenceNode_fillChildren_skips_unset :
    elementArray.getLen sampleSequence = Except.ok 3 ∧
      rootLabels (SequenceNode.fillChildren bumpAllocator sampleContext sampleSequence
        emptyState none) = ["0", "2"] := by
  constructor
  · rfl
  · decide

/-- C6, amended: for a sequence value of length `N`, with every element read and every
column computation succeeding, `SequenceNode::fillChildren` appends under the parent one
row per index `i` in `0..N-1` whose element is set, in index order and labelled with the
decimal text of `i`; each row belongs to a node created by the classifier for that label
and the element at index `i`. Indices whose element is unset get no row. -/
theorem SequenceNode_fillChildren_set_elements (alloc : Allocator) (mxContext : Context)
    (maAny : Any) (st : State) (pParent : Option TreeIter) (xClass : IdlClass)
    (xIdlArray : IdlArray) (N : Nat) (cs : List TreeRow)
    (hclass : mxContext.forName maAny.getValueType.typeName = some xClass)
    (harray : xClass.getArray = some xIdlArray)
    (hlen : xIdlArray.getLen maAny = Except.ok (N : Int))
    (hmax : N ≤ 2147483647)
    (hget : ∀ i : Nat, i < N → ∃ v, xIdlArray.get maAny i = Except.ok v)
    (hcols : ∀ i : Nat, i < N → ∀ n,
      specNodeFor (OUString.number i) (elementValue xIdlArray maAny i) = some n →
        ∃ c, n.getColumnValues mxContext = Except.ok c)
    (hparent : childrenAt st.tree.rows (pParent.getD []) = some cs) :
    ∃ (created : List (Int × Node)) (rowsf : List TreeRow),
      SequenceNode.fillChildren alloc mxContext maAny st pParent =
          Except.ok ⟨⟨rowsf⟩, ⟨created.reverse ++ st.heap.objects⟩⟩ ∧
        updateChildrenAt (fun l => l ++ created.map (rowFor mxContext)) st.tree.rows
            (pParent.getD []) = some rowsf ∧
        childrenAt rowsf (pParent.getD []) = some (cs ++ created.map (rowFor mxContext)) ∧
        created.map Prod.snd = (List.range N).filterMap
          (fun i : Nat => specNodeFor (OUString.number i) (elementValue xIdlArray maAny i)) ∧
        (created.map (rowFor mxContext)).map (fun r => r.data.text) =
          ((List.range N).filter (fun i => (elementValue xIdlArray maAny i).hasValue)).map
            (fun i : Nat => OUString.number i) := by
  have hbody : ∀ s, ∀ i ∈ List.range N,
      SequenceNode.fillChildrenStep alloc mxContext maAny xIdlArray pParent s i =
        appendValue alloc mxContext pParent s (OUString.number i)
          (elementValue xIdlArray maAny i) := by
    intro s i hi
    obtain ⟨v, hv⟩ := hget i (List.mem_range.1 hi)
    have hev : elementValue xIdlArray maAny i = v := by
      unfold elementValue
      rw [hv]
    rw [hev]
    exact SequenceNode_fillChildrenStep_eq alloc mxContext maAny xIdlArray pParent s i v hv
  have hN : (toInt32 (N : Int)).toNat = N := by
    rw [toInt32_of_range _ (by omega) (by omega)]
    exact Int.toNat_natCast N
  have hrun : SequenceNode.fillChildren alloc mxContext maAny st pParent =
      (List.range N).foldlM
        (SequenceNode.fillChildrenStep alloc mxContext maAny xIdlArray pParent) st := by
    unfold SequenceNode.fillChildren
    simp only [hclass, harray, hlen, Reference.deref, bind, Except.bind, hN]
  rw [hrun]
  exact fillChildren_result alloc mxContext pParent (fun i : Nat => OUString.number i)
    (elementValue xIdlArray maAny) _ (List.range N) st cs hbody
    (fun i hi => hcols i (List.mem_range.1 hi)) hparent

/-! ## Property nodes -/

/-- C10: for a set value whose introspection reports the properties `xProperties` and
whose invocation object exists, whatever reads throw, `GenericPropertiesNode::fillChildren`
ends with a result: each throwing read counts as the unset value, and under the parent one
row is appended per property whose read yields a set value, in the order of the provider
and labelled with the property name (the column computation of the rows succeeding). -/
theorem GenericPropertiesNode_fillChildren_reads (alloc : Allocator) (mxContext : Context)
    (maAny : Any) (st : State) (pParent : Option TreeIter) (access : IntrospectionAccess)
    (xInvocation : Invocation) (xProperties : List Property) (cs : List TreeRow)
    (hset : maAny.hasValue = true)
    (hinspect : mxContext.inspect maAny = Except.ok (some access))
    (hinvocation : mxContext.createInvocation maAny = Except.ok (some xInvocation))
    (hprops : access.getProperties (PropertyConcept.ALL - PropertyConcept.DANGEROUS) =
      Except.ok xProperties)
    (hhas : ∀ q ∈ xProperties, ∀ e, xInvocation.hasProperty q.Name = Except.error e →
      ∃ w, e = Failure.exception w)
    (hval : ∀ q ∈ xProperties, ∀ e, xInvocation.getValue q.Name = Except.error e →
      ∃ w, e = Failure.exception w)
    (hcols : ∀ q ∈ xProperties, ∀ n,
      specNodeFor q.Name (readValue xInvocation q.Name) = some n →
        ∃ c, n.getColumnValues mxContext = Except.ok c)
    (hparent : childrenAt st.tree.rows (pParent.getD []) = some cs) :
    ∃ (created : List (Int × Node)) (rowsf : List TreeRow),
      GenericPropertiesNode.fillChildren alloc mxContext maAny st pParent =
          Except.ok ⟨⟨rowsf⟩, ⟨created.reverse ++ st.heap.objects⟩⟩ ∧
        updateChildrenAt (fun l => l ++ created.map (rowFor mxContext)) st.tree.rows
            (pParent.getD []) = some rowsf ∧
        childrenAt rowsf (pParent.getD []) = some (cs ++ created.map (rowFor mxContext)) ∧
        created.map Prod.snd = xProperties.filterMap
          (fun q => specNodeFor q.Name (readValue xInvocation q.Name)) ∧
        (created.map (rowFor mxContext)).map (fun r => r.data.text) =
          (xProperties.filter (fun q => (readValue xInvocation q.Name).hasValue)).map
            (fun q => q.Name) := by
  have hbody : ∀ s, ∀ q ∈ xProperties,
      GenericPropertiesNode.fillChildrenStep alloc mxContext (some xInvocation) pParent s q =
        appendValue alloc mxContext pParent s q.Name (readValue xInvocation q.Name) :=
    fun s q hq => GenericPropertiesNode_fillChildrenStep_eq alloc mxContext xInvocation
      pParent s q (hhas q hq) (hval q hq)
  have hrun : GenericPropertiesNode.fillChildren alloc mxContext maAny st pParent =
      xProperties.foldlM
        (GenericPropertiesNode.fillChildrenStep alloc mxContext (some xInvocation) pParent)
        st := by
    unfold GenericPropertiesNode.fillChildren
    simp only [hset, hinspect, hinvocation, hprops, Reference.deref, bind, Except.bind]
    simp
  rw [hrun]
  exact fillChildren_result alloc mxContext pParent (fun q => q.Name)
    (fun q => readValue xInvocation q.Name) _ xProperties st cs hbody hcols hparent

/-! ## The theorems at concrete inputs -/

/-- C5, amended, at a concrete input: the `PropertyValue` with an unset `Value` gets the
rows Name, Handle and State. -/
theorem StructNode_fillChildren_set_fields_witness :
    ∃ (created : List (Int × Node)) (rowsf : List TreeRow),
      StructNode.fillChildren bumpAllocator sampleContext samplePropertyValue emptyState none =
          Except.ok ⟨⟨rowsf⟩, ⟨created.reverse ++ []⟩⟩ ∧
        (created.map (rowFor sampleContext)).map (fun r => r.data.text) =
          ["Name", "Handle", "State"] := by
  obtain ⟨created, rowsf, h1, _, _, _, h4⟩ :=
    StructNode_fillChildren_set_fields bumpAllocator sampleContext samplePropertyValue
      emptyState none propertyValueClass [] (by rfl)
      (by
        intro f hf
        simp only [propertyValueClass, List.mem_cons, List.mem_singleton, List.not_mem_nil,
          or_false] at hf
        rcases hf with rfl | rfl | rfl | rfl <;> exact ⟨_, rfl⟩)
      (by
        intro f hf n hn
        simp only [propertyValueClass, List.mem_cons, List.mem_singleton, List.not_mem_nil,
          or_false] at hf
        rcases hf with rfl | rfl | rfl | rfl
        · have hn2 := (Option.some.inj hn).symm
          subst hn2
          exact ⟨_, rfl⟩
        · have hn2 := (Option.some.inj hn).symm
          subst hn2
          exact ⟨_, rfl⟩
        · have hn2 : (none : Option Node) = some n := hn
          cases hn2
        · have hn2 := (Option.some.inj hn).symm
          subst hn2
          exact ⟨_, rfl⟩)
      (by rfl)
  exact ⟨created, rowsf, h1, h4⟩

/-- C6, amended, at a concrete input: the `sequence<any>` with an unset middle element
gets the rows "0" and "2". -/
theorem SequenceNode_fillChildren_set_elements_witness :
    ∃ (created : List (Int × Node)) (rowsf : List TreeRow),
      SequenceNode.fillChildren bumpAllocator sampleContext sampleSequence emptyState none =
          Except.ok ⟨⟨rowsf⟩, ⟨created.reverse ++ []⟩⟩ ∧
        (created.map (rowFor sampleContext)).map (fun r => r.data.text) = ["0", "2"] := by
  obtain ⟨created, rowsf, h1, _, _, _, h4⟩ :=
    SequenceNode_fillChildren_set_elements bumpAllocator sampleContext sampleSequence
      emptyState none ⟨"[]any", TypeClass.SEQUENCE, [], some elementArray⟩ elementArray 3 []
      (by rfl) (by rfl) (by rfl) (by decide)
      (by
        intro i hi
        have hi3 : i = 0 ∨ i = 1 ∨ i = 2 := by omega
        rcases hi3 with rfl | rfl | rfl <;> exact ⟨_, rfl⟩)
      (by
        intro i hi n hn
        have hi3 : i = 0 ∨ i = 1 ∨ i = 2 := by omega
        rcases hi3 with rfl | rfl | rfl
        · have hn2 := (Option.some.inj hn).symm
          subst hn2
          exact ⟨_, rfl⟩
        · have hn2 : (none : Option Node) = some n := hn
          cases hn2
        · have hn2 := (Option.some.inj hn).symm
          subst hn2
          exact ⟨_, rfl⟩)
      (by rfl)
  exact ⟨created, rowsf, h1, h4⟩

/-- C10, at a concrete input: of the properties Title, Locked and Count, the read of
Locked throws; the rows Title and Count are appended. -/
theorem GenericPropertiesNode_fillChildren_reads_witness :
    ∃ (created : List (Int × Node)) (rowsf : List TreeRow),
      GenericPropertiesNode.fillChildren bumpAllocator sampleContext sampleObject emptyState
          none = Except.ok ⟨⟨rowsf⟩, ⟨created.reverse ++ []⟩⟩ ∧
        sampleInvocation.getValue "Locked" =
          Except.error (Failure.exception "RuntimeException") ∧
        (created.map (rowFor sampleContext)).map (fun r => r.data.text) =
          ["Title", "Count"] := by
  obtain ⟨created, rowsf, h1, _, _, _, h4⟩ :=
    GenericPropertiesNode_fillChildren_reads bumpAllocator sampleContext sampleObject
      emptyState none sampleAccess sampleInvocation sampleProperties []
      (by rfl) (by rfl) (by rfl) (by rfl)
      (by
        intro q _ e h
        have h2 : (Except.ok true : Except Failure Bool) = Except.error e := h
        cases h2)
      (by
        intro q hq e h
        simp only [sampleProperties, List.mem_cons, List.mem_singleton, List.not_mem_nil,
          or_false] at hq
        rcases hq with rfl | rfl | rfl
        · have h2 : (Except.ok (Any.string "mytitle") : Except Failure Any) =
              Except.error e := h
          cases h2
        · have h2 : (Except.error (Failure.exception "RuntimeException") :
              Except Failure Any) = Except.error e := h
          exact ⟨"RuntimeException", (Except.error.inj h2).symm⟩
        · have h2 : (Except.ok (Any.long 3) : Except Failure Any) = Except.error e := h
          cases h2)
      (by
        intro q hq n hn
        simp only [sampleProperties, List.mem_cons, List.mem_singleton, List.not_mem_nil,
          or_false] at hq
        rcases hq with rfl | rfl | rfl
        · have hn2 := (Option.some.inj hn).symm
          subst hn2
          exact ⟨_, rfl⟩
        · have hn2 : (none : Option Node) = some n := hn
          cases hn2
        · have hn2 := (Option.some.inj hn).symm
          subst hn2
          exact ⟨_, rfl⟩)
      (by rfl)
  exact ⟨created, rowsf, h1, rfl, h4⟩

/-! ## Lemmas on identifiers -/

theorem digitChar_toNat (d : Nat) (hd : d < 10) : (Nat.digitChar d).toNat = 48 + d := by
  interval_cases d <;> rfl

theorem leadingDigits_append (l : List Char)
    (hl : ∀ c ∈ l, 48 ≤ c.toNat ∧ c.toNat ≤ 57) (rest : List Char) :
    ∀ acc, leadingDigits (l ++ rest) acc = leadingDigits rest (l.foldl digitStep acc) := by
  induction l with
  | nil =>
    intro acc
    rfl
  | cons c cs ih =>
    intro acc
    have hc := hl c (List.mem_cons_self _ _)
    have hcs : ∀ x ∈ cs, 48 ≤ x.toNat ∧ x.toNat ≤ 57 :=
      fun x hx => hl x (List.mem_cons_of_mem _ hx)
    simp only [List.cons_append, leadingDigits, digitValue, hc, and_self, if_true,
      List.foldl_cons]
    exact ih hcs _

theorem toDigitsCore_digits (fuel : Nat) :
    ∀ (n : Nat) (ds : List Char), n < fuel →
      ∃ l, Nat.toDigitsCore 10 fuel n ds = l ++ ds ∧ l ≠ [] ∧
        (∀ c ∈ l, 48 ≤ c.toNat ∧ c.toNat ≤ 57) ∧ l.foldl digitStep 0 = n := by
  induction fuel with
  | zero =>
    intro n ds h
    omega
  | succ fuel ih =>
    intro n ds h
    have hmod : n % 10 < 10 := Nat.mod_lt _ (by decide)
    have hd := digitChar_toNat (n % 10) hmod
    by_cases hn : n / 10 = 0
    · refine ⟨[Nat.digitChar (n % 10)], ?_, by simp, ?_, ?_⟩
      · simp [Nat.toDigitsCore, hn]
      · intro c hc
        simp only [List.mem_singleton] at hc
        subst hc
        omega
      · simp only [List.foldl_cons, List.foldl_nil, digitStep, hd]
        omega
    · have hlt : n / 10 < fuel := by omega
      obtain ⟨l, h1, _, h3, h4⟩ := ih (n / 10) (Nat.digitChar (n % 10) :: ds) hlt
      refine ⟨l ++ [Nat.digitChar (n % 10)], ?_, by simp, ?_, ?_⟩
      · simp [Nat.toDigitsCore, hn, h1]
      · intro c hc
        rcases List.mem_append.1 hc with hc | hc
        · exact h3 c hc
        · simp only [List.mem_singleton] at hc
          subst hc
          omega
      · rw [List.foldl_append, h4]
        simp only [List.foldl_cons, List.foldl_nil, digitStep, hd]
        omega

theorem toInt64_number_natCast (m : Nat) (hm : m ≤ 9223372036854775807) :
    OUString.toInt64 (OUString.number (m : Int)) = (m : Int) := by
  obtain ⟨l, h1, h2, h3, h4⟩ := toDigitsCore_digits (m + 1) m [] (Nat.lt_succ_self m)
  have hdata : (OUString.number (m : Int)).data = l := by
    rw [List.append_nil] at h1
    exact h1
  cases l with
  | nil => exact absurd rfl h2
  | cons c rest =>
    have hc := h3 c (List.mem_cons_self _ _)
    have hws : isWhitespace c = false := by
      simp only [isWhitespace, decide_eq_false_iff_not]
      omega
    have hval : leadingDigits (c :: rest) 0 = m := by
      have := leadingDigits_append (c :: rest) h3 [] 0
      rw [List.append_nil] at this
      rw [this, h4]
      rfl
    have h45 : ¬ c.toNat = 45 := by omega
    have h43 : ¬ c.toNat = 43 := by omega
    unfold OUString.toInt64
    rw [hdata]
    simp only [List.dropWhile_cons, hws, Bool.false_eq_true, if_false, h45, h43, hval, hm,
      if_true]

theorem toInt64_number_negSucc (k : Nat) (hk : k + 1 ≤ 9223372036854775808) :
    OUString.toInt64 (OUString.number (Int.negSucc k)) = Int.negSucc k := by
  obtain ⟨l, h1, _, h3, h4⟩ := toDigitsCore_digits (k + 1 + 1) (k + 1) [] (Nat.lt_succ_self _)
  have hdata : (OUString.number (Int.negSucc k)).data = Char.ofNat 45 :: l := by
    rw [List.append_nil] at h1
    show ("-" ++ Nat.repr (k + 1)).data = _
    rw [String.data_append]
    show _ ++ Nat.toDigits 10 (k + 1) = _
    unfold Nat.toDigits
    rw [h1]
    rfl
  have hval : leadingDigits l 0 = k + 1 := by
    have := leadingDigits_append l h3 [] 0
    rw [List.append_nil] at this
    rw [this, h4]
    rfl
  have hws : isWhitespace (Char.ofNat 45) = false := by decide
  unfold OUString.toInt64
  rw [hdata]
  simp only [List.dropWhile_cons, hws, Bool.false_eq_true, if_false, hval, hk, if_true]
  have h45 : (Char.ofNat 45).toNat = 45 := by decide
  simp only [h45, if_true]
  rfl

theorem toInt64_number (p : Int) (h0 : -9223372036854775808 ≤ p)
    (h1 : p ≤ 9223372036854775807) : OUString.toInt64 (OUString.number p) = p := by
  cases p with
  | ofNat m =>
    have hm : (m : Int) ≤ 9223372036854775807 := h1
    exact toInt64_number_natCast m (by omega)
  | negSucc k =>
    have hk : -9223372036854775808 ≤ -((k : Int) + 1) := by
      rw [← Int.negSucc_eq]
      exact h0
    exact toInt64_number_negSucc k (by omega)

/-! ## Lemmas on positions in the tree -/

theorem childrenAt_snoc (p : List Nat) (k : Nat) :
    ∀ rows : List TreeRow, childrenAt rows (p ++ [k]) =
      match childrenAt rows p with
      | some cs =>
        match cs[k]? with
        | some r => some r.children
        | none => none
      | none => none := by
  induction p with
  | nil =>
    intro rows
    simp only [List.nil_append, childrenAt]
  | cons i rest ih =>
    intro rows
    simp only [List.cons_append, childrenAt]
    cases rows[i]? with
    | none => rfl
    | some r => exact ih r.children

theorem rowAt_snoc (rows : List TreeRow) (p : List Nat) (k : Nat) :
    rowAt rows (p ++ [k]) =
      match childrenAt rows p with
      | some cs => cs[k]?
      | none => none := by
  unfold rowAt
  rw [List.dropLast_concat]
  have hlast : (p ++ [k]).getLast? = some k := by simp
  rw [hlast]
  cases childrenAt rows p <;> rfl

theorem updateChildrenAt_congr (f g : List TreeRow → List TreeRow) (p : List Nat) :
    ∀ (rows cs : List TreeRow), childrenAt rows p = some cs → f cs = g cs →
      updateChildrenAt f rows p = updateChildrenAt g rows p := by
  induction p with
  | nil =>
    intro rows cs h hfg
    simp only [childrenAt, Option.some.injEq] at h
    subst h
    simp only [updateChildrenAt, hfg]
  | cons i rest ih =>
    intro rows cs h hfg
    simp only [childrenAt] at h
    cases hr : rows[i]? with
    | none => simp [hr] at h
    | some r =>
      simp only [hr] at h
      simp only [updateChildrenAt, hr, ih r.children cs h hfg]

theorem updateChildrenAt_fixed (f : List TreeRow → List TreeRow) (p : List Nat)
    (rows cs : List TreeRow) (h : childrenAt rows p = some cs) (hf : f cs = cs) :
    updateChildrenAt f rows p = some rows := by
  rw [updateChildrenAt_congr f (fun l => l) p rows cs h hf]
  exact updateChildrenAt_self (fun l => l) (fun _ => rfl) p rows cs h

theorem updateChildrenAt_snoc (f : List TreeRow → List TreeRow) (p : List Nat) (k : Nat) :
    ∀ (rows cs : List TreeRow) (r : TreeRow), childrenAt rows p = some cs → cs[k]? = some r →
      updateChildrenAt f rows (p ++ [k]) =
        updateChildrenAt (fun _ => cs.set k (TreeRow.mk r.data (f r.children))) rows p := by
  induction p with
  | nil =>
    intro rows cs r h hk
    simp only [childrenAt, Option.some.injEq] at h
    subst h
    simp only [List.nil_append, updateChildrenAt, hk]
  | cons i rest ih =>
    intro rows cs r h hk
    simp only [childrenAt] at h
    cases hr : rows[i]? with
    | none => simp [hr] at h
    | some r0 =>
      simp only [hr] at h
      simp only [List.cons_append, updateChildrenAt, hr, List.append_eq,
        ih r0.children cs r h hk]

theorem updateChildrenAt_then (f g : List TreeRow → List TreeRow) (p : List Nat)
    (rows cs rows1 : List TreeRow) (hc : childrenAt rows p = some cs)
    (h1 : updateChildrenAt f rows p = some rows1) :
    updateChildrenAt g rows1 p = updateChildrenAt (fun _ => g (f cs)) rows p := by
  rw [updateChildrenAt_twice f g p rows rows1 h1]
  exact updateChildrenAt_congr _ _ p rows cs hc rfl

/-! ## Lemmas on disposal -/

theorem Heap.lookup_without (h : Heap) (ps : List Int) (p : Int) (hp : p ∉ ps) :
    (h.without ps).lookup p = h.lookup p := by
  unfold Heap.lookup Heap.without
  have key : ∀ l : List (Int × Node),
      (l.filter (fun o => decide (o.1 ∉ ps))).find? (fun o => decide (o.1 = p)) =
        l.find? (fun o => decide (o.1 = p)) := by
    intro l
    rw [List.find?_filter]
    congr 1
    funext a
    by_cases ha : a.1 = p
    · have hops : a.1 ∉ ps := by
        rw [ha]
        exact hp
      simp [ha, hp]
    · simp [ha]
  simp only [key]

theorem Heap.delete_without (h : Heap) (ps : List Int) (p : Int) (hp0 : p ≠ 0)
    (hp : p ∉ ps) (hlive : h.lookup p ≠ none) :
    (h.without ps).delete p = Except.ok (h.without (ps ++ [p])) := by
  unfold Heap.delete
  rw [Heap.lookup_without h ps p hp]
  cases hl : h.lookup p with
  | none => exact absurd hl hlive
  | some n =>
    simp only [hp0, if_false]
    congr 1
    unfold Heap.without
    simp only [List.filter_filter, List.mem_append, List.mem_singleton, not_or]
    congr 2
    funext o
    by_cases h1 : o.1 = p <;> by_cases h2 : o.1 ∈ ps <;> simp [h1, h2]

theorem Heap.without_without (h : Heap) (ps qs : List Int) :
    (h.without ps).without qs = h.without (ps ++ qs) := by
  unfold Heap.without
  simp only [List.filter_filter, List.mem_append, not_or]
  congr 2
  funext o
  by_cases h1 : o.1 ∈ qs <;> by_cases h2 : o.1 ∈ ps <;> simp [h1, h2]

theorem Heap.without_nil (h : Heap) : h.without [] = h := by
  unfold Heap.without
  simp

theorem postOrderIdsList_cons (c : TreeRow) (cs : List TreeRow) :
    postOrderIdsList (c :: cs) =
      postOrderIdsList c.children ++ [OUString.toInt64 c.data.id] ++ postOrderIdsList cs := by
  cases c
  simp only [postOrderIdsList, postOrderIds, TreeRow.children, TreeRow.data]

theorem rowsCount_cons (c : TreeRow) (cs : List TreeRow) :
    rowsCount (c :: cs) = 1 + rowsCount c.children + rowsCount cs := by
  cases c
  simp only [rowsCount, rowCount, TreeRow.children]

theorem clearObjectInspectorChildren_spec (fuel : Nat) :
    ∀ (rows : List TreeRow) (heap : Heap) (log : List Int) (path : List Nat)
      (cs : List TreeRow),
      childrenAt rows path = some cs → rowsCount cs < fuel →
      (postOrderIdsList cs).Nodup →
      (∀ p ∈ postOrderIdsList cs, p ≠ 0 ∧ heap.lookup p ≠ none) →
      ∃ rowsf,
        clearObjectInspectorChildren fuel ⟨⟨⟨rows⟩, heap⟩, log⟩ path =
            Except.ok ⟨⟨⟨rowsf⟩, heap.without (postOrderIdsList cs)⟩,
              log ++ postOrderIdsList cs⟩ ∧
          updateChildrenAt (fun _ => []) rows path = some rowsf := by
  induction fuel with
  | zero =>
    intro rows heap log path cs _ hsize
    omega
  | succ fuel ih =>
    intro rows heap log path cs hc hsize hnodup hlive
    cases cs with
    | nil =>
      refine ⟨rows, ?_, updateChildrenAt_fixed _ path rows [] hc rfl⟩
      rw [clearObjectInspectorChildren]
      simp only [TreeView.iter_has_child, hc, bind, Except.bind, List.isEmpty_nil,
        Bool.not_true, postOrderIdsList, Heap.without_nil, List.append_nil]
      rfl
    | cons c rest =>
      rw [postOrderIdsList_cons] at hnodup hlive
      rw [rowsCount_cons] at hsize
      rw [postOrderIdsList_cons]
      have hnd := hnodup
      rw [List.nodup_append] at hnd
      obtain ⟨hnd1, hndrest, hdisj⟩ := hnd
      rw [List.nodup_append] at hnd1
      obtain ⟨hndc, _, hdisjc⟩ := hnd1
      -- the rows below the first child
      have hc0 : childrenAt rows (path ++ [0]) = some c.children := by
        rw [childrenAt_snoc, hc]
        simp
      obtain ⟨rows1, hrec1, hup1⟩ := ih rows heap log (path ++ [0]) c.children hc0
        (by omega) hndc
        (fun p hp => hlive p (by simp [hp]))
      have hup1b : updateChildrenAt (fun _ => TreeRow.mk c.data [] :: rest) rows path =
          some rows1 := by
        rw [← hup1, updateChildrenAt_snoc (fun _ => []) path 0 rows (c :: rest) c hc
          (by simp)]
        rfl
      obtain ⟨rows1b, hb1, hch1⟩ := childrenAt_updateChildrenAt
        (fun _ => TreeRow.mk c.data [] :: rest) path rows (c :: rest) hc
      have hsame1 : rows1b = rows1 := by
        rw [hup1b] at hb1
        exact (Option.some.inj hb1).symm
      subst hsame1
      -- the identifier of the first child and its disposal
      have hid : TreeView.get_id ⟨rows1b⟩ (path ++ [0]) = Except.ok c.data.id := by
        unfold TreeView.get_id
        rw [rowAt_snoc, hch1]
        simp [TreeRow.data]
      have hpc : OUString.toInt64 c.data.id ∉ postOrderIdsList c.children := by
        intro hmem
        exact hdisjc hmem (List.mem_singleton_self _)
      have hdel : (heap.without (postOrderIdsList c.children)).delete
          (OUString.toInt64 c.data.id) =
          Except.ok (heap.without (postOrderIdsList c.children ++
            [OUString.toInt64 c.data.id])) :=
        Heap.delete_without heap _ _ (hlive _ (by simp)).1 hpc (hlive _ (by simp)).2
      -- the removal of the first child
      obtain ⟨rows2, hup2, hch2⟩ := childrenAt_updateChildrenAt
        (fun _ => rest) path rows (c :: rest) hc
      have hrem : TreeView.remove ⟨rows1b⟩ (path ++ [0]) = Except.ok ⟨rows2⟩ := by
        have herase : updateChildrenAt (fun l => l.eraseIdx 0) rows1b path = some rows2 := by
          rw [updateChildrenAt_then _ (fun l => l.eraseIdx 0) path rows (c :: rest) rows1b hc
            hup1b]
          simpa using hup2
        unfold TreeView.remove
        have hlast : (path ++ [0]).getLast? = some 0 := by simp
        rw [hlast, rowAt_snoc, hch1, List.dropLast_concat]
        have herase2 : updateChildrenAt (fun cs => cs.tail) rows1b path = some rows2 := by
          simpa using herase
        simp [herase2]
      -- the remaining passes of the loop
      obtain ⟨rows3, hrec3, hup3⟩ := ih rows2
        (heap.without (postOrderIdsList c.children ++ [OUString.toInt64 c.data.id]))
        (log ++ postOrderIdsList c.children ++ [OUString.toInt64 c.data.id]) path rest hch2
        (by omega) hndrest
        (fun p hp => by
          have hp1 := hlive p (by simp [hp])
          refine ⟨hp1.1, ?_⟩
          rw [Heap.lookup_without]
          · exact hp1.2
          · intro hmem
            exact hdisj hmem hp)
      simp only [Heap.without_without, List.append_assoc] at hrec3
      refine ⟨rows3, ?_, ?_⟩
      · rw [clearObjectInspectorChildren]
        simp only [TreeView.iter_has_child, TreeView.iter_children, hc, bind, Except.bind,
          List.isEmpty_cons, Bool.not_false, if_true, hrec1, hid, hdel, hrem, hrec3,
          Heap.without_without, List.append_assoc]
      · rw [updateChildrenAt_then _ (fun _ => []) path rows (c :: rest) rows2 hc hup2] at hup3
        exact hup3

theorem path_nil_or_snoc (p : List Nat) : p = [] ∨ ∃ q k, p = q ++ [k] := by
  rcases List.eq_nil_or_concat p with hp | ⟨q, k, hp⟩
  · exact Or.inl hp
  · rw [List.concat_eq_append] at hp
    exact Or.inr ⟨q, k, hp⟩

theorem childrenAt_of_rowAt (rows : List TreeRow) (path : List Nat) (r : TreeRow)
    (hrow : rowAt rows path = some r) : childrenAt rows path = some r.children := by
  rcases path_nil_or_snoc path with hp | ⟨q, k, hp⟩
  · subst hp
    simp [rowAt] at hrow
  · subst hp
    rw [rowAt_snoc] at hrow
    rw [childrenAt_snoc]
    cases hq : childrenAt rows q with
    | none => simp [hq] at hrow
    | some cs =>
      simp only [hq] at hrow
      simp only [hrow]

theorem rowAt_updateChildrenAt (f : List TreeRow → List TreeRow) (rows rows1 : List TreeRow)
    (p : List Nat) (r : TreeRow) (hr : rowAt rows p = some r)
    (hu : updateChildrenAt f rows p = some rows1) :
    rowAt rows1 p = some (TreeRow.mk r.data (f r.children)) := by
  rcases path_nil_or_snoc p with hp | ⟨q, k, hp⟩
  · subst hp
    simp [rowAt] at hr
  · subst hp
    rw [rowAt_snoc] at hr
    cases hq : childrenAt rows q with
    | none => simp [hq] at hr
    | some cs =>
      simp only [hq] at hr
      rw [updateChildrenAt_snoc f q k rows cs r hq hr] at hu
      obtain ⟨rowsb, hb1, hb2⟩ := childrenAt_updateChildrenAt
        (fun _ => cs.set k (TreeRow.mk r.data (f r.children))) q rows cs hq
      have hsame : rowsb = rows1 := by
        rw [hu] at hb1
        exact (Option.some.inj hb1).symm
      subst hsame
      have hk : k < cs.length := by
        rcases List.getElem?_eq_some.1 hr with ⟨hlt, _⟩
        exact hlt
      rw [rowAt_snoc, hb2]
      simp only [List.getElem?_set_self hk]

/-! ## Clearing the rows below a row -/

/-- C16: on a tree in which the rows below the position `path` are backed by live node
objects at pairwise distinct, non-null addresses, `clearObjectInspectorChildren` ends with
a result for every budget above the number of those rows; it leaves no row below the
position, disposes exactly the nodes of those rows, each once, the rows below a row
before the row itself (post-order), and changes nothing else: the tree differs in the rows
below the position only, the row at the position keeps its data, and every other object of
the heap stays. -/
theorem clearObjectInspectorChildren_post_order (fuel : Nat) (rows : List TreeRow)
    (heap : Heap) (log : List Int) (path : List Nat) (r : TreeRow)
    (hrow : rowAt rows path = some r)
    (hfuel : rowsCount r.children < fuel)
    (hnodup : (postOrderIdsList r.children).Nodup)
    (hlive : ∀ p ∈ postOrderIdsList r.children, p ≠ 0 ∧ heap.lookup p ≠ none) :
    ∃ rowsf,
      clearObjectInspectorChildren fuel ⟨⟨⟨rows⟩, heap⟩, log⟩ path =
          Except.ok ⟨⟨⟨rowsf⟩, heap.without (postOrderIdsList r.children)⟩,
            log ++ postOrderIdsList r.children⟩ ∧
        updateChildrenAt (fun _ => []) rows path = some rowsf ∧
        childrenAt rowsf path = some [] ∧
        rowAt rowsf path = some (TreeRow.mk r.data []) ∧
        (∀ p ∈ postOrderIdsList r.children,
          (heap.without (postOrderIdsList r.children)).lookup p = none) ∧
        (∀ q, q ∉ postOrderIdsList r.children →
          (heap.without (postOrderIdsList r.children)).lookup q = heap.lookup q) := by
  have hc : childrenAt rows path = some r.children :=
    childrenAt_of_rowAt rows path r hrow
  obtain ⟨rowsf, h1, h2⟩ :=
    clearObjectInspectorChildren_spec fuel rows heap log path r.children hc hfuel hnodup hlive
  obtain ⟨rowsb, hb1, hb2⟩ := childrenAt_updateChildrenAt (fun _ => []) path rows r.children hc
  have hsame : rowsb = rowsf := by
    rw [h2] at hb1
    exact (Option.some.inj hb1).symm
  subst hsame
  refine ⟨rowsb, h1, h2, hb2, rowAt_updateChildrenAt _ rows rowsb path r hrow h2, ?_, ?_⟩
  · intro p hp
    unfold Heap.lookup Heap.without
    have hnone : (List.filter (fun o => decide (o.1 ∉ postOrderIdsList r.children))
        heap.objects).find? (fun o => decide (o.1 = p)) = none := by
      rw [List.find?_eq_none]
      intro o ho
      rw [List.mem_filter] at ho
      intro hop
      have h1 := ho.2
      simp only [decide_eq_true_eq] at h1 hop
      rw [hop] at h1
      exact h1 hp
    simp only [hnone]
  · intro q hq
    exact Heap.lookup_without heap _ q hq

/-- C16, at a concrete input: clearing below the expanded row disposes the nodes at 4104
and 4112 in this order and keeps the row and its node at 4096. -/
theorem clearObjectInspectorChildren_post_order_witness :
    ∃ rowsf,
      clearObjectInspectorChildren 3 ⟨expandedState, []⟩ [0] =
          Except.ok ⟨⟨⟨rowsf⟩, expandedState.heap.without [4104, 4112]⟩, [4104, 4112]⟩ ∧
        childrenAt rowsf [0] = some [] := by
  obtain ⟨rowsf, h1, _, h3, _⟩ :=
    clearObjectInspectorChildren_post_order 3 expandedState.tree.rows expandedState.heap []
      [0]
      (TreeRow.mk ⟨"Fields", "4096", true, [(0, true)], [(1, "0 to 2"), (2, "[]any")]⟩
        [TreeRow.mk ⟨"0", "4104", false, [(0, true)], [(1, "10"), (2, "long")]⟩ [],
         TreeRow.mk ⟨"2", "4112", false, [(0, true)], [(1, "\"x\""), (2, "string")]⟩ []])
      (by rfl) (by decide) (by decide)
      (by
        intro p hp
        have hp2 : p = 4104 ∨ p = 4112 := by
          have hl : postOrderIdsList
              [TreeRow.mk ⟨"0", "4104", false, [(0, true)], [(1, "10"), (2, "long")]⟩ [],
               TreeRow.mk ⟨"2", "4112", false, [(0, true)], [(1, "\"x\""), (2, "string")]⟩ []] =
              [4104, 4112] := by decide
          have hp3 : p ∈ ([4104, 4112] : List Int) := hl ▸ hp
          simpa using hp3
        rcases hp2 with rfl | rfl
        · exact ⟨by decide, fun h => by cases h⟩
        · exact ⟨by decide, fun h => by cases h⟩)
  exact ⟨rowsf, h1, h3⟩

/-! ## Clearing a whole tree -/

theorem preOrderIdsList_cons (c : TreeRow) (cs : List TreeRow) :
    preOrderIdsList (c :: cs) =
      OUString.toInt64 c.data.id :: (preOrderIdsList c.children ++ preOrderIdsList cs) := by
  cases c
  simp only [preOrderIdsList, preOrderIds, TreeRow.children, TreeRow.data, List.cons_append]

theorem rowsPaths_cons (parent : List Nat) (k : Nat) (c : TreeRow) (cs : List TreeRow) :
    rowsPaths parent k (c :: cs) =
      (parent ++ [k]) :: (rowsPaths (parent ++ [k]) 0 c.children ++
        rowsPaths parent (k + 1) cs) := by
  cases c
  simp only [rowsPaths, rowPaths, TreeRow.children, List.cons_append]

theorem clearAll_fold (n : Nat) :
    ∀ (rows cs allc : List TreeRow) (parent : List Nat) (k : Nat) (heap : Heap)
      (log : List Int),
      rowsCount cs ≤ n → childrenAt rows parent = some allc → allc.drop k = cs →
      (preOrderIdsList cs).Nodup →
      (∀ p ∈ preOrderIdsList cs, p ≠ 0 ∧ heap.lookup p ≠ none) →
      (rowsPaths parent k cs).foldlM
          (fun (acc : (Heap × List Int) × Bool) (rEntry : TreeIter) =>
            if acc.2 then pure acc else clearAllEntry ⟨rows⟩ acc.1 rEntry)
          ((heap, log), false) =
        Except.ok ((heap.without (preOrderIdsList cs), log ++ preOrderIdsList cs), false) := by
  induction n with
  | zero =>
    intro rows cs allc parent k heap log hsize _ _ _ _
    cases cs with
    | nil =>
      simp only [rowsPaths, List.foldlM_nil, preOrderIdsList, Heap.without_nil,
        List.append_nil]
      rfl
    | cons c rest =>
      rw [rowsCount_cons] at hsize
      omega
  | succ n ih =>
    intro rows cs allc parent k heap log hsize hall hdrop hnodup hlive
    cases cs with
    | nil =>
      simp only [rowsPaths, List.foldlM_nil, preOrderIdsList, Heap.without_nil,
        List.append_nil]
      rfl
    | cons c rest =>
      rw [rowsCount_cons] at hsize
      rw [preOrderIdsList_cons] at hnodup hlive
      rw [preOrderIdsList_cons, rowsPaths_cons]
      have hk : allc[k]? = some c := by
        have h0 : (allc.drop k)[0]? = some c := by
          rw [hdrop]
          simp
        rw [List.getElem?_drop] at h0
        simpa using h0
      have hrest : allc.drop (k + 1) = rest := by
        have h1 := congrArg List.tail hdrop
        simpa using h1
      rw [List.nodup_cons] at hnodup
      obtain ⟨hp0, hnd⟩ := hnodup
      rw [List.nodup_append] at hnd
      obtain ⟨hndc, hndrest, hdisj⟩ := hnd
      have hl0 := hlive (OUString.toInt64 c.data.id) (List.mem_cons_self _ _)
      -- the row itself
      have hid : TreeView.get_id ⟨rows⟩ (parent ++ [k]) = Except.ok c.data.id := by
        unfold TreeView.get_id
        rw [rowAt_snoc, hall]
        simp only [hk]
      have hdel : heap.delete (OUString.toInt64 c.data.id) =
          Except.ok (heap.without [OUString.toInt64 c.data.id]) := by
        have := Heap.delete_without heap [] (OUString.toInt64 c.data.id) hl0.1
          (List.not_mem_nil _) hl0.2
        rw [Heap.without_nil, List.nil_append] at this
        exact this
      have hentry : clearAllEntry ⟨rows⟩ (heap, log) (parent ++ [k]) =
          Except.ok ((heap.without [OUString.toInt64 c.data.id],
            log ++ [OUString.toInt64 c.data.id]), false) := by
        unfold clearAllEntry
        simp only [hid, hdel, bind, Except.bind, pure, Except.pure]
      -- the rows below it
      have hchild : childrenAt rows (parent ++ [k]) = some c.children := by
        rw [childrenAt_snoc, hall]
        simp only [hk]
      have h1 := ih rows c.children c.children (parent ++ [k]) 0
        (heap.without [OUString.toInt64 c.data.id]) (log ++ [OUString.toInt64 c.data.id])
        (by omega) hchild (List.drop_zero _) hndc
        (fun p hp => by
          have hp1 := hlive p (by simp [hp])
          refine ⟨hp1.1, ?_⟩
          rw [Heap.lookup_without]
          · exact hp1.2
          · intro hmem
            rw [List.mem_singleton] at hmem
            subst hmem
            exact hp0 (List.mem_append_left _ hp))
      -- the rows after it
      have h2 := ih rows rest allc parent (k + 1)
        ((heap.without [OUString.toInt64 c.data.id]).without (preOrderIdsList c.children))
        (log ++ [OUString.toInt64 c.data.id] ++ preOrderIdsList c.children)
        (by omega) hall hrest hndrest
        (fun p hp => by
          have hp1 := hlive p (by simp [hp])
          refine ⟨hp1.1, ?_⟩
          rw [Heap.without_without, Heap.lookup_without]
          · exact hp1.2
          · intro hmem
            rw [List.singleton_append, List.mem_cons] at hmem
            rcases hmem with hmem | hmem
            · subst hmem
              exact hp0 (List.mem_append_right _ hp)
            · exact hdisj hmem hp)
      simp only [Heap.without_without, List.append_assoc, List.singleton_append] at h1 h2
      rw [List.foldlM_cons]
      simp only [Bool.false_eq_true, if_false, hentry, bind, Except.bind]
      rw [List.foldlM_append]
      simp only [h1, bind, Except.bind, h2, List.singleton_append]
      rfl

theorem clearAll_spec (rows : List TreeRow) (heap : Heap) (log : List Int)
    (hnodup : (preOrderIdsList rows).Nodup)
    (hlive : ∀ p ∈ preOrderIdsList rows, p ≠ 0 ∧ heap.lookup p ≠ none) :
    clearAll ⟨⟨⟨rows⟩, heap⟩, log⟩ =
      Except.ok ⟨⟨⟨[]⟩, heap.without (preOrderIdsList rows)⟩, log ++ preOrderIdsList rows⟩ := by
  have h := clearAll_fold (rowsCount rows) rows rows rows [] 0 heap log (Nat.le_refl _) rfl
    (List.drop_zero _) hnodup hlive
  unfold clearAll TreeView.all_foreach
  simp only [h, bind, Except.bind]
  rfl

/-- C13: on a state whose rows are backed by live node objects at pairwise distinct,
non-null addresses, these being all objects of the heap, `clearAll` disposes the node of
every row exactly once and leaves the tree without rows and the heap without objects; a
second `clearAll` right after it leaves the state as it is and disposes nothing. -/
theorem clearAll_disposes_every_node (rows : List TreeRow) (heap : Heap) (log : List Int)
    (hnodup : (preOrderIdsList rows).Nodup)
    (hlive : ∀ p ∈ preOrderIdsList rows, p ≠ 0 ∧ heap.lookup p ≠ none)
    (honly : ∀ o ∈ heap.objects, o.1 ∈ preOrderIdsList rows) :
    clearAll ⟨⟨⟨rows⟩, heap⟩, log⟩ =
        Except.ok ⟨⟨⟨[]⟩, ⟨[]⟩⟩, log ++ preOrderIdsList rows⟩ ∧
      clearAll ⟨⟨⟨[]⟩, ⟨[]⟩⟩, log ++ preOrderIdsList rows⟩ =
        Except.ok ⟨⟨⟨[]⟩, ⟨[]⟩⟩, log ++ preOrderIdsList rows⟩ := by
  have hempty : heap.without (preOrderIdsList rows) = ⟨[]⟩ := by
    unfold Heap.without
    congr 1
    rw [List.filter_eq_nil_iff]
    intro o ho
    simp only [decide_eq_true_eq, not_not]
    exact honly o ho
  constructor
  · rw [clearAll_spec rows heap log hnodup hlive, hempty]
  · rfl

/-- C13, at a concrete input: the expanded state has the nodes 4096, 4104 and 4112; they
are disposed in this order and nothing is left. -/
theorem clearAll_disposes_every_node_witness :
    clearAll ⟨expandedState, []⟩ = Except.ok ⟨⟨⟨[]⟩, ⟨[]⟩⟩, [4096, 4104, 4112]⟩ ∧
      clearAll ⟨⟨⟨[]⟩, ⟨[]⟩⟩, [4096, 4104, 4112]⟩ =
        Except.ok ⟨⟨⟨[]⟩, ⟨[]⟩⟩, [4096, 4104, 4112]⟩ := by
  have hl : preOrderIdsList expandedState.tree.rows = [4096, 4104, 4112] := by decide
  have h := clearAll_disposes_every_node expandedState.tree.rows expandedState.heap []
    (by decide)
    (by
      intro p hp
      rw [hl] at hp
      have hp2 : p = 4096 ∨ p = 4104 ∨ p = 4112 := by simpa using hp
      rcases hp2 with rfl | rfl | rfl
      · exact ⟨by decide, fun h => by cases h⟩
      · exact ⟨by decide, fun h => by cases h⟩
      · exact ⟨by decide, fun h => by cases h⟩)
    (by
      intro o ho
      rw [hl]
      simp only [expandedState, List.mem_cons, List.mem_singleton, List.not_mem_nil,
        or_false] at ho
      rcases ho with rfl | rfl | rfl <;> decide)
  rw [hl] at h
  exact h

/-! ## A successful fill and its repetition -/

theorem AllocChain_fresh (alloc : Allocator) (hfresh : ∀ used, alloc used ∉ used)
    (ps : List Int) :
    ∀ used, AllocChain alloc used ps → ps.Nodup ∧ ∀ p ∈ ps, p ∉ used := by
  induction ps with
  | nil =>
    intro used _
    exact ⟨List.nodup_nil, fun p hp => absurd hp (List.not_mem_nil p)⟩
  | cons q ps ih =>
    intro used h
    obtain ⟨hq, hrest⟩ := h
    obtain ⟨hnd, hout⟩ := ih (q :: used) hrest
    have hqu : q ∉ used := by
      rw [hq]
      exact hfresh used
    refine ⟨List.nodup_cons.2 ⟨fun hmem => hout q hmem (List.mem_cons_self _ _), hnd⟩, ?_⟩
    intro p hp
    rcases List.mem_cons.1 hp with hp | hp
    · rw [hp]
      exact hqu
    · exact fun hmem => hout p hp (List.mem_cons_of_mem _ hmem)

theorem lclAppendNodeAt_columns_error (mxContext : Context) (pTree : TreeView) (heap : Heap)
    (pParent : Option TreeIter) (pEntry : Int) (n : Node) (e : Failure)
    (hderef : heap.deref pEntry = Except.ok n)
    (hcols : n.getColumnValues mxContext = Except.error e) :
    ∃ e1, lclAppendNodeAt mxContext pTree heap pParent pEntry = Except.error e1 := by
  unfold lclAppendNodeAt
  simp only [hderef, hcols, bind, Except.bind]
  generalize pTree.insert pParent n.getObjectName (OUString.number pEntry)
    n.shouldShowExpander = ins
  cases ins with
  | error e0 => exact ⟨_, rfl⟩
  | ok r =>
    simp only []
    generalize r.1.set_text_emphasis r.2 true 0 = em
    cases em with
    | error e0 => exact ⟨_, rfl⟩
    | ok t => exact ⟨_, rfl⟩

theorem appendValue_columns_error (alloc : Allocator) (mxContext : Context)
    (pParent : Option TreeIter) (st : State) (name : String) (v : Any) (n : Node) (e : Failure)
    (hv : specNodeFor name v = some n)
    (hcols : n.getColumnValues mxContext = Except.error e) :
    ∃ e1, appendValue alloc mxContext pParent st name v = Except.error e1 := by
  obtain ⟨e1, he1⟩ := lclAppendNodeAt_columns_error mxContext st.tree (st.heap.new alloc n).2
    pParent (st.heap.new alloc n).1 n e (Heap.deref_new alloc st.heap n) hcols
  refine ⟨e1, ?_⟩
  unfold appendValue
  rw [createNodeObjectForAny_eq, hv]
  simp only [lclAppendNodeToParent, he1, bind, Except.bind]

theorem foldlM_step_success {ι : Type} (mxContext : Context) (pParent : Option TreeIter)
    (nameOf : ι → String) (read : ι → Except Failure Any)
    (body : Allocator → State → ι → Except Failure State)
    (hstep : ∀ a s it, body a s it =
      (read it) >>= fun v => appendValue a mxContext pParent s (nameOf it) v)
    (alloc : Allocator) :
    ∀ (items : List ι) (st st1 : State) (cs : List TreeRow),
      childrenAt st.tree.rows (pParent.getD []) = some cs →
      items.foldlM (body alloc) st = Except.ok st1 →
      ∃ created : List (Int × Node),
        st1.heap.objects = created.reverse ++ st.heap.objects ∧
          updateChildrenAt (fun l => l ++ created.map (rowFor mxContext)) st.tree.rows
            (pParent.getD []) = some st1.tree.rows ∧
          AllocChain alloc (st.heap.objects.map Prod.fst) (created.map Prod.fst) ∧
          ∀ (alloc2 : Allocator) (s : State) (cs2 : List TreeRow),
            childrenAt s.tree.rows (pParent.getD []) = some cs2 →
            ∃ (created2 : List (Int × Node)) (rows2 : List TreeRow),
              items.foldlM (body alloc2) s =
                  Except.ok ⟨⟨rows2⟩, ⟨created2.reverse ++ s.heap.objects⟩⟩ ∧
                updateChildrenAt (fun l => l ++ created2.map (rowFor mxContext)) s.tree.rows
                  (pParent.getD []) = some rows2 ∧
                created2.map Prod.snd = created.map Prod.snd := by
  intro items
  induction items with
  | nil =>
    intro st st1 cs hc h
    have hst : st = st1 := by
      have h2 : (Except.ok st : Except Failure State) = Except.ok st1 := h
      exact Except.ok.inj h2
    subst hst
    refine ⟨[], rfl, updateChildrenAt_self _ (fun l => by simp) _ _ cs hc, trivial, ?_⟩
    intro alloc2 s cs2 hc2
    exact ⟨[], s.tree.rows, rfl, updateChildrenAt_self _ (fun l => by simp) _ _ cs2 hc2, rfl⟩
  | cons it items ih =>
    intro st st1 cs hc h
    rw [List.foldlM_cons] at h
    cases hb : body alloc st it with
    | error e =>
      rw [hb] at h
      cases h
    | ok sa =>
      rw [hb] at h
      have hrest : items.foldlM (body alloc) sa = Except.ok st1 := h
      rw [hstep] at hb
      cases hr : read it with
      | error e =>
        rw [hr] at hb
        cases hb
      | ok v =>
        rw [hr] at hb
        have hav : appendValue alloc mxContext pParent st (nameOf it) v = Except.ok sa := hb
        have hrun : ∀ a s, body a s it = appendValue a mxContext pParent s (nameOf it) v := by
          intro a s
          rw [hstep, hr]
          rfl
        cases hn : specNodeFor (nameOf it) v with
        | none =>
          rw [appendValue_unset alloc mxContext pParent st _ _ hn] at hav
          have hsa : st = sa := Except.ok.inj hav
          subst hsa
          obtain ⟨created, h1, h2, h3, h4⟩ := ih st st1 cs hc hrest
          refine ⟨created, h1, h2, h3, ?_⟩
          intro alloc2 s cs2 hc2
          obtain ⟨created2, rows2, g1, g2, g3⟩ := h4 alloc2 s cs2 hc2
          refine ⟨created2, rows2, ?_, g2, g3⟩
          rw [List.foldlM_cons, hrun, appendValue_unset alloc2 mxContext pParent s _ _ hn]
          exact g1
        | some n =>
          cases hcol : n.getColumnValues mxContext with
          | error e =>
            obtain ⟨e1, he1⟩ :=
              appendValue_columns_error alloc mxContext pParent st _ _ n e hn hcol
            rw [he1] at hav
            cases hav
          | ok cols =>
            obtain ⟨rows1, ha1, ha2⟩ :=
              appendValue_set alloc mxContext pParent st _ _ n cols cs hn hcol hc
            rw [ha1] at hav
            have hsa := Except.ok.inj hav
            subst hsa
            obtain ⟨rows1b, hb1, hb2⟩ := childrenAt_updateChildrenAt
              (fun l => l ++ [rowFor mxContext (alloc (st.heap.objects.map Prod.fst), n)])
              (pParent.getD []) st.tree.rows cs hc
            have hsame : rows1b = rows1 := by
              rw [ha2] at hb1
              exact (Option.some.inj hb1).symm
            subst hsame
            obtain ⟨created, h1, h2, h3, h4⟩ := ih _ st1 _ hb2 hrest
            refine ⟨(alloc (st.heap.objects.map Prod.fst), n) :: created, ?_, ?_, ?_, ?_⟩
            · rw [h1]
              simp only [List.reverse_cons, List.append_assoc, List.singleton_append]
            · rw [updateChildrenAt_twice _ _ _ _ _ ha2] at h2
              simp only [List.append_assoc, List.singleton_append] at h2
              simpa using h2
            · exact ⟨rfl, h3⟩
            · intro alloc2 s cs2 hc2
              obtain ⟨rows3, hs1, hs2⟩ :=
                appendValue_set alloc2 mxContext pParent s _ _ n cols cs2 hn hcol hc2
              obtain ⟨rows3b, hd1, hd2⟩ := childrenAt_updateChildrenAt
                (fun l => l ++ [rowFor mxContext (alloc2 (s.heap.objects.map Prod.fst), n)])
                (pParent.getD []) s.tree.rows cs2 hc2
              have hsame3 : rows3b = rows3 := by
                rw [hs2] at hd1
                exact (Option.some.inj hd1).symm
              subst hsame3
              obtain ⟨created2, rows2, g1, g2, g3⟩ := h4 alloc2
                ⟨⟨rows3b⟩, ⟨(alloc2 (s.heap.objects.map Prod.fst), n) :: s.heap.objects⟩⟩ _ hd2
              refine ⟨(alloc2 (s.heap.objects.map Prod.fst), n) :: created2, rows2, ?_, ?_, ?_⟩
              · rw [List.foldlM_cons, hrun, hs1]
                simp only [List.reverse_cons, List.append_assoc, List.singleton_append]
                exact g1
              · rw [updateChildrenAt_twice _ _ _ _ _ hs2] at g2
                simp only [List.append_assoc, List.singleton_append] at g2
                simpa using g2
              · rw [List.map_cons, List.map_cons, g3]

theorem StructNode_fillChildrenStep_bind (a : Allocator) (mxContext : Context) (maAny : Any)
    (pParent : Option TreeIter) (s : State) (xField : IdlField) :
    StructNode.fillChildrenStep a mxContext maAny pParent s xField =
      (xField.get maAny) >>= fun v => appendValue a mxContext pParent s xField.getName v := by
  cases hget : xField.get maAny with
  | error e =>
    unfold StructNode.fillChildrenStep
    simp only [hget, bind, Except.bind]
  | ok v =>
    rw [StructNode_fillChildrenStep_eq a mxContext maAny pParent s xField v hget]
    rfl

theorem SequenceNode_fillChildrenStep_bind (a : Allocator) (mxContext : Context)
    (maAny : Any) (xIdlArray : IdlArray) (pParent : Option TreeIter) (s : State) (i : Nat) :
    SequenceNode.fillChildrenStep a mxContext maAny xIdlArray pParent s i =
      (xIdlArray.get maAny i) >>= fun v =>
        appendValue a mxContext pParent s (OUString.number i) v := by
  cases hget : xIdlArray.get maAny i with
  | error e =>
    unfold SequenceNode.fillChildrenStep
    simp only [hget, bind, Except.bind]
  | ok v =>
    rw [SequenceNode_fillChildrenStep_eq a mxContext maAny xIdlArray pParent s i v hget]
    rfl

theorem GenericPropertiesNode_fillChildrenStep_bind (a : Allocator) (mxContext : Context)
    (xInvocation : Option Invocation) (pParent : Option TreeIter) (s : State)
    (xProperty : Property) :
    GenericPropertiesNode.fillChildrenStep a mxContext xInvocation pParent s xProperty =
      (GenericPropertiesNode.tryGetValue xInvocation xProperty.Name) >>= fun v =>
        appendValue a mxContext pParent s xProperty.Name v := by
  unfold GenericPropertiesNode.fillChildrenStep appendValue
  cases GenericPropertiesNode.tryGetValue xInvocation xProperty.Name with
  | error e => rfl
  | ok v =>
    simp only [bind, Except.bind]
    rw [createNodeObjectForAny_eq]
    cases specNodeFor xProperty.Name v <;> rfl

theorem Node_fillChildren_success (alloc : Allocator) (mxContext : Context) (node : Node)
    (st st1 : State) (path : List Nat) (cs : List TreeRow)
    (hc : childrenAt st.tree.rows path = some cs)
    (h : node.fillChildren alloc mxContext st (some path) = Except.ok st1) :
    ∃ created : List (Int × Node),
      st1.heap.objects = created.reverse ++ st.heap.objects ∧
        updateChildrenAt (fun l => l ++ created.map (rowFor mxContext)) st.tree.rows path =
          some st1.tree.rows ∧
        AllocChain alloc (st.heap.objects.map Prod.fst) (created.map Prod.fst) ∧
        ∀ (alloc2 : Allocator) (s : State) (cs2 : List TreeRow),
          childrenAt s.tree.rows path = some cs2 →
          ∃ (created2 : List (Int × Node)) (rows2 : List TreeRow),
            node.fillChildren alloc2 mxContext s (some path) =
                Except.ok ⟨⟨rows2⟩, ⟨created2.reverse ++ s.heap.objects⟩⟩ ∧
              updateChildrenAt (fun l => l ++ created2.map (rowFor mxContext)) s.tree.rows
                path = some rows2 ∧
              created2.map Prod.snd = created.map Prod.snd := by
  have hnone : ∀ (s s1 : State) (c : List TreeRow), childrenAt s.tree.rows path = some c →
      (Except.ok s : Except Failure State) = Except.ok s1 →
      ∃ created : List (Int × Node),
        s1.heap.objects = created.reverse ++ s.heap.objects ∧
          updateChildrenAt (fun l => l ++ created.map (rowFor mxContext)) s.tree.rows path =
            some s1.tree.rows ∧
          AllocChain alloc (s.heap.objects.map Prod.fst) (created.map Prod.fst) ∧
          ∀ (_ : Allocator) (s2 : State) (cs2 : List TreeRow),
            childrenAt s2.tree.rows path = some cs2 →
            ∃ (created2 : List (Int × Node)) (rows2 : List TreeRow),
              (Except.ok s2 : Except Failure State) =
                  Except.ok ⟨⟨rows2⟩, ⟨created2.reverse ++ s2.heap.objects⟩⟩ ∧
                updateChildrenAt (fun l => l ++ created2.map (rowFor mxContext)) s2.tree.rows
                  path = some rows2 ∧
                created2.map Prod.snd = created.map Prod.snd := by
    intro s s1 c hsc hs
    have hs1 : s = s1 := Except.ok.inj hs
    subst hs1
    refine ⟨[], rfl, updateChildrenAt_self _ (fun l => by simp) _ _ c hsc, trivial, ?_⟩
    intro _ s2 cs2 hc2
    exact ⟨[], s2.tree.rows, rfl, updateChildrenAt_self _ (fun l => by simp) _ _ cs2 hc2, rfl⟩
  cases node with
  | SimpleStringNode msName => exact hnone st st1 cs hc h
  | MethodNode mxMethod => exact hnone st st1 cs hc h
  | BasicValueNode msName maAny => exact hnone st st1 cs hc h
  | StructNode msName maAny =>
    simp only [Node.fillChildren, StructNode.fillChildren] at h ⊢
    cases hcl : mxContext.forName maAny.getValueType.typeName with
    | none => simp [hcl, Reference.deref, bind, Except.bind] at h
    | some xClass =>
      simp only [hcl, Reference.deref, bind, Except.bind] at h ⊢
      exact foldlM_step_success mxContext (some path) (fun f => f.getName)
        (fun f => f.get maAny)
        (fun a s f => StructNode.fillChildrenStep a mxContext maAny (some path) s f)
        (fun a s f => StructNode_fillChildrenStep_bind a mxContext maAny (some path) s f)
        alloc xClass.getFields st st1 cs hc h
  | SequenceNode msName maAny =>
    simp only [Node.fillChildren, SequenceNode.fillChildren] at h ⊢
    cases hcl : mxContext.forName maAny.getValueType.typeName with
    | none => simp [hcl, Reference.deref, bind, Except.bind] at h
    | some xClass =>
      cases harr : xClass.getArray with
      | none => simp [hcl, harr, Reference.deref, bind, Except.bind] at h
      | some xIdlArray =>
        cases hlen : xIdlArray.getLen maAny with
        | error e => simp [hcl, harr, hlen, Reference.deref, bind, Except.bind] at h
        | ok nLength =>
          simp only [hcl, harr, hlen, Reference.deref, bind, Except.bind] at h ⊢
          exact foldlM_step_success mxContext (some path)
            (fun i : Nat => OUString.number i) (fun i : Nat => xIdlArray.get maAny i)
            (fun a s i =>
              SequenceNode.fillChildrenStep a mxContext maAny xIdlArray (some path) s i)
            (fun a s i =>
              SequenceNode_fillChildrenStep_bind a mxContext maAny xIdlArray (some path) s i)
            alloc _ st st1 cs hc h
  | GenericPropertiesNode msName maAny =>
    simp only [Node.fillChildren, GenericPropertiesNode.fillChildren] at h ⊢
    cases hval : maAny.hasValue with
    | false =>
      simp only [hval, if_true] at h ⊢
      exact hnone st st1 cs hc h
    | true =>
      simp only [hval, Bool.true_eq_false, if_false] at h ⊢
      cases hins : mxContext.inspect maAny with
      | error e => simp [hins, bind, Except.bind] at h
      | ok xAccess =>
        cases hinv : mxContext.createInvocation maAny with
        | error e => simp [hins, hinv, bind, Except.bind] at h
        | ok xInvocation =>
          cases xAccess with
          | none => simp [hins, hinv, Reference.deref, bind, Except.bind] at h
          | some access =>
            cases hprops : access.getProperties
                (PropertyConcept.ALL - PropertyConcept.DANGEROUS) with
            | error e => simp [hins, hinv, hprops, Reference.deref, bind, Except.bind] at h
            | ok xProperties =>
              simp only [hins, hinv, hprops, Reference.deref, bind, Except.bind] at h ⊢
              exact foldlM_step_success mxContext (some path) (fun q => q.Name)
                (fun q => GenericPropertiesNode.tryGetValue xInvocation q.Name)
                (fun a s q => GenericPropertiesNode.fillChildrenStep a mxContext xInvocation
                  (some path) s q)
                (fun a s q => GenericPropertiesNode_fillChildrenStep_bind a mxContext
                  xInvocation (some path) s q)
                alloc xProperties st st1 cs hc h

/-! ## Lemmas on the rows of created nodes -/

theorem foldl_setTextData_id (cols : List (Int × String)) :
    ∀ d : RowData, (cols.foldl setTextData d).id = d.id := by
  induction cols with
  | nil =>
    intro d
    rfl
  | cons c cols ih =>
    intro d
    rw [List.foldl_cons, ih]
    rfl

theorem foldl_setTextData_columns (cols : List (Int × String)) :
    ∀ d : RowData, (cols.foldl setTextData d).columns =
      cols.foldl (fun acc c => setColumn c.1 c.2 acc) d.columns := by
  induction cols with
  | nil =>
    intro d
    rfl
  | cons c cols ih =>
    intro d
    rw [List.foldl_cons, ih]
    rfl

theorem rowFor_id (mxContext : Context) (c : Int × Node) :
    (rowFor mxContext c).data.id = OUString.number c.1 := by
  unfold rowFor rowDataFor
  simp only [TreeRow.data]
  rw [foldl_setTextData_id]

theorem rowFor_columns (mxContext : Context) (c : Int × Node) :
    (rowFor mxContext c).data.columns =
      (columnsOf mxContext c.2).foldl (fun acc x => setColumn x.1 x.2 acc) [] := by
  unfold rowFor rowDataFor
  simp only [TreeRow.data]
  rw [foldl_setTextData_columns]

theorem rowTexts_created (mxContext : Context) (created : List (Int × Node)) :
    rowTexts (created.map (rowFor mxContext)) =
      (created.map Prod.snd).map (fun n => (n.getObjectName,
        (columnsOf mxContext n).foldl (fun acc x => setColumn x.1 x.2 acc) [])) := by
  unfold rowTexts
  rw [List.map_map, List.map_map]
  apply List.map_congr_left
  intro c _
  simp only [Function.comp, rowFor_text, rowFor_columns]

theorem postOrderIdsList_created (mxContext : Context) (created : List (Int × Node)) :
    postOrderIdsList (created.map (rowFor mxContext)) =
      created.map (fun c => OUString.toInt64 (OUString.number c.1)) := by
  induction created with
  | nil => rfl
  | cons c created ih =>
    rw [List.map_cons, postOrderIdsList_cons, ih, rowFor_id]
    rfl

theorem rowsCount_created (mxContext : Context) (created : List (Int × Node)) :
    rowsCount (created.map (rowFor mxContext)) = created.length := by
  induction created with
  | nil => rfl
  | cons c created ih =>
    rw [List.map_cons, rowsCount_cons, ih]
    simp only [rowFor, TreeRow.children, rowsCount, List.length_cons]
    omega

theorem created_ids_round_trip (created : List (Int × Node))
    (hrange : ∀ p ∈ created.map Prod.fst,
      -9223372036854775808 ≤ p ∧ p ≤ 9223372036854775807) :
    created.map (fun c => OUString.toInt64 (OUString.number c.1)) = created.map Prod.fst := by
  apply List.map_congr_left
  intro c hc
  have hr := hrange c.1 (List.mem_map_of_mem Prod.fst hc)
  exact toInt64_number c.1 hr.1 hr.2

theorem Heap.lookup_eq_none (h : Heap) (p : Int) (hp : p ∉ h.objects.map Prod.fst) :
    h.lookup p = none := by
  unfold Heap.lookup
  have hnone : h.objects.find? (fun o => decide (o.1 = p)) = none := by
    rw [List.find?_eq_none]
    intro o ho hop
    simp only [decide_eq_true_eq] at hop
    exact hp (hop ▸ List.mem_map_of_mem Prod.fst ho)
  simp only [hnone]

theorem Heap.lookup_ne_none (h : Heap) (p : Int) (hp : p ∈ h.objects.map Prod.fst) :
    h.lookup p ≠ none := by
  unfold Heap.lookup
  cases hf : h.objects.find? (fun o => decide (o.1 = p)) with
  | some o => simp
  | none =>
    rw [List.find?_eq_none] at hf
    obtain ⟨o, ho, hop⟩ := List.mem_map.1 hp
    exact absurd (by simpa using hop) (hf o ho)

theorem Heap.without_created (created : List (Int × Node)) (objs : List (Int × Node))
    (hout : ∀ o ∈ objs, o.1 ∉ created.map Prod.fst) :
    Heap.without ⟨created.reverse ++ objs⟩ (created.map Prod.fst) = ⟨objs⟩ := by
  unfold Heap.without
  congr 1
  rw [List.filter_append]
  have h1 : List.filter (fun o => decide (o.1 ∉ created.map Prod.fst)) created.reverse =
      [] := by
    rw [List.filter_eq_nil_iff]
    intro o ho
    simp only [decide_eq_true_eq, not_not]
    exact List.mem_map_of_mem Prod.fst (List.mem_reverse.1 ho)
  have h2 : List.filter (fun o => decide (o.1 ∉ created.map Prod.fst)) objs = objs := by
    rw [List.filter_eq_self]
    intro o ho
    simp only [decide_eq_true_eq]
    exact hout o ho
  rw [h1, h2, List.nil_append]

/-! ## Expanding a row twice -/

/-- C12: let a row with a non-empty identifier be expanded with success, on a tree whose
rows below that row are backed by live node objects at pairwise distinct, non-null
addresses; let `new` hand out unused addresses and let the objects live after the call
have non-null addresses of 64 bits. Then a second
`handleExpanding` on the row, with whatever addresses `new` hands out this time, succeeds
as well and leaves below the row the same list of children by label and column texts.
The second call is the fill of the node of the row from the state `trmid` that clearing
below the row leaves: in that state the row has no row below it and the heap is the heap
after the first call without the nodes of the first children, none of which is live. The
objects live after the second call are those of `trmid` and the nodes of the new rows. -/
theorem handleExpanding_twice (alloc alloc2 : Allocator) (mxContext : Context)
    (fuel fuel2 : Nat) (rows : List TreeRow) (heap : Heap) (st1 : State)
    (rParent : TreeIter) (row : TreeRow)
    (hfresh : ∀ used, alloc used ∉ used)
    (hrow : rowAt rows rParent = some row)
    (hne : row.data.id ≠ "")
    (hfuel : rowsCount row.children < fuel)
    (hnodup : (postOrderIdsList row.children).Nodup)
    (hlive : ∀ p ∈ postOrderIdsList row.children, p ≠ 0 ∧ heap.lookup p ≠ none)
    (h1 : handleExpanding alloc mxContext fuel ⟨⟨rows⟩, heap⟩ rParent = Except.ok st1)
    (hrange : ∀ o ∈ st1.heap.objects, o.1 ≠ 0 ∧ -9223372036854775808 ≤ o.1 ∧
      o.1 ≤ 9223372036854775807)
    (hfuel2 : ∀ cs, childrenAt st1.tree.rows rParent = some cs → cs.length < fuel2) :
    ∃ (cs1 cs2 : List TreeRow) (trmid : Traced) (st2 : State) (node : Node)
        (created2 : List (Int × Node)),
      childrenAt st1.tree.rows rParent = some cs1 ∧
        clearObjectInspectorChildren fuel2 ⟨st1, []⟩ rParent = Except.ok trmid ∧
        childrenAt trmid.state.tree.rows rParent = some [] ∧
        trmid.deleted = cs1.map (fun r => OUString.toInt64 r.data.id) ∧
        (∀ p ∈ trmid.deleted, trmid.state.heap.lookup p = none) ∧
        handleExpanding alloc2 mxContext fuel2 st1 rParent = Except.ok st2 ∧
        childrenAt st2.tree.rows rParent = some cs2 ∧
        rowTexts cs2 = rowTexts cs1 ∧
        trmid.state.heap = st1.heap.without trmid.deleted ∧
        trmid.state.heap.deref (OUString.toInt64 row.data.id) = Except.ok node ∧
        node.fillChildren alloc2 mxContext trmid.state (some rParent) = Except.ok st2 ∧
        cs2 = created2.map (rowFor mxContext) ∧
        st2.heap.objects = created2.reverse ++ trmid.state.heap.objects := by
  obtain ⟨⟨rows1⟩, ⟨objs1⟩⟩ := st1
  -- the first call: its clearing step
  have hc : childrenAt rows rParent = some row.children :=
    childrenAt_of_rowAt rows rParent row hrow
  obtain ⟨rows0, hclr, hup0⟩ := clearObjectInspectorChildren_spec fuel rows heap []
    rParent row.children hc hfuel hnodup hlive
  obtain ⟨rows0b, hb1, hch0⟩ := childrenAt_updateChildrenAt (fun _ => []) rParent rows
    row.children hc
  have hsame0 : rows0b = rows0 := by
    rw [hup0] at hb1
    exact (Option.some.inj hb1).symm
  subst hsame0
  have hrow0 : rowAt rows0b rParent = some (TreeRow.mk row.data []) :=
    rowAt_updateChildrenAt _ rows rows0b rParent row hrow hup0
  have hid : TreeView.get_id ⟨rows⟩ rParent = Except.ok row.data.id := by
    unfold TreeView.get_id
    simp only [hrow]
  -- the first call: the node and its fill
  unfold handleExpanding at h1
  simp only [hid, hne, hclr, bind, Except.bind, if_false] at h1
  cases hnode : (heap.without (postOrderIdsList row.children)).deref
      (OUString.toInt64 row.data.id) with
  | error e =>
    simp only [hnode] at h1
    cases h1
  | ok node =>
    simp only [hnode] at h1
    obtain ⟨created, hheap1, hup1, hchain, hreplay⟩ := Node_fillChildren_success alloc
      mxContext node ⟨⟨rows0b⟩, heap.without (postOrderIdsList row.children)⟩
      ⟨⟨rows1⟩, ⟨objs1⟩⟩ rParent [] hch0 h1
    simp only [] at hheap1 hup1 hchain
    subst hheap1
    rw [show (fun l : List TreeRow => l ++ created.map (rowFor mxContext)) =
      (fun l => l ++ created.map (rowFor mxContext)) from rfl] at hup1
    obtain ⟨rows1b, hd1, hch1⟩ := childrenAt_updateChildrenAt
      (fun l => l ++ created.map (rowFor mxContext)) rParent rows0b [] hch0
    have hsame1 : rows1b = rows1 := by
      rw [hup1] at hd1
      exact (Option.some.inj hd1).symm
    subst hsame1
    rw [List.nil_append] at hch1
    have hrow1 : rowAt rows1b rParent =
        some (TreeRow.mk row.data (created.map (rowFor mxContext))) := by
      have := rowAt_updateChildrenAt (fun l => l ++ created.map (rowFor mxContext)) rows0b
        rows1b rParent (TreeRow.mk row.data []) hrow0 hup1
      simpa [TreeRow.data, TreeRow.children] using this
    -- the addresses of the created nodes
    obtain ⟨hnd, hout⟩ := AllocChain_fresh alloc hfresh (created.map Prod.fst) _ hchain
    have hnz : ∀ p ∈ created.map Prod.fst, p ≠ 0 ∧ -9223372036854775808 ≤ p ∧
        p ≤ 9223372036854775807 := by
      intro p hp
      obtain ⟨c, hc1, hc2⟩ := List.mem_map.1 hp
      rw [← hc2]
      exact hrange c (List.mem_append_left _ (List.mem_reverse.2 hc1))
    have hids : postOrderIdsList (created.map (rowFor mxContext)) = created.map Prod.fst := by
      rw [postOrderIdsList_created]
      exact created_ids_round_trip created (fun p hp => (hnz p hp).2)
    have hids2 : (created.map (rowFor mxContext)).map (fun r => OUString.toInt64 r.data.id) =
        created.map Prod.fst := by
      rw [List.map_map, ← created_ids_round_trip created (fun p hp => (hnz p hp).2)]
      apply List.map_congr_left
      intro c _
      simp only [Function.comp, rowFor_id]
    -- the second call: its clearing step
    have hf2 : rowsCount (created.map (rowFor mxContext)) < fuel2 := by
      rw [rowsCount_created]
      have := hfuel2 _ hch1
      simpa using this
    obtain ⟨rowsm, hclr2, hupm⟩ := clearObjectInspectorChildren_spec fuel2 rows1b
      ⟨created.reverse ++ (heap.without (postOrderIdsList row.children)).objects⟩ [] rParent
      (created.map (rowFor mxContext)) hch1 hf2
      (by
        rw [hids]
        exact hnd)
      (by
        intro p hp
        rw [hids] at hp
        refine ⟨(hnz p hp).1, Heap.lookup_ne_none _ p ?_⟩
        simp only [List.map_append, List.map_reverse, List.mem_append, List.mem_reverse]
        exact Or.inl hp)
    have hrowsm : rowsm = rows0b := by
      rw [updateChildrenAt_then _ (fun _ => []) rParent rows0b [] rows1b hch0 hup1] at hupm
      rw [updateChildrenAt_fixed (fun _ => []) rParent rows0b [] hch0 rfl] at hupm
      exact (Option.some.inj hupm).symm
    subst hrowsm
    have hheapm : Heap.without
        ⟨created.reverse ++ (heap.without (postOrderIdsList row.children)).objects⟩
        (created.map Prod.fst) = heap.without (postOrderIdsList row.children) :=
      Heap.without_created created _ (fun o ho hmem =>
        hout o.1 hmem (List.mem_map_of_mem Prod.fst ho))
    rw [hids, hheapm, List.nil_append] at hclr2
    -- the second call: the node and its fill
    obtain ⟨created2, rows2, hfill2, hup2, hsnd⟩ := hreplay alloc2
      ⟨⟨rowsm⟩, heap.without (postOrderIdsList row.children)⟩ [] hch0
    obtain ⟨rows2b, he1, hch2⟩ := childrenAt_updateChildrenAt
      (fun l => l ++ created2.map (rowFor mxContext)) rParent rowsm [] hch0
    have hsame2 : rows2b = rows2 := by
      rw [hup2] at he1
      exact (Option.some.inj he1).symm
    subst hsame2
    rw [List.nil_append] at hch2
    have hid1 : TreeView.get_id ⟨rows1b⟩ rParent = Except.ok row.data.id := by
      unfold TreeView.get_id
      simp only [hrow1, TreeRow.data]
    refine ⟨created.map (rowFor mxContext), created2.map (rowFor mxContext),
      ⟨⟨⟨rowsm⟩, heap.without (postOrderIdsList row.children)⟩, created.map Prod.fst⟩,
      ⟨⟨rows2b⟩, ⟨created2.reverse ++ (heap.without (postOrderIdsList row.children)).objects⟩⟩,
      node, created2,
      hch1, hclr2, hch0, hids2.symm, ?_, ?_, hch2, ?_, hheapm.symm, hnode, hfill2, rfl, rfl⟩
    · intro p hp
      exact Heap.lookup_eq_none _ p (hout p hp)
    · unfold handleExpanding
      simp only [hid1, hne, hclr2, hnode, hfill2, bind, Except.bind, if_false]
    · rw [rowTexts_created, rowTexts_created, hsnd]

theorem bumpAllocator_above (used : List Int) :
    ∀ m : Int, m ≤ used.foldl (fun m a => if m ≤ a then a + 8 else m) m ∧
      ∀ a ∈ used, a < used.foldl (fun m a => if m ≤ a then a + 8 else m) m := by
  induction used with
  | nil =>
    intro m
    exact ⟨Int.le_refl m, fun a ha => absurd ha (List.not_mem_nil a)⟩
  | cons b used ih =>
    intro m
    obtain ⟨h1, h2⟩ := ih (if m ≤ b then b + 8 else m)
    rw [List.foldl_cons]
    constructor
    · by_cases hmb : m ≤ b
      · simp only [hmb, if_true] at h1 ⊢
        omega
      · simp only [hmb, if_false] at h1 ⊢
        exact h1
    · intro a ha
      rcases List.mem_cons.1 ha with ha | ha
      · subst ha
        by_cases hmb : m ≤ a
        · simp only [hmb, if_true] at h1 ⊢
          omega
        · simp only [hmb, if_false] at h1 ⊢
          omega
      · exact h2 a ha

theorem bumpAllocator_fresh (used : List Int) : bumpAllocator used ∉ used := by
  intro hmem
  have := (bumpAllocator_above used 4096).2 _ hmem
  unfold bumpAllocator at this
  omega

/-- C12, at a concrete input: expanding the row of the sample sequence gives the rows "0"
and "2"; expanding it again gives rows with the same labels and column texts, after the
nodes at 4104 and 4112 were disposed: the objects live afterwards are the new nodes and
those of the heap without the two. -/
theorem handleExpanding_twice_witness :
    handleExpanding bumpAllocator sampleContext 1 collapsedState [0] =
        Except.ok expandedState ∧
      ∃ (trmid : Traced) (st2 : State) (created2 : List (Int × Node)),
        clearObjectInspectorChildren 3 ⟨expandedState, []⟩ [0] = Except.ok trmid ∧
          trmid.deleted = [4104, 4112] ∧
          trmid.state.heap = expandedState.heap.without [4104, 4112] ∧
          handleExpanding bumpAllocator sampleContext 3 expandedState [0] = Except.ok st2 ∧
          st2.heap.objects = created2.reverse ++ trmid.state.heap.objects ∧
          childTexts [0] (Except.ok st2) =
            [("0", [(1, "10"), (2, "long")]), ("2", [(1, "\"x\""), (2, "string")])] := by
  have hfirst : handleExpanding bumpAllocator sampleContext 1 collapsedState [0] =
      Except.ok expandedState := by rfl
  refine ⟨hfirst, ?_⟩
  obtain ⟨cs1, cs2, trmid, st2, _, created2, g1, g2, _, g4, _, g6, g7, g8, g9, _, _, _,
      g13⟩ :=
    handleExpanding_twice bumpAllocator bumpAllocator sampleContext 1 3
      collapsedState.tree.rows collapsedState.heap expandedState [0]
      (TreeRow.mk ⟨"Fields", "4096", true, [(0, true)], [(1, "0 to 2"), (2, "[]any")]⟩ [])
      bumpAllocator_fresh (by rfl) (by decide) (by decide) (by decide)
      (by
        intro p hp
        exact absurd hp (List.not_mem_nil p))
      hfirst
      (by
        intro o ho
        simp only [expandedState, List.mem_cons, List.mem_singleton, List.not_mem_nil,
          or_false] at ho
        rcases ho with rfl | rfl | rfl <;> decide)
      (by
        intro cs h
        have h2 := (Option.some.inj h).symm
        subst h2
        decide)
  have hcs1 : cs1 = [TreeRow.mk ⟨"0", "4104", false, [(0, true)], [(1, "10"), (2, "long")]⟩ [],
      TreeRow.mk ⟨"2", "4112", false, [(0, true)], [(1, "\"x\""), (2, "string")]⟩ []] :=
    (Option.some.inj g1).symm
  subst hcs1
  have hdel : trmid.deleted = [4104, 4112] := by
    rw [g4]
    decide
  refine ⟨trmid, st2, created2, g2, hdel, ?_, g6, g13, ?_⟩
  · rw [g9, hdel]
  · simp only [childTexts, g7, g8]
    decide

/-! ## Expanding a row without a node -/

/-- C11, as stated, fails: the root row of this state has the identifier "4096", no object
is live at the address 4096, and `handleExpanding` on the row first disposes the node of
the row below it and then ends in a call through a dangling pointer. -/
theorem handleExpanding_stale_identifier :
    staleRowState.tree.get_id [0] = Except.ok "4096" ∧
      (staleRowState.heap.lookup (OUString.toInt64 "4096")).isNone = true ∧
      (clearObjectInspectorChildren 10 ⟨staleRowState, []⟩ [0]).toOption.map
        (fun tr => tr.deleted) = some [4104] ∧
      handleExpanding bumpAllocator sampleContext 10 staleRowState [0] =
        Except.error Failure.danglingPointer :=
  ⟨rfl, rfl, rfl, rfl⟩

/-- C11, amended: for a row whose identifier is empty, `handleExpanding` returns with the
state it was given: the rows of the tree and the live nodes are unchanged and no failure
occurs. -/
theorem handleExpanding_empty_identifier (alloc : Allocator) (mxContext : Context)
    (fuel : Nat) (st : State) (rParent : TreeIter)
    (hid : st.tree.get_id rParent = Except.ok "") :
    handleExpanding alloc mxContext fuel st rParent = Except.ok st := by
  unfold handleExpanding
  simp only [hid, bind, Except.bind, if_true]
  rfl

/-- C11, amended, at a concrete input: a row without identifier. -/
theorem handleExpanding_empty_identifier_witness :
    handleExpanding bumpAllocator sampleContext 0 placeholderState [0] =
      Except.ok placeholderState :=
  handleExpanding_empty_identifier bumpAllocator sampleContext 0 placeholderState [0] (by rfl)

/-! ## The statements that may throw and the functions they are -/

theorem Outcome.forEach_thrown {σ ι : Type} (body : σ → ι → Outcome σ) (xs : List ι)
    (e : Failure) (s : σ) :
    (Outcome.thrown e s).forEach xs body = Outcome.thrown e s := by
  induction xs with
  | nil => rfl
  | cons x xs ih => exact ih

theorem Outcome.forEach_cons {σ ι : Type} (body : σ → ι → Outcome σ) (x : ι) (xs : List ι)
    (s : σ) :
    (Outcome.done s).forEach (x :: xs) body = (body s x).forEach xs body := by
  rfl

/-- A loop whose body agrees with a body that drops the state at the failure agrees with
the loop over that body. -/
theorem Outcome.forEach_toExcept {σ τ ι : Type} (body : σ → ι → Outcome σ)
    (g : τ → ι → Except Failure τ) (lift : τ → σ)
    (hb : ∀ t x, (body (lift t) x).toExcept = (g t x).map lift)
    (xs : List ι) :
    ∀ t, ((Outcome.done (lift t)).forEach xs body).toExcept = (xs.foldlM g t).map lift := by
  induction xs with
  | nil =>
    intro t
    rfl
  | cons x xs ih =>
    intro t
    rw [Outcome.forEach_cons, List.foldlM_cons]
    have hbx := hb t x
    cases hbody : body (lift t) x with
    | thrown e s1 =>
      rw [hbody] at hbx
      rw [Outcome.forEach_thrown]
      cases hg : g t x with
      | error e1 =>
        rw [hg] at hbx
        have he : e = e1 := Except.error.inj hbx
        subst he
        rfl
      | ok t1 =>
        rw [hg] at hbx
        cases hbx
    | done s1 =>
      rw [hbody] at hbx
      cases hg : g t x with
      | error e1 =>
        rw [hg] at hbx
        cases hbx
      | ok t1 =>
        rw [hg] at hbx
        have hs : s1 = lift t1 := Except.ok.inj hbx
        subst hs
        exact ih t1

/-- Without the state at the failure, the statements of `lclAppendNode` are the function
`lclAppendNodeAt`. -/
theorem Stepwise_lclAppendNodeAt_toExcept (mxContext : Context) (pParent : Option TreeIter)
    (pEntry : Int) (st : State) :
    (Stepwise.lclAppendNodeAt mxContext pParent pEntry st).toExcept =
      (lclAppendNodeAt mxContext st.tree st.heap pParent pEntry).map
        (fun r => (⟨r.2, st.heap⟩ : State)) := by
  unfold Stepwise.lclAppendNodeAt lclAppendNodeAt
  cases st.heap.deref pEntry with
  | error e => rfl
  | ok entry =>
    simp only [bind, Except.bind]
    cases st.tree.insert pParent entry.getObjectName (OUString.number pEntry)
        entry.shouldShowExpander with
    | error e => rfl
    | ok ins =>
      obtain ⟨pTree, pCurrent⟩ := ins
      simp only []
      cases pTree.set_text_emphasis pCurrent true 0 with
      | error e => rfl
      | ok pTree1 =>
        simp only []
        cases entry.getColumnValues mxContext with
        | error e => rfl
        | ok aColumnValues =>
          simp only []
          have hloop := Outcome.forEach_toExcept
            (fun (s : State) (rPair : Int × String) =>
              match s.tree.set_text pCurrent rPair.2 rPair.1 with
              | Except.error e => Outcome.thrown e s
              | Except.ok pTree2 => Outcome.done ⟨pTree2, s.heap⟩)
            (fun (t : TreeView) (rPair : Int × String) => t.set_text pCurrent rPair.2 rPair.1)
            (fun t => (⟨t, st.heap⟩ : State))
            (fun t x => by
              simp only []
              cases t.set_text pCurrent x.2 x.1 <;> rfl)
            aColumnValues pTree1
          rw [hloop]
          cases List.foldlM (fun (t : TreeView) (rPair : Int × String) =>
            t.set_text pCurrent rPair.2 rPair.1) pTree1 aColumnValues <;> rfl

/-- Without the state at the failure, the statements of
`GenericPropertiesNode::fillChildren` are the function of that name above. -/
theorem Stepwise_fillChildren_toExcept (alloc : Allocator) (mxContext : Context) (maAny : Any)
    (st : State) (pParent : Option TreeIter) :
    (Stepwise.GenericPropertiesNode.fillChildren alloc mxContext maAny st pParent).toExcept =
      GenericPropertiesNode.fillChildren alloc mxContext maAny st pParent := by
  unfold Stepwise.GenericPropertiesNode.fillChildren GenericPropertiesNode.fillChildren
  by_cases hv : maAny.hasValue = false
  · simp only [hv, if_true]
    rfl
  · rw [if_neg hv, if_neg hv]
    simp only [bind, Except.bind]
    cases mxContext.inspect maAny with
    | error e => rfl
    | ok xIntrospectionAccess =>
      simp only []
      cases mxContext.createInvocation maAny with
      | error e => rfl
      | ok xInvocation =>
        simp only []
        cases Reference.deref xIntrospectionAccess with
        | error e => rfl
        | ok access =>
          simp only []
          cases access.getProperties (PropertyConcept.ALL - PropertyConcept.DANGEROUS) with
          | error e => rfl
          | ok xProperties =>
            simp only []
            have hloop := Outcome.forEach_toExcept
              (Stepwise.GenericPropertiesNode.fillChildrenStep alloc mxContext xInvocation
                pParent)
              (GenericPropertiesNode.fillChildrenStep alloc mxContext xInvocation pParent)
              (fun s => s)
              (fun t x => by
                unfold Stepwise.GenericPropertiesNode.fillChildrenStep
                  GenericPropertiesNode.fillChildrenStep
                simp only [bind, Except.bind]
                cases GenericPropertiesNode.tryGetValue xInvocation x.Name with
                | error e => rfl
                | ok aCurrentAny =>
                  simp only []
                  generalize BasicValueNode.createNodeObjectForAny alloc x.Name aCurrentAny
                    t.heap = created
                  obtain ⟨pNode, heap⟩ := created
                  cases pNode with
                  | none => rfl
                  | some pEntry =>
                    simp only []
                    rw [Stepwise_lclAppendNodeAt_toExcept]
                    simp only [lclAppendNodeToParent]
                    cases lclAppendNodeAt mxContext t.tree heap pParent pEntry <;> rfl)
              xProperties st
            rw [hloop]
            cases List.foldlM
              (GenericPropertiesNode.fillChildrenStep alloc mxContext xInvocation pParent) st
              xProperties <;> rfl

/-- When `getColumnValues` of the node throws, the row of the node is in the tree already:
the state at the failure is the tree after `insert` and `set_text_emphasis`. -/
theorem Stepwise_lclAppendNodeAt_row_stays (mxContext : Context) (pParent : Option TreeIter)
    (pEntry : Int) (st : State) (entry : Node) (pTree pTree1 : TreeView) (pCurrent : TreeIter)
    (e : Failure)
    (hderef : st.heap.deref pEntry = Except.ok entry)
    (hins : st.tree.insert pParent entry.getObjectName (OUString.number pEntry)
      entry.shouldShowExpander = Except.ok (pTree, pCurrent))
    (hemph : pTree.set_text_emphasis pCurrent true 0 = Except.ok pTree1)
    (hcols : entry.getColumnValues mxContext = Except.error e) :
    Stepwise.lclAppendNodeAt mxContext pParent pEntry st = Outcome.thrown e ⟨pTree1, st.heap⟩ := by
  unfold Stepwise.lclAppendNodeAt
  simp only [hderef, hins, hemph, hcols]

theorem Stepwise_clearAllEntry_cases (T T1 : TreeView) (heap : Heap) (log : List Int)
    (rEntry : TreeIter) :
    (∃ e, Stepwise.clearAllEntry T ⟨T1, heap⟩ rEntry = Outcome.thrown e ⟨T1, heap⟩ ∧
        clearAllEntry T (heap, log) rEntry = Except.error e) ∨
      ∃ (heap1 : Heap) (p : Int),
        Stepwise.clearAllEntry T ⟨T1, heap⟩ rEntry = Outcome.done ⟨T1, heap1⟩ ∧
          clearAllEntry T (heap, log) rEntry = Except.ok ((heap1, log ++ [p]), false) := by
  unfold Stepwise.clearAllEntry clearAllEntry
  simp only [bind, Except.bind]
  cases T.get_id rEntry with
  | error e => exact Or.inl ⟨e, rfl, rfl⟩
  | ok sID =>
    simp only []
    cases heap.delete (OUString.toInt64 sID) with
    | error e => exact Or.inl ⟨e, rfl, rfl⟩
    | ok heap1 => exact Or.inr ⟨heap1, OUString.toInt64 sID, rfl, rfl⟩

theorem Stepwise_clearAll_fold (T T1 : TreeView) (paths : List TreeIter) :
    ∀ (heap : Heap) (log : List Int),
      ((Outcome.done (⟨T1, heap⟩ : State)).forEach paths
          (Stepwise.clearAllEntry T)).toExcept =
        (paths.foldlM (fun (acc : (Heap × List Int) × Bool) (rEntry : TreeIter) =>
            if acc.2 then pure acc else clearAllEntry T acc.1 rEntry)
          ((heap, log), false)).map (fun r => (⟨T1, r.1.1⟩ : State)) := by
  induction paths with
  | nil =>
    intro heap log
    rfl
  | cons r paths ih =>
    intro heap log
    rw [Outcome.forEach_cons, List.foldlM_cons]
    simp only [Bool.false_eq_true, if_false]
    rcases Stepwise_clearAllEntry_cases T T1 heap log r with ⟨e, h1, h2⟩ | ⟨heap1, p, h1, h2⟩
    · rw [h1, h2, Outcome.forEach_thrown]
      rfl
    · rw [h1, h2]
      exact ih heap1 (log ++ [p])

/-- Without the state at the failure, the statements of `clearAll` are the function
`clearAll` above, whatever addresses its log holds. -/
theorem Stepwise_clearAll_toExcept (st : State) (log : List Int) :
    (Stepwise.clearAll st).toExcept =
      (clearAll ⟨st, log⟩).map (fun tr => tr.state) := by
  have h := Stepwise_clearAll_fold st.tree st.tree (rowsPaths [] 0 st.tree.rows) st.heap log
  unfold Stepwise.clearAll clearAll TreeView.all_foreach
  simp only [bind, Except.bind]
  cases hr : List.foldlM (fun (acc : (Heap × List Int) × Bool) (rEntry : TreeIter) =>
      if acc.2 then pure acc else clearAllEntry st.tree acc.1 rEntry)
      ((st.heap, log), false) (rowsPaths [] 0 st.tree.rows) with
  | error e =>
    rw [hr] at h
    cases ho : (Outcome.done (⟨st.tree, st.heap⟩ : State)).forEach
        (rowsPaths [] 0 st.tree.rows) (Stepwise.clearAllEntry st.tree) with
    | done s =>
      rw [ho] at h
      cases h
    | thrown e1 s =>
      rw [ho] at h
      have he : e1 = e := Except.error.inj h
      subst he
      rfl
  | ok r =>
    rw [hr] at h
    cases ho : (Outcome.done (⟨st.tree, st.heap⟩ : State)).forEach
        (rowsPaths [] 0 st.tree.rows) (Stepwise.clearAllEntry st.tree) with
    | thrown e1 s =>
      rw [ho] at h
      cases h
    | done s =>
      rw [ho] at h
      have hs : s = ⟨st.tree, r.1.1⟩ := Except.ok.inj h
      subst hs
      rfl

/-! ## The panels of `introspect` -/

theorem introspect_eq_blocks (alloc : Allocator) (xContext : Context) (h : Handler)
    (x : XInterface) :
    introspect alloc (some xContext) h (some x) =
      panelBlock alloc xContext (some x) PanelId.Methods
        (panelBlock alloc xContext (some x) PanelId.Properties
          (panelBlock alloc xContext (some x) PanelId.Services
            (panelBlock alloc xContext (some x) PanelId.Interfaces
              ((Outcome.done h).step (setImplementationName x))))) := by
  rfl

theorem Outcome.map_state {σ τ : Type} (f : σ → τ) (o : Outcome σ) :
    (o.map f).state = f o.state := by
  cases o <;> rfl

theorem Outcome.step_thrown {σ : Type} (e : Failure) (s : σ) (f : σ → Outcome σ) :
    (Outcome.thrown e s).step f = Outcome.thrown e s := by
  rfl

theorem panelBlock_thrown (alloc : Allocator) (xContext : Context)
    (xInterface : Option XInterface) (id : PanelId) (e : Failure) (h : Handler) :
    panelBlock alloc xContext xInterface id (Outcome.thrown e h) = Outcome.thrown e h := by
  rfl

theorem Outcome.step_keeps_panel (o : Outcome Handler) (f : Handler → Outcome Handler)
    (h0 : Handler) (j : PanelId)
    (hf : ∀ h, (f h).state.panel j = h.panel j)
    (ho : o.state.panel j = h0.panel j) :
    (o.step f).state.panel j = h0.panel j := by
  cases o with
  | thrown e h => exact ho
  | done h =>
    show (f h).state.panel j = h0.panel j
    rw [hf h]
    exact ho

theorem Outcome.step_done_inv {σ : Type} (o : Outcome σ) (f : σ → Outcome σ) (s2 : σ)
    (hs : o.step f = Outcome.done s2) :
    ∃ s1, o = Outcome.done s1 ∧ f s1 = Outcome.done s2 := by
  cases o with
  | thrown e s => cases hs
  | done s => exact ⟨s, rfl, hs⟩

theorem setPanel_other (h : Handler) (id j : PanelId) (p : Panel) (hne : j ≠ id) :
    (h.setPanel id p).panel j = h.panel j := by
  cases id <;> cases j <;> first | rfl | exact absurd rfl hne

theorem setPanel_same (h : Handler) (id : PanelId) (p : Panel) :
    (h.setPanel id p).panel id = p := by
  cases id <;> rfl

theorem setHeap_panel (h : Handler) (heap : Heap) (j : PanelId) :
    (h.setHeap heap).panel j = h.panel j := by
  cases j <;> rfl

theorem withState_other (h : Handler) (id j : PanelId) (st : State) (hne : j ≠ id) :
    (h.withState id st).panel j = h.panel j := by
  unfold Handler.withState
  rw [setHeap_panel, setPanel_other _ _ _ _ hne]

theorem withState_same (h : Handler) (id : PanelId) (st : State) :
    (h.withState id st).panel id = ⟨st.tree, (h.panel id).frozen⟩ := by
  unfold Handler.withState
  rw [setHeap_panel, setPanel_same]

theorem freezePanel_keeps (id j : PanelId) (hne : j ≠ id) (h : Handler) :
    (freezePanel id h).state.panel j = h.panel j :=
  setPanel_other _ _ _ _ hne

theorem thawPanel_keeps (id j : PanelId) (hne : j ≠ id) (h : Handler) :
    (thawPanel id h).state.panel j = h.panel j :=
  setPanel_other _ _ _ _ hne

theorem Handler_clearAll_state (h : Handler) (id : PanelId) :
    (h.clearAll id).state = h.withState id (Stepwise.clearAll (h.stateOf id)).state := by
  unfold Handler.clearAll
  rw [Outcome.map_state]

theorem clearAll_keeps (id j : PanelId) (hne : j ≠ id) (h : Handler) :
    (h.clearAll id).state.panel j = h.panel j := by
  rw [Handler_clearAll_state]
  exact withState_other _ _ _ _ hne

theorem setImplementationName_keeps (x : XInterface) (j : PanelId) (h : Handler) :
    (setImplementationName x h).state.panel j = h.panel j := by
  unfold setImplementationName
  generalize (Reference.deref x.serviceInfo >>= fun xServiceInfo =>
    xServiceInfo.getImplementationName) = r
  cases r <;> cases j <;> rfl

/-- The handler an append function leaves, also at a failure: the handler it was called
on, apart from the tree of its own panel and the heap. -/
theorem appendPanel_state (alloc : Allocator) (xContext : Context)
    (xInterface : Option XInterface) (id : PanelId) (h : Handler) :
    ∃ st : State, (appendPanel alloc xContext xInterface id h).state = h.withState id st := by
  have hself : h = h.withState id (h.stateOf id) := by
    cases id <;> rfl
  cases xInterface with
  | none =>
    refine ⟨h.stateOf id, ?_⟩
    cases id <;> exact hself
  | some x =>
    cases id with
    | Interfaces =>
      simp only [appendPanel, appendInterfaces]
      cases x.typeProvider with
      | none => exact ⟨_, hself⟩
      | some xTypeProvider =>
        simp only []
        cases xTypeProvider.getTypes with
        | error e => exact ⟨_, hself⟩
        | ok types => exact ⟨_, Outcome.map_state _ _⟩
    | Services =>
      simp only [appendPanel, appendServices]
      generalize (Reference.deref x.serviceInfo >>= fun xServiceInfo =>
        xServiceInfo.getSupportedServiceNames) = r
      cases r with
      | error e => exact ⟨_, hself⟩
      | ok names => exact ⟨_, Outcome.map_state _ _⟩
    | Properties =>
      simp only [appendPanel, appendProperties]
      exact ⟨_, Outcome.map_state _ _⟩
    | Methods =>
      simp only [appendPanel, appendMethods]
      generalize (xContext.inspect x.toAny >>= Reference.deref >>= fun xIntrospectionAccess =>
        xIntrospectionAccess.getMethods MethodConcept.ALL) = r
      cases r with
      | error e => exact ⟨_, hself⟩
      | ok methods => exact ⟨_, Outcome.map_state _ _⟩

theorem appendPanel_keeps (alloc : Allocator) (xContext : Context)
    (xInterface : Option XInterface) (id j : PanelId) (hne : j ≠ id) (h : Handler) :
    (appendPanel alloc xContext xInterface id h).state.panel j = h.panel j := by
  obtain ⟨st, hst⟩ := appendPanel_state alloc xContext xInterface id h
  rw [hst]
  exact withState_other _ _ _ _ hne

theorem appendPanel_frozen (alloc : Allocator) (xContext : Context)
    (xInterface : Option XInterface) (id : PanelId) (h : Handler) :
    ((appendPanel alloc xContext xInterface id h).state.panel id).frozen =
      (h.panel id).frozen := by
  obtain ⟨st, hst⟩ := appendPanel_state alloc xContext xInterface id h
  rw [hst, withState_same]

theorem freeze_clear_frozen (id : PanelId) (o : Outcome Handler) (hb : Handler)
    (hs : (o.step (freezePanel id)).step (fun h => h.clearAll id) = Outcome.done hb) :
    (hb.panel id).frozen = true := by
  obtain ⟨h1, ho1, hc⟩ := Outcome.step_done_inv _ _ _ hs
  obtain ⟨h0, _, hfz⟩ := Outcome.step_done_inv _ _ _ ho1
  have hb1 : hb = (h1.clearAll id).state := by
    rw [hc]
    rfl
  have h10 : h1 = h0.setPanel id (h0.panel id).freeze := by
    cases hfz
    rfl
  rw [hb1, Handler_clearAll_state, withState_same, h10, setPanel_same]
  rfl

theorem freeze_clear_keeps_panel (id j : PanelId) (hne : j ≠ id) (o : Outcome Handler)
    (h0 : Handler) (ho : o.state.panel j = h0.panel j) :
    ((o.step (freezePanel id)).step (fun h => h.clearAll id)).state.panel j =
      h0.panel j := by
  apply Outcome.step_keeps_panel _ _ _ _ (clearAll_keeps id j hne)
  exact Outcome.step_keeps_panel _ _ _ _ (freezePanel_keeps id j hne) ho

theorem panelBlock_keeps_panel (alloc : Allocator) (xContext : Context)
    (xInterface : Option XInterface) (id j : PanelId) (hne : j ≠ id) (o : Outcome Handler)
    (h0 : Handler) (ho : o.state.panel j = h0.panel j) :
    (panelBlock alloc xContext xInterface id o).state.panel j = h0.panel j := by
  unfold panelBlock
  apply Outcome.step_keeps_panel _ _ _ _ (thawPanel_keeps id j hne)
  apply Outcome.step_keeps_panel _ _ _ _
    (appendPanel_keeps alloc xContext xInterface id j hne)
  exact freeze_clear_keeps_panel id j hne o h0 ho

theorem setImplementationName_keeps_panel (x : XInterface) (h : Handler) (j : PanelId) :
    ((Outcome.done h).step (setImplementationName x)).state.panel j = h.panel j :=
  Outcome.step_keeps_panel _ _ _ _ (setImplementationName_keeps x j) rfl

theorem beforeAppend_keeps_later (alloc : Allocator) (xContext : Context) (x : XInterface)
    (h : Handler) (id j : PanelId) (hlt : id.index < j.index) :
    (beforeAppend alloc xContext x h id).state.panel j = h.panel j := by
  have hstart := setImplementationName_keeps_panel x h j
  cases id <;> cases j <;> simp only [PanelId.index] at hlt <;>
    first
    | omega
    | (unfold beforeAppend
       first
       | exact freeze_clear_keeps_panel _ _ (by decide) _ _ hstart
       | exact freeze_clear_keeps_panel _ _ (by decide) _ _
           (panelBlock_keeps_panel _ _ _ _ _ (by decide) _ _ hstart)
       | exact freeze_clear_keeps_panel _ _ (by decide) _ _
           (panelBlock_keeps_panel _ _ _ _ _ (by decide) _ _
             (panelBlock_keeps_panel _ _ _ _ _ (by decide) _ _ hstart)))

theorem panelBlock_of_failure (alloc : Allocator) (xContext : Context)
    (xInterface : Option XInterface) (id : PanelId) (prev : Outcome Handler)
    (hb ht : Handler) (e : Failure)
    (hprev : (prev.step (freezePanel id)).step (fun h => h.clearAll id) = Outcome.done hb)
    (hfail : appendPanel alloc xContext xInterface id hb = Outcome.thrown e ht) :
    panelBlock alloc xContext xInterface id prev = Outcome.thrown e ht := by
  unfold panelBlock
  rw [hprev]
  simp only [Outcome.step, hfail]

/-! ## A failure while a panel is built -/

/-- C14, as stated, fails: for a target whose `getSupportedServiceNames` throws,
`introspect` ends with that exception; the Services panel stays frozen and the Properties
and Methods panels are left without rows, while for the same target without the failure
they get the rows of the two properties and the two methods. -/
theorem introspect_failure_skips_later_panels :
    (introspect bumpAllocator (some sampleContext) emptyHandler (some brokenTarget)).failure =
        some (Failure.exception "RuntimeException") ∧
      ((introspect bumpAllocator (some sampleContext) emptyHandler
        (some brokenTarget)).state.panel PanelId.Services).frozen = true ∧
      panelLabels (introspect bumpAllocator (some sampleContext) emptyHandler
        (some brokenTarget)).state PanelId.Properties = [] ∧
      panelLabels (introspect bumpAllocator (some sampleContext) emptyHandler
        (some brokenTarget)).state PanelId.Methods = [] ∧
      (introspect bumpAllocator (some sampleContext) emptyHandler (some sampleTarget)).failure =
        none ∧
      panelLabels (introspect bumpAllocator (some sampleContext) emptyHandler
        (some sampleTarget)).state PanelId.Properties = ["Title", "Count"] ∧
      panelLabels (introspect bumpAllocator (some sampleContext) emptyHandler
        (some sampleTarget)).state PanelId.Methods = ["getTitle", "setCount"] :=
  ⟨rfl, rfl, rfl, rfl, rfl, rfl, rfl⟩

/-- C14, amended: for every present target and each of the four panels, if the statements
of `introspect` before the append call of that panel succeed and leave the handler
`hbefore`, and the append call of the panel throws there and leaves the handler `hthrow`,
then `introspect` ends with that exception and with `hthrow`: the failing panel is left
frozen, with the rows its append call had inserted before the failure; every other panel
is as it was when the append call began, and every panel after the failing one is as it
was before the call of `introspect`, neither cleared nor repopulated nor thawed. -/
theorem introspect_failure_ends_call (alloc : Allocator) (xContext : Context) (h : Handler)
    (x : XInterface) (id : PanelId) (hbefore hthrow : Handler) (what : String)
    (hprev : beforeAppend alloc xContext x h id = Outcome.done hbefore)
    (hfail : appendPanel alloc xContext (some x) id hbefore =
      Outcome.thrown (Failure.exception what) hthrow) :
    introspect alloc (some xContext) h (some x) =
        Outcome.thrown (Failure.exception what) hthrow ∧
      (hthrow.panel id).frozen = true ∧
      (∃ st : State, hthrow = hbefore.withState id st) ∧
      (∀ j : PanelId, j ≠ id → hthrow.panel j = hbefore.panel j) ∧
      ∀ j : PanelId, id.index < j.index → hthrow.panel j = h.panel j := by
  have hstate : (appendPanel alloc xContext (some x) id hbefore).state = hthrow := by
    rw [hfail]
    rfl
  have hother : ∀ j : PanelId, j ≠ id → hthrow.panel j = hbefore.panel j := by
    intro j hne
    rw [← hstate]
    exact appendPanel_keeps alloc xContext (some x) id j hne hbefore
  have hlater : ∀ j : PanelId, id.index < j.index → hthrow.panel j = h.panel j := by
    intro j hlt
    have hne : j ≠ id := by
      intro hji
      rw [hji] at hlt
      exact Nat.lt_irrefl _ hlt
    have hk := beforeAppend_keeps_later alloc xContext x h id j hlt
    rw [hprev] at hk
    rw [hother j hne]
    exact hk
  have hwith : ∃ st : State, hthrow = hbefore.withState id st := by
    obtain ⟨st, hst⟩ := appendPanel_state alloc xContext (some x) id hbefore
    rw [hstate] at hst
    exact ⟨st, hst⟩
  have hfrozen : (hbefore.panel id).frozen = true → (hthrow.panel id).frozen = true := by
    intro hb
    rw [← hstate, appendPanel_frozen]
    exact hb
  rw [introspect_eq_blocks]
  cases id with
  | Interfaces =>
    have hr := freeze_clear_frozen _ _ _ hprev
    rw [panelBlock_of_failure alloc xContext (some x) PanelId.Interfaces _ hbefore hthrow
      (Failure.exception what) hprev hfail]
    exact ⟨rfl, hfrozen hr, hwith, hother, hlater⟩
  | Services =>
    have hr := freeze_clear_frozen _ _ _ hprev
    rw [panelBlock_of_failure alloc xContext (some x) PanelId.Services _ hbefore hthrow
      (Failure.exception what) hprev hfail]
    exact ⟨rfl, hfrozen hr, hwith, hother, hlater⟩
  | Properties =>
    have hr := freeze_clear_frozen _ _ _ hprev
    rw [panelBlock_of_failure alloc xContext (some x) PanelId.Properties _ hbefore hthrow
      (Failure.exception what) hprev hfail]
    exact ⟨rfl, hfrozen hr, hwith, hother, hlater⟩
  | Methods =>
    have hr := freeze_clear_frozen _ _ _ hprev
    rw [panelBlock_of_failure alloc xContext (some x) PanelId.Methods _ hbefore hthrow
      (Failure.exception what) hprev hfail]
    exact ⟨rfl, hfrozen hr, hwith, hother, hlater⟩

/-- C14, amended, at a concrete input: the property `Locked` of the target is an enum of
an unknown type, so `getColumnValues` throws after the row of `Locked` was inserted. The
call ends with the exception; the Properties panel is frozen and has the rows of `Title`
and `Locked`, whose node objects are live, and the Methods panel is as before the call. -/
theorem introspect_failure_ends_call_witness :
    (introspect bumpAllocator (some lockedContext) emptyHandler
        (some sampleTarget)).failure = some (Failure.exception "NoSuchElementException") ∧
      ((introspect bumpAllocator (some lockedContext) emptyHandler
        (some sampleTarget)).state.panel PanelId.Properties).frozen = true ∧
      panelRows (introspect bumpAllocator (some lockedContext) emptyHandler
        (some sampleTarget)).state PanelId.Properties =
        [("Title", "4120"), ("Locked", "4128")] ∧
      (introspect bumpAllocator (some lockedContext) emptyHandler
        (some sampleTarget)).state.heap.objects.map Prod.fst =
        [4128, 4120, 4112, 4104, 4096] ∧
      (introspect bumpAllocator (some lockedContext) emptyHandler
        (some sampleTarget)).state.panel PanelId.Methods =
        emptyHandler.panel PanelId.Methods :=
  have hc := introspect_failure_ends_call bumpAllocator lockedContext emptyHandler
    sampleTarget PanelId.Properties
    (beforeAppend bumpAllocator lockedContext sampleTarget emptyHandler
      PanelId.Properties).state
    (appendPanel bumpAllocator lockedContext (some sampleTarget) PanelId.Properties
      (beforeAppend bumpAllocator lockedContext sampleTarget emptyHandler
        PanelId.Properties).state).state
    "NoSuchElementException" (by rfl) (by rfl)
  ⟨by rw [hc.1]; rfl, by rw [hc.1]; exact hc.2.1, by rw [hc.1]; decide,
    by rw [hc.1]; decide, by rw [hc.1]; exact hc.2.2.2.2 PanelId.Methods (by decide)⟩

/-! ## The identifier of a row -/

/-- C15: when `lclAppendNodeToParent` (and so `lclAppendNode`, its call without parent)
inserts the row of the node at an address `p` that is a signed 64-bit integer, the
identifier it returns is the decimal text of `p`, it is the identifier of the new last row
below the parent, `toInt64` reads `p` back from it, and the decimal text of no other
signed 64-bit address `q` is that identifier. -/
theorem lclAppendNode_identifier_round_trip (mxContext : Context) (pTree : TreeView)
    (heap : Heap) (pParent : Option TreeIter) (p : Int) (sId : String) (pTree1 : TreeView)
    (hp0 : -9223372036854775808 ≤ p) (hp1 : p ≤ 9223372036854775807)
    (happ : lclAppendNodeToParent mxContext pTree heap pParent p = Except.ok (sId, pTree1)) :
    sId = OUString.number p ∧ OUString.toInt64 sId = p ∧
      (∃ cs row, childrenAt pTree1.rows (pParent.getD []) = some (cs ++ [row]) ∧
        childrenAt pTree.rows (pParent.getD []) = some cs ∧ row.data.id = sId) ∧
      ∀ q : Int, -9223372036854775808 ≤ q → q ≤ 9223372036854775807 → q ≠ p →
        OUString.number q ≠ sId := by
  unfold lclAppendNodeToParent at happ
  cases hd : heap.deref p with
  | error e =>
    unfold lclAppendNodeAt at happ
    simp [hd, bind, Except.bind] at happ
  | ok n =>
    cases hcols : n.getColumnValues mxContext with
    | error e =>
      obtain ⟨e1, he1⟩ := lclAppendNodeAt_columns_error mxContext pTree heap pParent p n e
        hd hcols
      rw [he1] at happ
      cases happ
    | ok cols =>
      cases hc : childrenAt pTree.rows (pParent.getD []) with
      | none =>
        unfold lclAppendNodeAt TreeView.insert at happ
        simp [hd, hc, bind, Except.bind] at happ
      | some cs =>
        obtain ⟨rowsf, hok, hupd⟩ := lclAppendNodeAt_ok mxContext pTree.rows cs heap pParent
          p n cols hd hcols hc
        have hok2 : lclAppendNodeAt mxContext pTree heap pParent p =
            Except.ok (OUString.number p, ⟨rowsf⟩) := hok
        rw [hok2] at happ
        have hpair := Except.ok.inj happ
        have hsid : sId = OUString.number p := (congrArg Prod.fst hpair).symm
        have htree : pTree1 = ⟨rowsf⟩ := (congrArg Prod.snd hpair).symm
        obtain ⟨rows1, hupd1, hch1⟩ := childrenAt_updateChildrenAt
          (fun l => l ++ [TreeRow.mk (rowDataFor p n cols) []]) (pParent.getD []) pTree.rows cs
          hc
        rw [hupd] at hupd1
        have hrows := Option.some.inj hupd1
        subst hrows
        subst hsid htree
        refine ⟨rfl, toInt64_number p hp0 hp1, ⟨cs, TreeRow.mk (rowDataFor p n cols) [], hch1,
          rfl, ?_⟩, ?_⟩
        · unfold rowDataFor
          simp only [TreeRow.data]
          rw [foldl_setTextData_id]
        · intro q hq0 hq1 hne heq
          apply hne
          rw [← toInt64_number q hq0 hq1, heq]
          exact toInt64_number p hp0 hp1

/-- C15 at a concrete input: the row of a node at the address 4104 gets the identifier
"4104", which reads back as 4104 and is not the decimal text of 4112. -/
theorem lclAppendNode_identifier_round_trip_witness :
    OUString.toInt64 "4104" = 4104 ∧ OUString.number 4112 ≠ "4104" :=
  have hc := lclAppendNode_identifier_round_trip sampleContext ⟨[]⟩
    ⟨[(4104, Node.BasicValueNode "0" (Any.long 10))]⟩ none 4104 "4104"
    ⟨[TreeRow.mk ⟨"0", "4104", false, [(0, true)], [(1, "10"), (2, "long")]⟩ []]⟩
    (by decide) (by decide) (by rfl)
  ⟨hc.2.1, hc.2.2.2 4112 (by decide) (by decide) (by decide)⟩

end ObjectInspector

/-! ## The points of the moving average -/

namespace chart

theorem toSizeT_sub (i j : Nat) (hj : j ≤ i) (hi : i < 18446744073709551616) :
    toSizeT ((i : Int) - (j : Int)) = i - j := by
  unfold toSizeT
  omega

theorem toSizeT_of_nonneg (x : Int) (h0 : 0 ≤ x) (h1 : x < 18446744073709551616) :
    toSizeT x = x.toNat := by
  unfold toSizeT
  omega

theorem toSizeT_of_neg (x : Int) (h0 : -2147483648 ≤ x) (h1 : x < 0) :
    18446744071562067968 ≤ toSizeT x := by
  unfold toSizeT
  omega

theorem foldl_add_pair {D : Type} (ops : DoubleOps D) (f g : Nat → D) (js : List Nat) :
    ∀ a b : D,
      js.foldl (fun (acc : D × D) j => (ops.add acc.1 (f j), ops.add acc.2 (g j))) (a, b) =
        ((js.map f).foldl ops.add a, (js.map g).foldl ops.add b) := by
  induction js with
  | nil =>
    intro a b
    rfl
  | cons j js ih =>
    intro a b
    simp only [List.foldl_cons, List.map_cons]
    exact ih _ _

theorem vectorAt_getD {D : Type} (v : List D) (i : Nat) (d : D) (h : i < v.length) :
    vectorAt v i = some (v.getD i d) := by
  unfold vectorAt
  rw [List.getD_eq_getElem?_getD, List.getElem?_eq_getElem h]
  rfl

theorem sumWindow_fold {D : Type} (ops : DoubleOps D) (aValues : List D × List D) (i : Nat)
    (hlen : aValues.1.length = aValues.2.length) (hi : i < aValues.1.length)
    (hsize : aValues.1.length < 9223372036854775808) (js : List Nat) :
    ∀ acc : D × D, (∀ j ∈ js, j ≤ i) →
      js.foldlM
        (fun (acc : D × D) (j : Nat) => do
          let x ← vectorAt aValues.1 (toSizeT ((i : Int) - (j : Int)))
          let y ← vectorAt aValues.2 (toSizeT ((i : Int) - (j : Int)))
          pure (ops.add acc.1 x, ops.add acc.2 y)) acc =
        some (js.foldl (fun (acc : D × D) j =>
          (ops.add acc.1 (aValues.1.getD (i - j) ops.zero),
            ops.add acc.2 (aValues.2.getD (i - j) ops.zero))) acc) := by
  induction js with
  | nil =>
    intro acc _
    rfl
  | cons j js ih =>
    intro acc hjs
    have hj : j ≤ i := hjs j (List.mem_cons_self _ _)
    have hidx : toSizeT ((i : Int) - (j : Int)) = i - j := toSizeT_sub i j hj (by omega)
    have hx := vectorAt_getD aValues.1 (i - j) ops.zero (by omega)
    have hy := vectorAt_getD aValues.2 (i - j) ops.zero (by omega)
    rw [List.foldlM_cons, hidx, hx, hy]
    simp only [Option.bind_eq_bind, Option.some_bind, Option.pure_def, List.foldl_cons]
    exact ih _ (fun k hk => hjs k (List.mem_cons_of_mem _ hk))

theorem sumWindow_eq {D : Type} (ops : DoubleOps D) (aValues : List D × List D) (i p : Nat)
    (hlen : aValues.1.length = aValues.2.length) (hi : i < aValues.1.length)
    (hsize : aValues.1.length < 9223372036854775808) (hp : p ≤ i + 1) :
    sumWindow ops aValues i (p : Int) =
      some (((List.range p).map (fun j => aValues.1.getD (i - j) ops.zero)).foldl ops.add
          ops.zero,
        ((List.range p).map (fun j => aValues.2.getD (i - j) ops.zero)).foldl ops.add
          ops.zero) := by
  unfold sumWindow
  rw [Int.toNat_ofNat, sumWindow_fold ops aValues i hlen hi hsize (List.range p) _
    (fun j hj => by have := List.mem_range.mp hj; omega), foldl_add_pair]

theorem windowMean_at {D : Type} (ops : DoubleOps D) (v : List D) (i p : Nat)
    (hp0 : 1 ≤ p) (hp : p ≤ i + 1) :
    windowMean ops v (i + 1 - p) p =
      ops.div (((List.range p).map (fun j => v.getD (i - j) ops.zero)).foldl ops.add ops.zero)
        (ops.ofInt32 p) := by
  unfold windowMean
  have hidx : i + 1 - p + p - 1 = i := by omega
  simp only [hidx]

theorem calculateValuesStep_eq {D : Type} (ops : DoubleOps D) (aValues : List D × List D)
    (i p : Nat) (bUseXAvg : Bool) (lists : List D × List D)
    (hlen : aValues.1.length = aValues.2.length) (hi : i < aValues.1.length)
    (hsize : aValues.1.length < 9223372036854775808) (hp0 : 1 ≤ p) (hp : p ≤ i + 1) :
    calculateValuesStep ops aValues (p : Int) bUseXAvg lists i =
      some (lists.1 ++ [if bUseXAvg then windowMean ops aValues.1 (i + 1 - p) p
          else aValues.1.getD i ops.zero],
        lists.2 ++ [windowMean ops aValues.2 (i + 1 - p) p]) := by
  unfold calculateValuesStep
  rw [sumWindow_eq ops aValues i p hlen hi hsize hp, windowMean_at ops _ i p hp0 hp,
    windowMean_at ops _ i p hp0 hp]
  cases bUseXAvg with
  | true => rfl
  | false =>
    simp only [Option.bind_eq_bind, Option.some_bind, Bool.false_eq_true, if_false]
    rw [vectorAt_getD aValues.1 i ops.zero hi]
    rfl

theorem calculateValues_fold {D : Type} (ops : DoubleOps D) (aValues : List D × List D)
    (p : Nat) (bUseXAvg : Bool)
    (hlen : aValues.1.length = aValues.2.length)
    (hsize : aValues.1.length < 9223372036854775808) (hp0 : 1 ≤ p) (is : List Nat) :
    ∀ lists : List D × List D, (∀ i ∈ is, p ≤ i + 1 ∧ i < aValues.1.length) →
      is.foldlM (calculateValuesStep ops aValues (p : Int) bUseXAvg) lists =
        some (lists.1 ++ is.map (fun i =>
            if bUseXAvg then windowMean ops aValues.1 (i + 1 - p) p
            else aValues.1.getD i ops.zero),
          lists.2 ++ is.map (fun i => windowMean ops aValues.2 (i + 1 - p) p)) := by
  induction is with
  | nil =>
    intro lists _
    simp only [List.foldlM_nil, List.map_nil, List.append_nil]
    rfl
  | cons i is ih =>
    intro lists his
    have hi := his i (List.mem_cons_self _ _)
    rw [List.foldlM_cons, calculateValuesStep_eq ops aValues i p bUseXAvg lists hlen hi.2 hsize
      hp0 hi.1]
    simp only [Option.bind_eq_bind, Option.some_bind]
    rw [ih _ (fun k hk => his k (List.mem_cons_of_mem _ hk))]
    simp only [List.map_cons, List.append_assoc, List.singleton_append]

theorem pointCount_of_window (n : Nat) (p : Int) (h1 : 1 ≤ p) (h2 : p ≤ n) :
    pointCount n p = n + 1 - p.toNat := by
  unfold pointCount
  rw [if_pos ⟨h1, h2⟩]

theorem pointCount_of_none (n : Nat) (p : Int) (h : p ≤ 0 ∨ (n : Int) < p) :
    pointCount n p = 0 := by
  unfold pointCount
  rw [if_neg]
  omega

/-- C17: for cleaned x and y values of the same length `n` (a length a `std::vector` can
have) and a period `p` above the least `sal_Int32`, `calculateValues` reads inside the two
vectors only (it returns a result) and appends as many x values as y values: the
`n - p + 1` points of the windows when `1 ≤ p ≤ n`, the k-th y being the mean of
`y[k..k+p-1]` and the k-th x being `x[k+p-1]`, or the mean of `x[k..k+p-1]` when
`bUseXAvg` is set, and no point when `p ≤ 0` or `n < p`. -/
theorem calculateValues_points {D : Type} (ops : DoubleOps D) (aValues : List D × List D)
    (nPeriod : Int) (bUseXAvg : Bool) (lists : List D × List D)
    (hlen : aValues.1.length = aValues.2.length)
    (hsize : aValues.1.length < 9223372036854775808)
    (hmin : -2147483648 < nPeriod) (hmax : nPeriod ≤ 2147483647) :
    calculateValues ops aValues nPeriod bUseXAvg lists =
        some (lists.1 ++ xPoints ops aValues nPeriod bUseXAvg,
          lists.2 ++ yPoints ops aValues nPeriod) ∧
      (xPoints ops aValues nPeriod bUseXAvg).length = pointCount aValues.1.length nPeriod ∧
      (yPoints ops aValues nPeriod).length = pointCount aValues.1.length nPeriod ∧
      (1 ≤ nPeriod → nPeriod ≤ aValues.1.length →
        (pointCount aValues.1.length nPeriod : Int) = aValues.1.length - nPeriod + 1) ∧
      (nPeriod ≤ 0 ∨ (aValues.1.length : Int) < nPeriod →
        pointCount aValues.1.length nPeriod = 0) := by
  refine ⟨?_, ?_, ?_, ?_, ?_⟩
  · have hchk : checkedInt32 (nPeriod - 1) = some (nPeriod - 1) := by
      unfold checkedInt32
      rw [if_pos]
      omega
    unfold calculateValues
    rw [hchk]
    simp only [Option.bind_eq_bind, Option.some_bind]
    by_cases hw : 1 ≤ nPeriod ∧ nPeriod ≤ aValues.1.length
    · obtain ⟨p, hp⟩ := Int.eq_ofNat_of_zero_le (by omega : 0 ≤ nPeriod)
      subst hp
      have hp0 : 1 ≤ p := by omega
      have hpn : p ≤ aValues.1.length := by omega
      have hstart : toSizeT ((p : Int) - 1) = p - 1 := by
        rw [toSizeT_of_nonneg _ (by omega) (by omega)]
        omega
      rw [hstart, calculateValues_fold ops aValues p bUseXAvg hlen hsize hp0 _ lists
        (fun i hi => by have := List.mem_range'_1.mp hi; omega)]
      have hcount : pointCount aValues.1.length (p : Int) = aValues.1.length - (p - 1) := by
        rw [pointCount_of_window _ _ hw.1 hw.2, Int.toNat_ofNat]
        omega
      unfold xPoints yPoints
      rw [hcount, List.range'_eq_map_range, List.map_map, List.map_map, Int.toNat_ofNat]
      have hy : ∀ k : Nat, p - 1 + k = k + p - 1 := fun k => by omega
      have hx : ∀ k : Nat, k + p - 1 + 1 - p = k := fun k => by omega
      simp only [Function.comp_def, hy, hx]
    · have hcount : pointCount aValues.1.length nPeriod = 0 :=
        pointCount_of_none _ _ (by omega)
      have hempty : aValues.1.length - toSizeT (nPeriod - 1) = 0 := by
        by_cases hneg : nPeriod ≤ 0
        · have := toSizeT_of_neg (nPeriod - 1) (by omega) (by omega)
          omega
        · rw [toSizeT_of_nonneg _ (by omega) (by omega)]
          omega
      unfold xPoints yPoints
      rw [hempty, hcount]
      simp only [List.range'_zero, List.foldlM_nil, List.range_zero, List.map_nil,
        List.append_nil]
      rfl
  · unfold xPoints
    rw [List.length_map, List.length_range]
  · unfold yPoints
    rw [List.length_map, List.length_range]
  · intro h1 h2
    rw [pointCount_of_window _ _ h1 h2]
    omega
  · exact pointCount_of_none _ _

/-- C17 at a concrete input: four points and the period 3 give the two windows. -/
theorem calculateValues_points_witness :
    calculateValues symOps samplePoints 3 false ([], []) =
      some ([SymDouble.value "x2", SymDouble.value "x3"],
        [SymDouble.div
          (SymDouble.add (SymDouble.add (SymDouble.add SymDouble.zero (SymDouble.value "y2"))
            (SymDouble.value "y1")) (SymDouble.value "y0")) (SymDouble.ofInt32 3),
         SymDouble.div
          (SymDouble.add (SymDouble.add (SymDouble.add SymDouble.zero (SymDouble.value "y3"))
            (SymDouble.value "y2")) (SymDouble.value "y1")) (SymDouble.ofInt32 3)]) :=
  (calculateValues_points symOps samplePoints 3 false ([], []) (by decide) (by decide)
    (by decide) (by decide)).1

end chart
